import Mathlib

/-!
# trigo-basis: Bézier surface core of `MyViewer.cpp`

A shallow embedding of the computational core of `src/MyViewer.cpp`:
the Bernstein basis evaluator, the tensor-product surface evaluator, degree
elevation, the Bézier control file reader and writer, and the curvature range.

Conventions of the embedding.

* `double` is an arbitrary linearly ordered field `K` (exact arithmetic); the
  definitions run on `ℚ`, the theorems hold for every such field, `ℝ` included.
* `size_t` is `ℕ`: degrees, counts and indices are natural numbers, so an increment or
  a product does not wrap; in the source that takes `2^64` control points or more.  The
  one subtraction that wraps on a small input, `n - 1` at `n = 0` in the derivative
  evaluator, is modelled as failure.
* `std::vector` is `List`; a read `xs[i]` in the evaluators and in degree elevation is
  the checked read `xs[i]?`, so a function that indexes out of bounds returns `none`.
* a C++ `for` loop over a counter is `forLoop`, or `forLoopE` when the body can throw.
-/

namespace TrigoBasis

/-! ## Loops -/

/-- The loop `for (i = lo; i < lo + cnt; ++i) s = body i s`, where the body can fail
and a failure ends the loop. -/
def forLoop {σ : Type} (body : ℕ → σ → Option σ) : ℕ → ℕ → σ → Option σ
  | _, 0, s => some s
  | lo, cnt + 1, s => (body lo s).bind (forLoop body (lo + 1) cnt)

/-! ## Bernstein basis (`MyViewer.cpp`, lines 731-767) -/

section Basis

variable {K : Type} [LinearOrderedField K]

/-- Body of the inner loop of `bernstein(n, u, coeff)`; the state is `(coeff, saved)`:
`tmp = coeff[k]; coeff[k] = saved + tmp * u1; saved = tmp * u`. -/
def bernsteinInner (u u1 : K) (k : ℕ) (st : List K × K) : Option (List K × K) :=
  match st.1[k]? with
  | none => none
  | some tmp => some (st.1.set k (st.2 + tmp * u1), tmp * u)

/-- Body of the outer loop of `bernstein(n, u, coeff)`: `saved = 0`, the inner loop
over `k < j`, then `coeff.push_back(saved)`. -/
def bernsteinOuter (u u1 : K) (j : ℕ) (coeff : List K) : Option (List K) :=
  match forLoop (bernsteinInner u u1) 0 j (coeff, 0) with
  | none => none
  | some (c, saved) => some (c ++ [saved])

/-- The function `bernstein(size_t n, double u, std::vector<double> &coeff)`: all `n + 1`
Bernstein basis values of degree `n` at `u`, by the triangular in-place update. -/
def bernstein (n : ℕ) (u : K) : Option (List K) :=
  forLoop (bernsteinOuter u (1 - u)) 1 n [1]

/-- One derivative row of `bernstein(n, u, derivatives, coeffs)`, built from the row
`last` of the degree `n - 1` table: `n * -last[0]`, then `n * (last[j-1] - last[j])`
for `1 <= j < n`, then `n * last[n-1]`.  It is reached with `n >= 1` only, where
`n - 1` does not wrap. -/
def bernsteinDerRow (n : ℕ) (last : List K) : Option (List K) :=
  match last[0]? with
  | none => none
  | some l0 =>
    match forLoop (fun j (tmp : List K) =>
        match last[j - 1]?, last[j]? with
        | some a, some b => some (tmp ++ [(n : K) * (a - b)])
        | _, _ => none) 1 (n - 1) [(n : K) * -l0] with
    | none => none
    | some tmp =>
      match last[n - 1]? with
      | none => none
      | some ln => some (tmp ++ [(n : K) * ln])

/-- The function `bernstein(size_t n, double u, size_t derivatives, coeffs)`: row `0`
is the basis, row `i` its `i`-th derivative, each obtained from row `i - 1` of the
table of degree `n - 1`.  The source assumes `derivatives <= n`; with `n = 0` and
`derivatives > 0` the unsigned `n - 1` wraps to `SIZE_MAX`, a call that cannot
complete, which is `none` here. -/
def bernsteinDer : ℕ → K → ℕ → Option (List (List K))
  | n, u, 0 =>
    match bernstein n u with
    | none => none
    | some coeff => some [coeff]
  | n, u, d + 1 =>
    match bernstein n u with
    | none => none
    | some coeff =>
      match n with
      | 0 => none
      | n' + 1 =>
        match bernsteinDer n' u d with
        | none => none
        | some rec =>
          forLoop (fun i (coeffs : List (List K)) =>
            match rec[i - 1]? with
            | none => none
            | some last =>
              match bernsteinDerRow (n' + 1) last with
              | none => none
              | some tmp => some (coeffs ++ [tmp])) 1 (d + 1) [coeff]

/-- The Bernstein polynomial `C(n,k) u^k (1-u)^(n-k)` as a value. -/
def bern (n k : ℕ) (u : K) : K := (n.choose k : K) * u ^ k * (1 - u) ^ (n - k)

end Basis


/-! ## The Bézier surface model (`MyViewer.cpp`, lines 769-853) -/

/-- The class `qglviewer::Vec`: a point or vector with three coordinates; `a • p` is
the source's `p * a`. -/
abbrev Vec (K : Type) := K × K × K

/-- The enumeration `ModelType`. -/
inductive ModelType where
  | NONE
  | MESH
  | BEZIER_SURFACE
  deriving DecidableEq, Repr

/-- The members of `MyViewer` that describe the current Bézier surface. -/
structure MyViewer (K : Type) where
  model_type : ModelType
  trigonometric_basis : Bool
  degree : ℕ × ℕ
  control_points : List (Vec K)
  last_filename : String

namespace MyViewer

section Surface

variable {K : Type} [LinearOrderedField K]

/-- The invariant of the data model: the control point count is `(n+1)(m+1)`. -/
def countInvariant (s : MyViewer K) : Prop :=
  s.control_points.length = (s.degree.1 + 1) * (s.degree.2 + 1)

instance (s : MyViewer K) : Decidable s.countInvariant := by
  unfold countInvariant; infer_instance

/-- Innermost statement of `evaluate`,
`der[i][j] += control_points[index] * coeff_u[i][k] * coeff_v[j][l]` followed by
`++index`; the state is `(der[i][j], index)`, `cu` is `coeff_u[i]`, `cv` is `coeff_v[j]`. -/
def evaluateTerm (cp : List (Vec K)) (cu cv : List K) (k l : ℕ) (st : Vec K × ℕ) :
    Option (Vec K × ℕ) :=
  match cp[st.2]?, cu[k]?, cv[l]? with
  | some p, some a, some b => some (st.1 + b • (a • p), st.2 + 1)
  | _, _, _ => none

/-- The two inner loops of `evaluate` for one pair `(i, j)`: `k` from `0` to `n`, `l`
from `0` to `m`, with `index` starting at `0`; the entry starts from `Vec(0, 0, 0)`. -/
def evaluateEntry (cp : List (Vec K)) (n m : ℕ) (cu cv : List K) : Option (Vec K) :=
  match forLoop (fun k st => forLoop (evaluateTerm cp cu cv k) 0 (m + 1) st) 0 (n + 1)
      ((0 : Vec K), 0) with
  | none => none
  | some (acc, _) => some acc

/-- The basis tables `coeff_u`, `coeff_v` of `evaluate`: when the trigonometric basis
is selected and both degrees are odd the branch is empty (`// TODO`) and both tables
stay empty, otherwise they are the Bernstein tables. -/
def evaluateCoeffs (s : MyViewer K) (u v : K) (derivatives : ℕ) :
    Option (List (List K) × List (List K)) :=
  if s.trigonometric_basis && s.degree.1 % 2 == 1 && s.degree.2 % 2 == 1 then
    some ([], [])
  else
    match bernsteinDer s.degree.1 u derivatives, bernsteinDer s.degree.2 v derivatives with
    | some coeff_u, some coeff_v => some (coeff_u, coeff_v)
    | _, _ => none

/-- The loops over `i` and `j` of `evaluate` that fill the table `der`.  Entry
`der[i][j]` is initialised to `Vec(0, 0, 0)` and only written by the iteration `(i, j)`,
so the table is built row by row, entry by entry. -/
def evaluateTable (cp : List (Vec K)) (n m : ℕ) (coeff_u coeff_v : List (List K))
    (derivatives : ℕ) : Option (List (List (Vec K))) :=
  forLoop (fun i (der : List (List (Vec K))) =>
    match forLoop (fun j (row : List (Vec K)) =>
        match coeff_u[i]?, coeff_v[j]? with
        | some cu, some cv =>
          match evaluateEntry cp n m cu cv with
          | none => none
          | some e => some (row ++ [e])
        | _, _ => none) 0 (derivatives + 1) [] with
    | none => none
    | some row => some (der ++ [row])) 0 (derivatives + 1) []

/-- The function `MyViewer::evaluate(u, v, derivatives, der)`: the returned position
`der[0][0]` and the table `der`. -/
def evaluateDer (s : MyViewer K) (u v : K) (derivatives : ℕ) :
    Option (Vec K × List (List (Vec K))) :=
  match evaluateCoeffs s u v derivatives with
  | none => none
  | some (coeff_u, coeff_v) =>
    match evaluateTable s.control_points s.degree.1 s.degree.2 coeff_u coeff_v derivatives with
    | none => none
    | some der =>
      match der[0]? with
      | none => none
      | some row =>
        match row[0]? with
        | none => none
        | some p => some (p, der)

/-- The function `MyViewer::evaluate(u, v)`: `evaluate(u, v, 0, dummy)`. -/
def evaluate (s : MyViewer K) (u v : K) : Option (Vec K) :=
  match evaluateDer s u v 0 with
  | none => none
  | some (p, _) => some p

/-- The function `MyViewer::elevateU()`: the first row is copied, row `i` for
`1 <= i <= degree[0]` blends the old rows `i - 1` and `i` with
`ratio = i / (degree[0] + 1)`, the last old row is copied, and `degree[0]` grows by one. -/
def elevateU (s : MyViewer K) : Option (MyViewer K) :=
  let cp := s.control_points
  match forLoop (fun j (tmp : List (Vec K)) =>
      match cp[j]? with
      | some p => some (tmp ++ [p])
      | none => none) 0 (s.degree.2 + 1) [] with
  | none => none
  | some tmp =>
    match forLoop (fun i (st : List (Vec K) × ℕ) =>
        forLoop (fun _ (st : List (Vec K) × ℕ) =>
          match cp[st.2 - s.degree.2 - 1]?, cp[st.2]? with
          | some p, some q =>
            some (st.1 ++ [((i : K) / ((s.degree.1 + 1 : ℕ) : K)) • p +
                (1 - (i : K) / ((s.degree.1 + 1 : ℕ) : K)) • q], st.2 + 1)
          | _, _ => none) 0 (s.degree.2 + 1) st) 1 s.degree.1 (tmp, s.degree.2 + 1) with
    | none => none
    | some (tmp, _) =>
      match forLoop (fun j (tmp : List (Vec K)) =>
          match cp[s.degree.1 * (s.degree.2 + 1) + j]? with
          | some p => some (tmp ++ [p])
          | none => none) 0 (s.degree.2 + 1) tmp with
      | none => none
      | some tmp => some { s with control_points := tmp, degree := (s.degree.1 + 1, s.degree.2) }

/-- The function `MyViewer::elevateV()`: in every row the first point is copied, point
`j` for `1 <= j <= degree[1]` blends the old points `j - 1` and `j` with
`ratio = j / (degree[1] + 1)`, the last old point is copied, and `degree[1]` grows by
one.  The state of the outer loop is `(tmp, index)`. -/
def elevateV (s : MyViewer K) : Option (MyViewer K) :=
  let cp := s.control_points
  match forLoop (fun _ (st : List (Vec K) × ℕ) =>
      match cp[st.2]? with
      | none => none
      | some p0 =>
        match forLoop (fun j (st : List (Vec K) × ℕ) =>
            match cp[st.2 - 1]?, cp[st.2]? with
            | some p, some q =>
              some (st.1 ++ [((j : K) / ((s.degree.2 + 1 : ℕ) : K)) • p +
                  (1 - (j : K) / ((s.degree.2 + 1 : ℕ) : K)) • q], st.2 + 1)
            | _, _ => none) 1 s.degree.2 (st.1 ++ [p0], st.2 + 1) with
        | none => none
        | some (tmp, index) =>
          match cp[index - 1]? with
          | none => none
          | some pl => some (tmp ++ [pl], index)) 0 (s.degree.1 + 1) ([], 0) with
  | none => none
  | some (tmp, _) => some { s with control_points := tmp, degree := (s.degree.1, s.degree.2 + 1) }

/-- Closed form of the control point at position `idx` of the grid that `elevateU`
builds from the grid `cp` of degrees `(n, m)`: with `i = idx / (m + 1)` the row,
`(i / (n+1)) * cp[idx - (m+1)] + (1 - i / (n+1)) * cp[idx]`. -/
def elevatedU (cp : List (Vec K)) (n m idx : ℕ) : Vec K :=
  (((idx / (m + 1) : ℕ) : K) / ((n + 1 : ℕ) : K)) • cp.getD (idx - (m + 1)) 0 +
    (1 - ((idx / (m + 1) : ℕ) : K) / ((n + 1 : ℕ) : K)) • cp.getD idx 0

/-- Closed form of the control point at position `idx` of the grid that `elevateV`
builds from the grid `cp` of degrees `(n, m)`: with `i = idx / (m + 2)` the row and
`j = idx % (m + 2)` the column,
`(j / (m+1)) * cp[i (m+1) + j - 1] + (1 - j / (m+1)) * cp[i (m+1) + j]`. -/
def elevatedV (cp : List (Vec K)) (m idx : ℕ) : Vec K :=
  (((idx % (m + 2) : ℕ) : K) / ((m + 1 : ℕ) : K)) •
      cp.getD (idx / (m + 2) * (m + 1) + idx % (m + 2) - 1) 0 +
    (1 - ((idx % (m + 2) : ℕ) : K) / ((m + 1 : ℕ) : K)) •
      cp.getD (idx / (m + 2) * (m + 1) + idx % (m + 2)) 0

end Surface

end MyViewer

/-! ## Bézier control files (`MyViewer.cpp`, lines 384-420)

The stream library is not part of the repository; it is modelled at the level of the
whitespace-separated fields of the file. -/

/-- One whitespace-separated field of a text file, described by the number it spells.
`size n` is an unsigned decimal integer such as `12`; `real x` is any other decimal
number such as `-0.5` or `1.23457e+06`; `junk` is a field that is not a number.  The
model covers the files in which an extraction either consumes a whole field or fails
on it: a field that `>> size_t` would split or negate, such as `3.5` or `-1` at a
place where a size is read, counts as a malformed field. -/
inductive Token (K : Type) where
  | size (n : ℕ)
  | real (x : K)
  | junk

/-- A loop `for (i = lo; i < lo + cnt; ++i)` whose body can throw; the error value is
what the handler finds. -/
def forLoopE {σ ε : Type} (body : ℕ → σ → Except ε σ) : ℕ → ℕ → σ → Except ε σ
  | _, 0, s => Except.ok s
  | lo, cnt + 1, s =>
    match body lo s with
    | Except.error e => Except.error e
    | Except.ok t => forLoopE body (lo + 1) cnt t

namespace MyViewer

section Files

variable {K : Type} [LinearOrderedField K]

/-- The extraction `f >> n` into a `size_t` with `failbit` exceptions enabled: `none`
is the throw (end of file or a field that is not an unsigned integer). -/
def readSize : List (Token K) → Option (ℕ × List (Token K))
  | Token.size n :: rest => some (n, rest)
  | _ => none

/-- The vector operation `control_points.resize(count)`: truncate, or pad with
`Vec()`, which is the zero vector. -/
def resize (cp : List (Vec K)) (count : ℕ) : List (Vec K) :=
  cp.take count ++ List.replicate (count - cp.length) 0

/-- The assignment to `control_points[index][c]` for `c = 0, 1, 2`.  In `openBezier`
the index is always inside the grid, which has been resized to hold every point. -/
def setCoord (cp : List (Vec K)) (index : ℕ) (c : Fin 3) (x : K) : List (Vec K) :=
  match cp[index]? with
  | none => cp
  | some p =>
    cp.set index
      (match c with
       | 0 => (x, p.2.1, p.2.2)
       | 1 => (p.1, x, p.2.2)
       | 2 => (p.1, p.2.1, x))

/-- The extraction `f >> control_points[index][c]` into a `double`; the state is the
grid and the rest of the stream.  At the end of the file nothing is stored before the
throw; on a malformed field zero is stored (the rule since C++11); the error value is
the grid at the time of the throw. -/
def readCoord (index : ℕ) (c : Fin 3) (st : List (Vec K) × List (Token K)) :
    Except (List (Vec K)) (List (Vec K) × List (Token K)) :=
  match st.2 with
  | [] => Except.error st.1
  | Token.junk :: _ => Except.error (setCoord st.1 index c 0)
  | Token.size n :: rest => Except.ok (setCoord st.1 index c (n : K), rest)
  | Token.real x :: rest => Except.ok (setCoord st.1 index c x, rest)

/-- Body of the inner loop of `openBezier`: the three extractions for
`control_points[index]`, then `++index`; the state is `((grid, stream), index)`. -/
def readPoint (st : (List (Vec K) × List (Token K)) × ℕ) :
    Except (List (Vec K)) ((List (Vec K) × List (Token K)) × ℕ) :=
  match readCoord st.2 0 st.1 with
  | Except.error e => Except.error e
  | Except.ok s0 =>
    match readCoord st.2 1 s0 with
    | Except.error e => Except.error e
    | Except.ok s1 =>
      match readCoord st.2 2 s1 with
      | Except.error e => Except.error e
      | Except.ok s2 => Except.ok (s2, st.2 + 1)

/-- The function `MyViewer::openBezier(filename, update_view)` on the surface members:
the returned flag and the members after the call.  `file` is the content of the file,
`none` when it cannot be opened (then `f.exceptions` throws at once).  The header
values go to `degree` (`degree[0] = n++` stores `n` and then increments the local),
the grid is resized to `(n+1)(m+1)` and filled point by point; a throw anywhere
returns `false` with whatever has been stored so far.  The closing calls `updateMesh`
and `setupCamera` touch only the mesh and the camera, which are not in this record;
the flag `true` stands for the parse and the commit of the members having succeeded. -/
def openBezier (file : Option (List (Token K))) (filename : String) (s : MyViewer K) :
    Bool × MyViewer K :=
  match file with
  | none => (false, s)
  | some toks =>
    match readSize toks with
    | none => (false, s)
    | some (n, toks) =>
      match readSize toks with
      | none => (false, s)
      | some (m, toks) =>
        match forLoopE (fun _ st => forLoopE (fun _ st => readPoint st) 0 (m + 1) st)
            0 (n + 1) ((resize s.control_points ((n + 1) * (m + 1)), toks), 0) with
        | Except.error cp =>
          (false, { s with degree := (n, m), control_points := cp })
        | Except.ok ((cp, _), _) =>
          (true, { s with degree := (n, m), control_points := cp,
                          model_type := ModelType.BEZIER_SURFACE, last_filename := filename })

/-- The number a field spells when it is read as a `double`. -/
def Token.value : Token K → Option K
  | Token.size n => some (n : K)
  | Token.real x => some x
  | Token.junk => none

/-- The file format of the specification, point lines: the first `count` points of a
stream of fields, three numbers each; `none` when a field is not a number or the
stream ends early. -/
def pointLines : ℕ → List (Token K) → Option (List (Vec K))
  | 0, _ => some []
  | count + 1, a :: b :: c :: rest =>
    match Token.value a, Token.value b, Token.value c, pointLines count rest with
    | some x, some y, some z, some pts => some ((x, y, z) :: pts)
    | _, _, _, _ => none
  | _ + 1, _ => none

/-- The file format of the specification (section 6), whole file: two unsigned
integers `n m`, then `(n+1)(m+1)` point lines; the result is the header pair as written
and the points, `none` for a file that cannot be opened, is malformed or ends early. -/
def parseBezier : Option (List (Token K)) → Option ((ℕ × ℕ) × List (Vec K))
  | some (Token.size n :: Token.size m :: rest) =>
    match pointLines ((n + 1) * (m + 1)) rest with
    | some pts => some ((n, m), pts)
    | none => none
  | _ => none

end Files

section Printing

variable {K : Type} [LinearOrderedField K] [FloorRing K]

/-- Rounding of a non-negative number to the nearest integer, ties to even. -/
def roundHalfEven (x : K) : ℕ :=
  if x - (⌊x⌋₊ : K) < 1 / 2 then ⌊x⌋₊
  else if 1 / 2 < x - (⌊x⌋₊ : K) then ⌊x⌋₊ + 1
  else if ⌊x⌋₊ % 2 = 0 then ⌊x⌋₊ else ⌊x⌋₊ + 1

/-- The number spelled by the text that `f << x` writes for a `double` at the default
stream precision, six significant decimal digits: with `10^e <= |x| < 10^(e+1)`, the
multiple of `10^(e-5)` nearest to `x`. -/
def sixDigits (x : K) : K :=
  if x = 0 then 0
  else
    (if x < 0 then -1 else 1) *
      ((roundHalfEven (|x| / (10 : K) ^ (Int.log 10 |x| - 5)) : ℕ) : K) *
        (10 : K) ^ (Int.log 10 |x| - 5)

/-- The field written by `f << x` for a `double`: digits only when the rounded value
is a natural number below `10^6`, a general decimal number otherwise. -/
def printReal (x : K) : Token K :=
  if 0 ≤ sixDigits x ∧ sixDigits x < 1000000 ∧ (⌊sixDigits x⌋₊ : K) = sixDigits x then
    Token.size ⌊sixDigits x⌋₊
  else Token.real (sixDigits x)

/-- The function `MyViewer::saveBezier(filename)`: the fields written to the file when
it returns `true`, `none` when it returns `false` (the model is not a Bézier surface).
The header is `degree[0] degree[1]`, then one line `x y z` per control point. -/
def saveBezier (s : MyViewer K) : Option (List (Token K)) :=
  if s.model_type ≠ ModelType.BEZIER_SURFACE then none
  else
    some (Token.size s.degree.1 :: Token.size s.degree.2 ::
      s.control_points.flatMap (fun p => [printReal p.1, printReal p.2.1, printReal p.2.2]))

end Printing

end MyViewer

/-! ## Curvature range (`MyViewer.cpp`, lines 48-62) -/

/-- The cached members `mean_min` and `mean_max`. -/
structure MeanRange (K : Type) where
  mean_min : K
  mean_max : K

section Range

variable {K : Type} [LinearOrderedField K] [FloorRing K]

/-- The cut-off count `size_t k = (double)n * cutoff_ratio` (truncation of a
non-negative product). -/
def cutoffCount (n : ℕ) (cutoff_ratio : K) : ℕ := ⌊(n : K) * cutoff_ratio⌋₊

/-- The position `k ? k-1 : 0` read for `mean_min`. -/
def meanMinIndex (k : ℕ) : ℕ := if k ≠ 0 then k - 1 else 0

/-- The position `n-k` read for `mean_max` (`none` when the unsigned subtraction wraps). -/
def meanMaxIndex (n k : ℕ) : Option ℕ := if k ≤ n then some (n - k) else none

/-- An unchecked read `mean[i]` of a `std::vector<double>`: past the end the C++ is
undefined; the value read there is the unspecified number `oob`. -/
def readAt (oob : K) (mean : List K) (i : Option ℕ) : K :=
  match i with
  | none => oob
  | some i => mean.getD i oob

/-- The function `MyViewer::updateMeanMinMax()`: `vertex_mean` lists `mesh.data(v).mean`
over the vertices, `r` is the cached range before the call. -/
def updateMeanMinMax (oob : K) (vertex_mean : List K) (cutoff_ratio : K) (r : MeanRange K) :
    MeanRange K :=
  if vertex_mean.length = 0 then r
  else
    { mean_min :=
        min (readAt oob (vertex_mean.insertionSort (· ≤ ·))
          (some (meanMinIndex (cutoffCount vertex_mean.length cutoff_ratio)))) 0,
      mean_max :=
        max (readAt oob (vertex_mean.insertionSort (· ≤ ·))
          (meanMaxIndex vertex_mean.length (cutoffCount vertex_mean.length cutoff_ratio))) 0 }

end Range

/-! ## Sample data -/

/-- A bilinear patch over `ℚ`: degrees `(1, 1)`, four control points. -/
def patch11 : MyViewer ℚ :=
  { model_type := ModelType.BEZIER_SURFACE, trigonometric_basis := false, degree := (1, 1),
    control_points := [(0, 0, 0), (0, 1, 0), (1, 0, 0), (1, 1, 2)], last_filename := "" }

/-- The file with header `1 1` followed by four valid point lines. -/
def file11 : List (Token ℚ) :=
  [Token.size 1, Token.size 1,
   Token.size 0, Token.size 0, Token.size 0,
   Token.size 0, Token.size 1, Token.real (1/2),
   Token.size 1, Token.size 0, Token.real (-1/2),
   Token.size 1, Token.size 1, Token.size 2]

/-- The file with header `1 1` that ends after its first point line. -/
def fileShort : List (Token ℚ) :=
  [Token.size 1, Token.size 1, Token.size 9, Token.size 9, Token.size 9]

/-- The state of a viewer that has loaded nothing yet. -/
def emptyViewer : MyViewer ℚ :=
  { model_type := ModelType.NONE, trigonometric_basis := false, degree := (0, 0),
    control_points := [], last_filename := "" }

/-- A degree `(0, 0)` surface with its single control point, loaded from `old.bzr`. -/
def patch00 : MyViewer ℚ :=
  { model_type := ModelType.BEZIER_SURFACE, trigonometric_basis := false, degree := (0, 0),
    control_points := [(5, 5, 5)], last_filename := "old.bzr" }

/-- A degree `(0, 0)` surface whose control point has a coordinate with seven
significant digits. -/
def patchSeven : MyViewer ℚ :=
  { model_type := ModelType.BEZIER_SURFACE, trigonometric_basis := false, degree := (0, 0),
    control_points := [(1234567, 0, 0)], last_filename := "seven.bzr" }


/-! ## Curvature colours (`MyViewer.cpp`, lines 263-293) -/

section Colour

variable {K : Type} [LinearOrderedField K] [FloorRing K]

/-- The library function `std::fmod(x, y)`: `x - y * trunc(x / y)`, the remainder with the
sign of `x`. -/
def fmod (x y : K) : K :=
  x - y * (if 0 ≤ x / y then ((⌊x / y⌋ : ℤ) : K) else ((⌈x / y⌉ : ℤ) : K))

/-- The function `HSV2RGB(hsv)`: hue in degrees, saturation and value in `[0, 1]`. -/
def HSV2RGB (hsv : Vec K) : Vec K :=
  let c := hsv.2.2 * hsv.2.1
  let h := hsv.1 / 60
  let x := c * (1 - |fmod h 2 - 1|)
  let m := hsv.2.2 - c
  let rgb : Vec K := (m, m, m)
  if h ≤ 1 then rgb + (c, x, 0)
  else if h ≤ 2 then rgb + (x, c, 0)
  else if h ≤ 3 then rgb + (0, c, x)
  else if h ≤ 4 then rgb + (0, x, c)
  else if h ≤ 5 then rgb + (x, 0, c)
  else if h ≤ 6 then rgb + (c, 0, x)
  else rgb

/-- The function `MyViewer::meanMapColor(d)`; `r` holds the members `mean_min` and
`mean_max`.  The hues are `red = 0`, `green = 120`, `blue = 240`; the test `mean_min ?`
is a comparison with zero. -/
def meanMapColor (r : MeanRange K) (d : K) : Vec K :=
  if d < 0 then
    HSV2RGB (120 * (1 - (if r.mean_min ≠ 0 then min (d / r.mean_min) 1 else 1)) +
      240 * (if r.mean_min ≠ 0 then min (d / r.mean_min) 1 else 1), 1, 1)
  else
    HSV2RGB (120 * (1 - (if r.mean_max ≠ 0 then min (d / r.mean_max) 1 else 1)) +
      0 * (if r.mean_max ≠ 0 then min (d / r.mean_max) 1 else 1), 1, 1)

end Colour

/-- The bilinear patch `patch11` with the trigonometric basis selected (key `T`). -/
def patch11T : MyViewer ℚ := { patch11 with trigonometric_basis := true }

/-! ## Trigonometric basis table (`trigo-basis.cc`)

The file-scope variables `table_rows` and `triangles` are an explicit table state.  The
coefficient file is a sequence of whitespace-separated fields, every one an integer. -/

/-- The type `Term`, a `std::array<int, 4>`: the exponents of `a`, `b`, `c` and the
coefficient. -/
abbrev Term := ℤ × ℤ × ℤ × ℤ

/-- The type `Poly`, a vector of terms. -/
abbrev Poly := List Term

/-- The type `Row`, a vector of polynomials. -/
abbrev Row := List Poly

/-- The constant `DERIVATIVES`. -/
def DERIVATIVES : ℕ := 2

/-- The table state: `table_rows` and the array `triangles[DERIVATIVES+1]` of row
lists, one list per derivative order. -/
structure TrigoTable where
  table_rows : ℕ
  triangles : List Row × List Row × List Row

/-- The static initial state: `table_rows` is zero and every list is empty. -/
def TrigoTable.empty : TrigoTable := { table_rows := 0, triangles := ([], [], []) }

/-- The array read `triangles[d]`; past the end of the array (`d > DERIVATIVES`) there
is nothing to read. -/
def TrigoTable.tri (t : TrigoTable) : ℕ → Option (List Row)
  | 0 => some t.triangles.1
  | 1 => some t.triangles.2.1
  | 2 => some t.triangles.2.2
  | _ => none

/-- One field of the coefficient file: an integer, or a field that is not one. -/
inductive IntToken where
  | int (z : ℤ)
  | junk

/-- The extraction `f >> x` into a `size_t` (`table_rows`, `polys`, `terms`) with
`failbit` exceptions enabled; `none` is the throw.  A count that is negative or does not
fit in 64 bits counts as malformed. -/
def readCount : List IntToken → Option (ℕ × List IntToken)
  | IntToken.int z :: rest => if 0 ≤ z ∧ z < 2 ^ 64 then some (z.toNat, rest) else none
  | _ => none

/-- The extraction `f >> x` into an `int`; `none` is the throw.  A value outside the
32-bit range sets `failbit`. -/
def readInt : List IntToken → Option (ℤ × List IntToken)
  | IntToken.int z :: rest => if -2 ^ 31 ≤ z ∧ z < 2 ^ 31 then some (z, rest) else none
  | _ => none

/-- Body of the loop over `t` in `trigoinit`: `f >> a >> b >> c >> k` and
`poly.push_back({ a, b, c, k })`; the state is `(poly, stream)`. -/
def readTerm (st : Poly × List IntToken) : Option (Poly × List IntToken) :=
  match readInt st.2 with
  | none => none
  | some (a, r1) =>
    match readInt r1 with
    | none => none
    | some (b, r2) =>
      match readInt r2 with
      | none => none
      | some (c, r3) =>
        match readInt r3 with
        | none => none
        | some (k, r4) => some (st.1 ++ [(a, b, c, k)], r4)

/-- The statement `row[d].push_back(poly)` on the local array `row[DERIVATIVES+1]`. -/
def pushPoly (row : Row × Row × Row) (d : ℕ) (poly : Poly) : Row × Row × Row :=
  match d with
  | 0 => (row.1 ++ [poly], row.2.1, row.2.2)
  | 1 => (row.1, row.2.1 ++ [poly], row.2.2)
  | _ => (row.1, row.2.1, row.2.2 ++ [poly])

/-- Body of the loop over `d` in `trigoinit`: a fresh `poly`, `f >> terms`, the loop
over `t`, then `row[d].push_back(poly)`; the state is `(row, stream)`. -/
def readPoly (d : ℕ) (st : (Row × Row × Row) × List IntToken) :
    Option ((Row × Row × Row) × List IntToken) :=
  match readCount st.2 with
  | none => none
  | some (terms, rest) =>
    match forLoop (fun _ => readTerm) 0 terms ([], rest) with
    | none => none
    | some (poly, rest) => some (pushPoly st.1 d poly, rest)

/-- Body of the loop over `r` in `trigoinit`: a fresh `row`, `f >> polys`, the loops
over `p` and `d`, then `triangles[d].push_back(row[d])` for every `d`.  The state is
`(triangles, stream)`; a throw inside leaves `triangles` as it was when the iteration
began, which is the error value. -/
def readRow (st : (List Row × List Row × List Row) × List IntToken) :
    Except (List Row × List Row × List Row)
      ((List Row × List Row × List Row) × List IntToken) :=
  match readCount st.2 with
  | none => Except.error st.1
  | some (polys, rest) =>
    match forLoop (fun _ st => forLoop readPoly 0 (DERIVATIVES + 1) st) 0 polys
        (([], [], []), rest) with
    | none => Except.error st.1
    | some (row, rest) =>
      Except.ok ((st.1.1 ++ [row.1], st.1.2.1 ++ [row.2.1], st.1.2.2 ++ [row.2.2]), rest)

/-- The function `trigoinit(filename)`: the flag is `true` when it returns and `false`
when it throws, with the table state after the call.  `file` is the content of the file,
`none` when it cannot be opened.  The row count is read straight into `table_rows`: at
the end of the file nothing is stored, on a malformed field zero is stored (the rule
since C++11). -/
def trigoinit (file : Option (List IntToken)) (t : TrigoTable) : Bool × TrigoTable :=
  match file with
  | none => (false, t)
  | some [] => (false, t)
  | some toks =>
    match readCount toks with
    | none => (false, { t with table_rows := 0 })
    | some (rows, rest) =>
      match forLoopE (fun _ => readRow) 0 rows (t.triangles, rest) with
      | Except.error tri => (false, { table_rows := rows, triangles := tri })
      | Except.ok (tri, _) => (true, { table_rows := rows, triangles := tri })

section TrigoEval

variable {K : Type} [LinearOrderedField K]

/-- The function `evalPoly(poly, u)`.  The library functions `std::sin`, `std::cos` and
the constant `M_PI` are parameters; `std::pow` with an `int` exponent is the integer
power of the field (for a zero base and a negative exponent the source yields an
infinity, the field yields zero). -/
def evalPoly (sin cos : K → K) (pi : K) (poly : Poly) (u : K) : K :=
  poly.foldl (fun result term =>
    result + (term.2.2.2 : K) * (1 - sin (pi * u / 2)) ^ term.1 *
      (sin (pi * u / 2) + cos (pi * u / 2) - 1) ^ term.2.1 *
      (1 - cos (pi * u / 2)) ^ term.2.2.1) 0

/-- The function `trigobasis(n, u, derivatives, coeffs)`: `Except.error` is a thrown
`std::runtime_error` with its message, `Except.ok none` is a read past the end of a row
list (undefined in the source), `Except.ok (some coeffs)` is the normal return with the
output parameter. -/
def trigobasis (sin cos : K → K) (pi : K) (t : TrigoTable) (n : ℕ) (u : K) (derivatives : ℕ) :
    Except String (Option (List (List K))) :=
  if derivatives > DERIVATIVES then
    Except.error ("The table only has " ++ toString DERIVATIVES ++ " derivatives")
  else if n < 2 ∨ n > t.table_rows + 1 then
    Except.error ("The table only has rows for 3 to " ++ toString (t.table_rows + 2) ++
      " control points")
  else
    Except.ok (forLoop (fun d (coeffs : List (List K)) =>
      match t.tri d with
      | none => none
      | some rows =>
        match rows[n - 2]? with
        | none => none
        | some row => some (coeffs ++ [row.map (fun p => evalPoly sin cos pi p u)]))
      0 (derivatives + 1) [])

end TrigoEval

/-! ### The coefficient file format of the specification -/

/-- Format: `count` groups of four integers `(expA, expB, expC, coeff)`. -/
def parseTerms : ℕ → List IntToken → Option (List Term × List IntToken)
  | 0, toks => some ([], toks)
  | count + 1, toks =>
    match readInt toks with
    | none => none
    | some (a, r1) =>
      match readInt r1 with
      | none => none
      | some (b, r2) =>
        match readInt r2 with
        | none => none
        | some (c, r3) =>
          match readInt r3 with
          | none => none
          | some (k, r4) =>
            match parseTerms count r4 with
            | none => none
            | some (ts, rest) => some ((a, b, c, k) :: ts, rest)

/-- Format: a term count `T` followed by `T` terms. -/
def parsePoly (toks : List IntToken) : Option (Poly × List IntToken) :=
  match readCount toks with
  | none => none
  | some (terms, rest) => parseTerms terms rest

/-- Format: `count` polynomials, each given for the three derivative orders `0..2`. -/
def parsePolys : ℕ → List IntToken → Option (List (Poly × Poly × Poly) × List IntToken)
  | 0, toks => some ([], toks)
  | count + 1, toks =>
    match parsePoly toks with
    | none => none
    | some (p0, r0) =>
      match parsePoly r0 with
      | none => none
      | some (p1, r1) =>
        match parsePoly r1 with
        | none => none
        | some (p2, r2) =>
          match parsePolys count r2 with
          | none => none
          | some (ps, rest) => some ((p0, p1, p2) :: ps, rest)

/-- Format: one row, a polynomial count `P` followed by `P` polynomials. -/
def parseRow (toks : List IntToken) : Option (List (Poly × Poly × Poly) × List IntToken) :=
  match readCount toks with
  | none => none
  | some (polys, rest) => parsePolys polys rest

/-- Format: `count` rows.  The result is the list of the rows that are complete, and
the rest of the stream when all `count` rows are. -/
def parseRows : ℕ → List IntToken →
    List (List (Poly × Poly × Poly)) × Option (List IntToken)
  | 0, toks => ([], some toks)
  | count + 1, toks =>
    match parseRow toks with
    | none => ([], none)
    | some (row, rest) => ((row :: (parseRows count rest).1), (parseRows count rest).2)

/-- Format: the whole file, a row count `R` followed by `R` rows; `none` for a file
that cannot be opened or whose fields do not follow the format. -/
def parseTrigo : Option (List IntToken) → Option (List (List (Poly × Poly × Poly)))
  | none => none
  | some toks =>
    match readCount toks with
    | none => none
    | some (rows, rest) =>
      match parseRows rows rest with
      | (rs, some _) => some rs
      | (_, none) => none

/-- The row lists that hold the rows `rs` of a file: list `d` has, for every row, the
polynomials of derivative order `d`. -/
def tableRows (rs : List (List (Poly × Poly × Poly))) : List Row × List Row × List Row :=
  (rs.map (fun row => row.map (fun p => p.1)),
   rs.map (fun row => row.map (fun p => p.2.1)),
   rs.map (fun row => row.map (fun p => p.2.2)))

/-- A coefficient file with one row of two polynomials; the first polynomial is
`a^2` with derivative polynomials `-2ab - 2ac` and `a`, the second is constant `1`. -/
def trigoFile : List IntToken :=
  [IntToken.int 1, IntToken.int 2,
   IntToken.int 1, IntToken.int 2, IntToken.int 0, IntToken.int 0, IntToken.int 1,
   IntToken.int 2, IntToken.int 1, IntToken.int 1, IntToken.int 0, IntToken.int (-2),
     IntToken.int 1, IntToken.int 0, IntToken.int 1, IntToken.int (-2),
   IntToken.int 1, IntToken.int 1, IntToken.int 0, IntToken.int 0, IntToken.int 1,
   IntToken.int 1, IntToken.int 0, IntToken.int 0, IntToken.int 0, IntToken.int 1,
   IntToken.int 0,
   IntToken.int 0]

/-- A coefficient file that announces one row and then ends. -/
def trigoFileShort : List IntToken := [IntToken.int 1]

/-- The polynomial of derivative order `i` in the file entry of one basis function. -/
def polyAt (i : ℕ) (p : Poly × Poly × Poly) : Poly :=
  match i with
  | 0 => p.1
  | 1 => p.2.1
  | _ => p.2.2

/-- A coefficient file that announces two rows and ends after the first one. -/
def trigoFileOneOfTwo : List IntToken := IntToken.int 2 :: trigoFile.tail

/-! ## The mesh of a Bézier surface: normals and mean curvature
(`MyViewer.cpp`, lines 118-137, 311-323, 795-822)

The library function `std::sqrt` (inside `norm`, `length` and `unit`) is a parameter
`sqrt` of the definitions. -/

/-- The per-vertex record of `MyMesh`: the position and the members of `VertexTraits`
(`mean`, `u`, `v`) with the vertex normal. -/
structure VertexData (K : Type) where
  point : Vec K
  u : K
  v : K
  normal : Vec K
  mean : K

/-- The part of `MyMesh` the surface code builds: the vertices in handle order and
the triangles as triples of vertex handles. -/
structure Mesh (K : Type) where
  vertices : List (VertexData K)
  faces : List (ℕ × ℕ × ℕ)

section BezierMesh

variable {K : Type} [LinearOrderedField K]

/-- The cross product, `a ^ b` on `qglviewer::Vec`. -/
def cross (a b : Vec K) : Vec K :=
  (a.2.1 * b.2.2 - a.2.2 * b.2.1, a.2.2 * b.1 - a.1 * b.2.2, a.1 * b.2.1 - a.2.1 * b.1)

/-- The dot product, `a * b` on `qglviewer::Vec`. -/
def dot (a b : Vec K) : K := a.1 * b.1 + a.2.1 * b.2.1 + a.2.2 * b.2.2

/-- The method `squaredNorm()`. -/
def squaredNorm (a : Vec K) : K := a.1 * a.1 + a.2.1 * a.2.1 + a.2.2 * a.2.2

/-- Division of a vector by a number, coordinate by coordinate (`v / k`, `v /= k`). -/
def divVec (a : Vec K) (k : K) : Vec K := (a.1 / k, a.2.1 / k, a.2.2 / k)

/-- The method `unit()`: the vector divided by its norm `sqrt(squaredNorm())`. -/
def unit (sqrt : K → K) (a : Vec K) : Vec K := divVec a (sqrt (squaredNorm a))

/-- The read `der[i][j]` of the derivative table of `evaluate`. -/
def derAt (der : List (List (Vec K))) (i j : ℕ) : Option (Vec K) :=
  match der[i]? with
  | none => none
  | some row => row[j]?

/-- A loop `for (auto v : mesh.vertices())` whose body rewrites the record of `v` and
can fail. -/
def forEachVertex (f : VertexData K → Option (VertexData K)) :
    List (VertexData K) → Option (List (VertexData K))
  | [] => some []
  | v :: vs =>
    match f v with
    | none => none
    | some v' =>
      match forEachVertex f vs with
      | none => none
      | some vs' => some (v' :: vs')

namespace MyViewer

/-- Body of the loop of `updateVertexNormals` in the branch
`model_type == BEZIER_SURFACE`: `evaluate(u, v, 1, der)`, `n = der[0][1] ^ der[1][0]`,
`len = n.length()`, `n /= len` unless `len` is zero; the result is the normal set. -/
def bezierNormal (sqrt : K → K) (s : MyViewer K) (u v : K) : Option (Vec K) :=
  match evaluateDer s u v 1 with
  | none => none
  | some (_, der) =>
    match derAt der 0 1, derAt der 1 0 with
    | some d01, some d10 =>
      some (if sqrt (squaredNorm (cross d01 d10)) ≠ 0 then
          divVec (cross d01 d10) (sqrt (squaredNorm (cross d01 d10)))
        else cross d01 d10)
    | _, _ => none

/-- The branch `model_type == BEZIER_SURFACE` of `MyViewer::updateVertexNormals()`. -/
def updateVertexNormalsBezier (sqrt : K → K) (s : MyViewer K) (mesh : Mesh K) :
    Option (Mesh K) :=
  match forEachVertex (fun vd =>
      match bezierNormal sqrt s vd.u vd.v with
      | none => none
      | some n => some { vd with normal := n }) mesh.vertices with
  | none => none
  | some vs => some { mesh with vertices := vs }

/-- Body of the loop of `updateMeanCurvature` in the branch
`model_type == BEZIER_SURFACE`: `evaluate(u, v, 2, der)`, the coefficients `E`, `F`, `G`
of the first and `L`, `M`, `N` of the second fundamental form with
`n = (der[1][0] ^ der[0][1]).unit()`, and the value stored in `mean`. -/
def bezierMean (sqrt : K → K) (s : MyViewer K) (u v : K) : Option K :=
  match evaluateDer s u v 2 with
  | none => none
  | some (_, der) =>
    match derAt der 1 0, derAt der 0 1, derAt der 2 0, derAt der 1 1, derAt der 0 2 with
    | some d10, some d01, some d20, some d11, some d02 =>
      some ((dot (unit sqrt (cross d10 d01)) d02 * squaredNorm d10 -
            2 * dot (unit sqrt (cross d10 d01)) d11 * dot d10 d01 +
            dot (unit sqrt (cross d10 d01)) d20 * squaredNorm d01) /
          (2 * (squaredNorm d10 * squaredNorm d01 - dot d10 d01 * dot d10 d01)))
    | _, _, _, _, _ => none

/-- The vertex loop of the branch `model_type == BEZIER_SURFACE` of
`MyViewer::updateMeanCurvature(update_min_max)`; the call of `updateMeanMinMax` that
follows when `update_min_max` is set does not touch the vertices. -/
def updateMeanCurvatureBezier (sqrt : K → K) (s : MyViewer K) (mesh : Mesh K) :
    Option (Mesh K) :=
  match forEachVertex (fun vd =>
      match bezierMean sqrt s vd.u vd.v with
      | none => none
      | some h => some { vd with mean := h }) mesh.vertices with
  | none => none
  | some vs => some { mesh with vertices := vs }

end MyViewer

end BezierMesh

/-- The plane patch `S(u, v) = (u, v, 0)` of degrees `(1, 1)` over any field. -/
def planePatch (K : Type) [LinearOrderedField K] : MyViewer K :=
  { model_type := ModelType.BEZIER_SURFACE, trigonometric_basis := false, degree := (1, 1),
    control_points := [(0, 0, 0), (0, 1, 0), (1, 0, 0), (1, 1, 0)], last_filename := "" }

/-- A mesh with the single vertex of parameters `(1/2, 1/2)`. -/
def oneVertexMesh (K : Type) [LinearOrderedField K] : Mesh K :=
  { vertices := [{ point := (1/2, 1/2, 0), u := 1/2, v := 1/2, normal := 0, mean := 0 }],
    faces := [] }

/-- The degree `(2, 2)` surface `S(u, v) = (u, v, u^2)` over any field. -/
def parabolaPatch (K : Type) [LinearOrderedField K] : MyViewer K :=
  { model_type := ModelType.BEZIER_SURFACE, trigonometric_basis := false, degree := (2, 2),
    control_points := [(0, 0, 0), (0, 1/2, 0), (0, 1, 0),
                       (1/2, 0, 0), (1/2, 1/2, 0), (1/2, 1, 0),
                       (1, 0, 1), (1, 1/2, 1), (1, 1, 1)], last_filename := "" }

namespace MyViewer

section Tessellation

variable {K : Type} [LinearOrderedField K]

/-- Body of the inner vertex loop of `generateMesh`: the parameters `u` and `v`, the
point `evaluate(u, v)`, `handles.push_back(mesh.add_vertex(p))` and the stores of `u`
and `v`.  The state is `(vertices of the mesh, handles)`; the handle of a new vertex is
its index; the normal and the curvature of a new vertex are not set yet (zero here). -/
def addGridVertex (s : MyViewer K) (resolution i j : ℕ)
    (st : List (VertexData K) × List ℕ) : Option (List (VertexData K) × List ℕ) :=
  match evaluate s ((i : K) / ((resolution - 1 : ℕ) : K))
      ((j : K) / ((resolution - 1 : ℕ) : K)) with
  | none => none
  | some p =>
    some (st.1 ++ [{ point := p, u := (i : K) / ((resolution - 1 : ℕ) : K),
                     v := (j : K) / ((resolution - 1 : ℕ) : K), normal := 0, mean := 0 }],
          st.2 ++ [st.1.length])

/-- Body of the inner face loop of `generateMesh`: the two triangles of the grid cell
`(i, j)`, each `mesh.add_face(tri)` appending one triangle. -/
def addGridCell (handles : List ℕ) (resolution i j : ℕ) (faces : List (ℕ × ℕ × ℕ)) :
    Option (List (ℕ × ℕ × ℕ)) :=
  match handles[i * resolution + j]?, handles[i * resolution + j + 1]?,
      handles[(i + 1) * resolution + j]? with
  | some a, some b, some c =>
    match handles[(i + 1) * resolution + j]?, handles[i * resolution + j + 1]?,
        handles[(i + 1) * resolution + j + 1]? with
    | some c', some b', some d => some (faces ++ [(a, b, c)] ++ [(c', b', d)])
    | _, _, _ => none
  | _, _, _ => none

/-- The function `MyViewer::generateMesh(resolution)`: the mesh is cleared, the
`resolution x resolution` vertices are added row by row, then the two triangles of every
grid cell.  With `resolution = 0` the unsigned `resolution - 1` wraps and the face loop
reads `handles[0]` of an empty vector: `none`. -/
def generateMesh (s : MyViewer K) (resolution : ℕ) : Option (Mesh K) :=
  if resolution = 0 then none
  else
    match forLoop (fun i st => forLoop (addGridVertex s resolution i) 0 resolution st)
        0 resolution ([], []) with
    | none => none
    | some (vertices, handles) =>
      match forLoop (fun i faces => forLoop (addGridCell handles resolution i)
          0 (resolution - 1) faces) 0 (resolution - 1) [] with
      | none => none
      | some faces => some { vertices := vertices, faces := faces }

end Tessellation

end MyViewer

namespace MyViewer

section TessellationForms

variable {K : Type} [LinearOrderedField K]

/-- Closed form of the point `evaluate(u, v)` under the Bernstein basis: the
tensor-product Bernstein sum of the control points. -/
def surfacePoint (s : MyViewer K) (u v : K) : Vec K :=
  ∑ k in Finset.range (s.degree.1 + 1), ∑ l in Finset.range (s.degree.2 + 1),
    bern s.degree.2 l v • bern s.degree.1 k u • s.control_points.getD (k * (s.degree.2 + 1) + l) 0

/-- Closed form of the vertex with handle `idx` of the mesh `generateMesh(r)` builds:
row `idx / r`, column `idx % r`. -/
def gridVertex (s : MyViewer K) (r idx : ℕ) : VertexData K :=
  { point := surfacePoint s (((idx / r : ℕ) : K) / ((r - 1 : ℕ) : K))
      (((idx % r : ℕ) : K) / ((r - 1 : ℕ) : K)),
    u := ((idx / r : ℕ) : K) / ((r - 1 : ℕ) : K),
    v := ((idx % r : ℕ) : K) / ((r - 1 : ℕ) : K),
    normal := 0, mean := 0 }

end TessellationForms

/-- Closed form of the two triangles of the grid cell number `c` (row `c / (r-1)`,
column `c % (r-1)`) of the mesh `generateMesh(r)` builds. -/
def gridCell (r c : ℕ) : List (ℕ × ℕ × ℕ) :=
  [(c / (r - 1) * r + c % (r - 1), c / (r - 1) * r + c % (r - 1) + 1,
      (c / (r - 1) + 1) * r + c % (r - 1)),
   ((c / (r - 1) + 1) * r + c % (r - 1), c / (r - 1) * r + c % (r - 1) + 1,
      (c / (r - 1) + 1) * r + c % (r - 1) + 1)]

end MyViewer

/-- What the mesh code reads of a half-edge of a triangle mesh: whether it is a
boundary half-edge (it has no face), and the points of the three vertices around its face:
the vertex it starts from, the vertex it points to, and the vertex the next half-edge
points to; in a triangle the previous half-edge leads from there back to the start. -/
structure Halfedge (K : Type) where
  is_boundary : Bool
  from_point : Vec K
  to_point : Vec K
  next_point : Vec K

section Voronoi

variable {K : Type} [LinearOrderedField K]

/-- The half-edge `mesh.next_halfedge_handle(h)` around the same triangle. -/
def Halfedge.next (h : Halfedge K) : Halfedge K :=
  { is_boundary := h.is_boundary, from_point := h.to_point, to_point := h.next_point,
    next_point := h.from_point }

/-- The half-edge `mesh.prev_halfedge_handle(h)` around the same triangle. -/
def Halfedge.prev (h : Halfedge K) : Halfedge K :=
  { is_boundary := h.is_boundary, from_point := h.next_point, to_point := h.from_point,
    next_point := h.to_point }

/-- The call `mesh.calc_edge_vector(h)`: the point the half-edge points to minus the
point it starts from. -/
def calc_edge_vector (h : Halfedge K) : Vec K := h.to_point - h.from_point

/-- The helper `sane_aarg` of the mesh library: the argument of `acos` clamped to
`[-1, 1]`. -/
def sane_aarg (x : K) : K := if x < -1 then -1 else if x > 1 then 1 else x

/-- The angle the mesh library computes from the two sector vectors of a half-edge that
has a face: `0` when the product of the two norms is `0`, otherwise `acos` of the
clamped cosine. -/
def sector_angle (sqrt acos : K → K) (v0 v1 : Vec K) : K :=
  if sqrt (squaredNorm v0) * sqrt (squaredNorm v1) = 0 then 0
  else acos (sane_aarg (dot v0 v1 / (sqrt (squaredNorm v0) * sqrt (squaredNorm v1))))

/-- The call `mesh.calc_sector_angle(h)` for a half-edge with a face: the angle at the
vertex `h` points to, between the edge vector of the next half-edge and the edge vector of
the opposite half-edge. -/
def calc_sector_angle (sqrt acos : K → K) (h : Halfedge K) : K :=
  sector_angle sqrt acos (calc_edge_vector h.next) (h.from_point - h.to_point)

namespace MyViewer

/-- The function `MyViewer::voronoiWeight(in_he)`; `std::sqrt`, `acos`, `std::tan` and
`std::sin` are parameters. -/
def voronoiWeight (sqrt acos tan sin : K → K) (in_he : Halfedge K) : K :=
  if in_he.is_boundary then 0
  else
    let next := in_he.next
    let prev := in_he.prev
    let c2 := squaredNorm (calc_edge_vector in_he)
    let b2 := squaredNorm (calc_edge_vector next)
    let a2 := squaredNorm (calc_edge_vector prev)
    let alpha := calc_sector_angle sqrt acos in_he
    if a2 + b2 < c2 then 0.125 * b2 * tan alpha
    else if a2 + c2 < b2 then 0.125 * c2 * tan alpha
    else if b2 + c2 < a2 then
      let b := sqrt b2
      let c := sqrt c2
      let total_area := 0.5 * b * c * sin alpha
      let beta := calc_sector_angle sqrt acos prev
      let gamma := calc_sector_angle sqrt acos next
      total_area - 0.125 * (b2 * tan gamma + c2 * tan beta)
    else
      let r2 := 0.25 * a2 / (sin alpha) ^ 2
      let area := fun x2 : K => 0.125 * sqrt x2 * sqrt (max (4.0 * r2 - x2) 0.0)
      area b2 + area c2

end MyViewer

/-- A half-edge of a triangle with a right angle at the start of the half-edge. -/
def rightTriangle (K : Type) [LinearOrderedField K] : Halfedge K :=
  { is_boundary := false, from_point := (0, 0, 0), to_point := (1, 0, 0),
    next_point := (0, 1, 0) }

end Voronoi

/-! ## Mesh mode: vertex normals and mean curvature (`MyViewer.cpp`, lines 139-166, 325-343) -/

/-- What the mesh-mode loops read around one vertex `v`: the incoming half-edges of
`mesh.vih_range(v)` and, for every face `f` of `mesh.vf_range(v)`, the half-edge
`mesh.halfedge_handle(f)` on which `face_area[f]` is computed.  A vertex with no incident
face has both lists empty. -/
structure VertexRing (K : Type) where
  incoming : List (Halfedge K)
  faces : List (Halfedge K)

section MeshMode

variable {K : Type} [LinearOrderedField K]

/-- The call `mesh.calc_sector_area(h)` of the mesh library: half the norm of the cross
product of the two sector vectors of `h` (the edge vector of the next half-edge and the
edge vector of the opposite half-edge); for a triangle, its area. -/
def calc_sector_area (sqrt : K → K) (h : Halfedge K) : K :=
  sqrt (squaredNorm (cross (calc_edge_vector h.next) (h.from_point - h.to_point))) / 2

namespace MyViewer

/-- Body of the inner loop of the mesh branch of `updateVertexNormals`: a boundary
half-edge is skipped (`continue`), otherwise
`n += (in_vec % out_vec) / (w == 0.0 ? 1.0 : w)` with
`w = in_vec.sqrnorm() * out_vec.sqrnorm()`. -/
def meshNormalStep (n : Vec K) (h : Halfedge K) : Vec K :=
  if h.is_boundary then n
  else
    n + divVec (cross (calc_edge_vector h) (calc_edge_vector h.next))
      (if squaredNorm (calc_edge_vector h) * squaredNorm (calc_edge_vector h.next) = 0 then 1
       else squaredNorm (calc_edge_vector h) * squaredNorm (calc_edge_vector h.next))

/-- The vector `n` accumulated by the inner loop of the mesh branch of
`updateVertexNormals`, starting from `Vector n(0.0, 0.0, 0.0)`. -/
def meshNormalSum (ring : VertexRing K) : Vec K :=
  ring.incoming.foldl meshNormalStep 0

/-- Body of the vertex loop of the mesh branch of `updateVertexNormals`: the accumulated
`n`, `len = n.length()`, `n /= len` unless `len` is zero; the result is the normal set. -/
def meshNormal (sqrt : K → K) (ring : VertexRing K) : Vec K :=
  if sqrt (squaredNorm (meshNormalSum ring)) ≠ 0 then
    divVec (meshNormalSum ring) (sqrt (squaredNorm (meshNormalSum ring)))
  else meshNormalSum ring

/-- The value `vertex_area[v]` of the mesh branch of `updateMeanCurvature`: the sum of
`face_area[f]` over the faces around `v`, divided by `3.0`. -/
def vertexArea (sqrt : K → K) (ring : VertexRing K) : K :=
  ring.faces.foldl (fun area f => area + calc_sector_area sqrt f) 0 / 3

/-- Body of the last vertex loop of the mesh branch of `updateMeanCurvature`: `mean`
starts from `0`, every incoming half-edge adds `angle * vec.norm()` with
`angle = mesh.calc_dihedral_angle(h)` (a parameter), and the sum is multiplied by
`0.25 / vertex_area[v]`.  The divisor is not tested: when it is zero the quotient is not a
number (an IEEE infinity, and `0 * inf` is NaN), which is `none` here. -/
def meshMean (sqrt : K → K) (dihedral : Halfedge K → K) (ring : VertexRing K) : Option K :=
  if vertexArea sqrt ring = 0 then none
  else
    some (ring.incoming.foldl
        (fun mean h => mean + dihedral h * sqrt (squaredNorm (calc_edge_vector h))) 0 *
      (0.25 / vertexArea sqrt ring))

end MyViewer

/-- A vertex with no incident face and no half-edge. -/
def isolatedVertex (K : Type) : VertexRing K := { incoming := [], faces := [] }

/-- A vertex with the one incoming half-edge `rightTriangle`, whose triangle is its only
face. -/
def cornerVertex (K : Type) [LinearOrderedField K] : VertexRing K :=
  { incoming := [rightTriangle K], faces := [rightTriangle K] }

end MeshMode

section VoronoiForms

variable {K : Type} [LinearOrderedField K]

/-- Closed form of `voronoiWeight` on a non-boundary half-edge of a non-degenerate
triangle, in terms of the norm `s` of the cross product of two edge vectors (twice the
area) and of the dot products `x`, `y`, `z` of the two edge vectors leaving the corner the
half-edge points to, the corner it starts from, and the third corner; a negative dot
product is an obtuse angle, and the squared edge lengths are `b2 = x + z`, `c2 = x + y`,
`a2 = y + z`. -/
def voronoiClosed (s x y z : K) : K :=
  if z < 0 then 0.125 * (x + z) * (s / x)
  else if y < 0 then 0.125 * (x + y) * (s / x)
  else if x < 0 then 0.5 * s - 0.125 * ((x + z) * (s / z) + (x + y) * (s / y))
  else ((x + z) * y + (x + y) * z) / (8 * s)

end VoronoiForms
/-! ## Loop invariants and list lemmas -/

theorem forLoop_inv {σ : Type} (body : ℕ → σ → Option σ) (Inv : ℕ → σ → Prop) :
    ∀ (cnt lo : ℕ) (s : σ), Inv lo s →
      (∀ i t, lo ≤ i → i < lo + cnt → Inv i t → ∃ t', body i t = some t' ∧ Inv (i + 1) t') →
      ∃ s', forLoop body lo cnt s = some s' ∧ Inv (lo + cnt) s' := by
  intro cnt
  induction cnt with
  | zero => intro lo s h0 _; exact ⟨s, rfl, by simpa using h0⟩
  | succ cnt ih =>
    intro lo s h0 hstep
    obtain ⟨t, ht, hInv⟩ := hstep lo s le_rfl (by omega) h0
    obtain ⟨s', hs', hInv'⟩ := ih (lo + 1) t hInv
      (fun i t' h1 h2 h3 => hstep i t' (by omega) (by omega) h3)
    refine ⟨s', ?_, ?_⟩
    · simp [forLoop, ht, hs']
    · have : lo + (cnt + 1) = lo + 1 + cnt := by omega
      rw [this]; exact hInv'

theorem getElem?_map_range {α : Type} (f : ℕ → α) (n i : ℕ) :
    ((List.range n).map f)[i]? = if i < n then some (f i) else none := by
  by_cases h : i < n
  · simp [h, List.getElem?_range h]
  · simp [h, List.getElem?_eq_none (l := List.range n) (by simpa using h)]

theorem map_range_succ_append {α : Type} (f : ℕ → α) (n : ℕ) :
    (List.range n).map f ++ [f n] = (List.range (n + 1)).map f := by
  simp [List.range_succ]

section BasisProofs

variable {K : Type} [LinearOrderedField K]

theorem bern_zero_zero (u : K) : bern 0 0 u = 1 := by simp [bern]

theorem bern_eq_zero_of_lt {n k : ℕ} (h : n < k) (u : K) : bern n k u = 0 := by
  simp [bern, Nat.choose_eq_zero_of_lt h]

theorem bern_succ_zero (n : ℕ) (u : K) : bern (n + 1) 0 u = bern n 0 u * (1 - u) := by
  simp [bern, pow_succ]

theorem bern_succ_succ (n k : ℕ) (u : K) :
    bern (n + 1) (k + 1) u = bern n k u * u + bern n (k + 1) u * (1 - u) := by
  rcases Nat.lt_or_ge n (k + 1) with h | h
  · rcases Nat.lt_or_ge n k with h' | h'
    · simp [bern, Nat.choose_eq_zero_of_lt h, Nat.choose_eq_zero_of_lt h',
        Nat.choose_eq_zero_of_lt (show n + 1 < k + 1 by omega)]
    · have hk : k = n := by omega
      subst hk
      simp [bern, pow_succ]
  · have e1 : n + 1 - (k + 1) = n - k := by omega
    have e2 : n - k = (n - (k + 1)) + 1 := by omega
    simp only [bern, Nat.choose_succ_succ, e1, Nat.cast_add]
    rw [e2, pow_succ, pow_succ]
    ring

end BasisProofs

section BasisProofs2

variable {K : Type} [LinearOrderedField K]

/-- The value the inner loop of `bernstein` leaves in `saved` after `k` rounds. -/
theorem bernsteinInner_loop (u u1 : K) (c : ℕ → K) (j : ℕ) :
    forLoop (bernsteinInner u u1) 0 j ((List.range j).map c, 0) =
      some ((List.range j).map (fun i => (if i = 0 then 0 else c (i - 1) * u) + c i * u1),
            if j = 0 then 0 else c (j - 1) * u) := by
  obtain ⟨s', hs', hfst, hsnd⟩ := forLoop_inv (bernsteinInner u u1)
    (fun k st => st.1 = (List.range j).map (fun i =>
        if i < k then (if i = 0 then 0 else c (i - 1) * u) + c i * u1 else c i) ∧
      st.2 = if k = 0 then 0 else c (k - 1) * u)
    j 0 ((List.range j).map c, 0) (by simp)
    (by
      rintro k ⟨l, sv⟩ _ hk ⟨h1, h2⟩
      simp only at h1 h2
      subst h1 h2
      have hk' : k < j := by omega
      have hb : bernsteinInner u u1 k ((List.range j).map (fun i =>
            if i < k then (if i = 0 then 0 else c (i - 1) * u) + c i * u1 else c i),
            if k = 0 then 0 else c (k - 1) * u) =
          some (((List.range j).map (fun i =>
            if i < k then (if i = 0 then 0 else c (i - 1) * u) + c i * u1 else c i)).set k
              ((if k = 0 then 0 else c (k - 1) * u) + c k * u1), c k * u) := by
        simp only [bernsteinInner, getElem?_map_range, hk', if_true, lt_irrefl, if_false]
      refine ⟨_, hb, ?_⟩
      show _ ∧ _
      refine ⟨?_, ?_⟩
      · apply List.ext_getElem?
        intro i
        simp only [List.getElem?_set, getElem?_map_range, List.length_map, List.length_range]
        by_cases hi : i < j
        · by_cases hik : k = i
          · subst hik; simp [hi]
          · have : (i < k + 1) = (i < k) := by
              apply propext; constructor <;> intro h <;> omega
            simp [hi, hik, this]
        · have hik : k ≠ i := by omega
          simp [hi, hik]
      · simp)
  rw [hs']
  have : s' = (s'.1, s'.2) := rfl
  rw [this, hfst, hsnd]
  simp only [zero_add, Option.some.injEq, Prod.mk.injEq, and_true]
  apply List.map_congr_left
  intro i hi
  have : i < j := by simpa using hi
  simp [this]

theorem bernsteinOuter_eq (u : K) (j : ℕ) :
    bernsteinOuter u (1 - u) (j + 1) ((List.range (j + 1)).map (fun k => bern j k u)) =
      some ((List.range (j + 2)).map (fun k => bern (j + 1) k u)) := by
  simp only [bernsteinOuter, bernsteinInner_loop]
  simp only [Nat.add_one_ne_zero, if_false, Nat.add_sub_cancel, Option.some.injEq]
  have key : ∀ i, ((if i = 0 then 0 else bern j (i - 1) u * u) + bern j i u * (1 - u))
      = bern (j + 1) i u := by
    intro i
    cases i with
    | zero => simp [bern_succ_zero]
    | succ i => simp [bern_succ_succ]
  simp only [key]
  have last : bern j j u * u = bern (j + 1) (j + 1) u := by
    rw [bern_succ_succ, bern_eq_zero_of_lt (Nat.lt_succ_self j)]; ring
  rw [last]
  exact map_range_succ_append (fun k => bern (j + 1) k u) (j + 1)

/-- The function `bernstein(n, u)` returns the `n + 1` Bernstein values of degree `n`. -/
theorem bernstein_eq (n : ℕ) (u : K) :
    bernstein n u = some ((List.range (n + 1)).map (fun k => bern n k u)) := by
  obtain ⟨s', hs', hInv⟩ := forLoop_inv (bernsteinOuter u (1 - u))
    (fun j coeff => coeff = (List.range j).map (fun k => bern (j - 1) k u))
    n 1 [1] (by show [1] = [bern 0 0 u]; rw [bern_zero_zero])
    (by
      intro j t hj _ ht
      obtain ⟨j', rfl⟩ : ∃ j', j = j' + 1 := ⟨j - 1, by omega⟩
      refine ⟨_, ?_, rfl⟩
      rw [ht]
      simpa using bernsteinOuter_eq u j')
  rw [bernstein, hs', hInv]
  simp [Nat.add_comm]

end BasisProofs2
section BasisProofs3

variable {K : Type} [LinearOrderedField K]

open Polynomial in
theorem bernDer_zero (n k : ℕ) (u : K) :
    eval u (derivative^[0] (bernsteinPolynomial K n k)) = bern n k u := by
  simp [bern, bernsteinPolynomial]

open Polynomial in
theorem bernDer_succ_zero (n i : ℕ) (u : K) :
    eval u (derivative^[i + 1] (bernsteinPolynomial K (n + 1) 0)) =
      ((n + 1 : ℕ) : K) * -(eval u (derivative^[i] (bernsteinPolynomial K n 0))) := by
  simp only [Function.iterate_succ_apply, bernsteinPolynomial.derivative_zero,
    Nat.add_sub_cancel]
  rw [neg_mul, Polynomial.iterate_derivative_neg, Polynomial.iterate_derivative_natCast_mul]
  simp

open Polynomial in
theorem bernDer_succ_succ (n k i : ℕ) (u : K) :
    eval u (derivative^[i + 1] (bernsteinPolynomial K (n + 1) (k + 1))) =
      ((n + 1 : ℕ) : K) * (eval u (derivative^[i] (bernsteinPolynomial K n k)) -
        eval u (derivative^[i] (bernsteinPolynomial K n (k + 1)))) := by
  simp only [Function.iterate_succ_apply, bernsteinPolynomial.derivative_succ,
    Nat.add_sub_cancel]
  rw [Polynomial.iterate_derivative_natCast_mul, Polynomial.iterate_derivative_sub]
  simp

open Polynomial in
theorem bernDer_eq_zero_of_lt {n k : ℕ} (h : n < k) (i : ℕ) (u : K) :
    eval u (derivative^[i] (bernsteinPolynomial K n k)) = 0 := by
  simp [bernsteinPolynomial.eq_zero_of_lt K h]

open Polynomial in
theorem bernsteinDerRow_eq (n i : ℕ) (u : K) (last : List K)
    (hlast : ∀ j, last[j]? =
      if j < n + 1 then some (eval u (derivative^[i] (bernsteinPolynomial K n j))) else none) :
    bernsteinDerRow (n + 1) last =
      some ((List.range (n + 2)).map
        (fun k => eval u (derivative^[i + 1] (bernsteinPolynomial K (n + 1) k)))) := by
  obtain ⟨s', hs', hInv⟩ := forLoop_inv
    (fun j (tmp : List K) =>
        match last[j - 1]?, last[j]? with
        | some a, some b => some (tmp ++ [((n + 1 : ℕ) : K) * (a - b)])
        | _, _ => none)
    (fun j tmp => tmp = (List.range j).map
      (fun k => eval u (derivative^[i + 1] (bernsteinPolynomial K (n + 1) k))))
    n 1 [((n + 1 : ℕ) : K) * -(eval u (derivative^[i] (bernsteinPolynomial K n 0)))]
    (by show _ = [eval u (derivative^[i + 1] (bernsteinPolynomial K (n + 1) 0))]
        rw [bernDer_succ_zero])
    (by
      intro j t hj hj' ht
      obtain ⟨j', rfl⟩ : ∃ j', j = j' + 1 := ⟨j - 1, by omega⟩
      refine ⟨t ++ [((n + 1 : ℕ) : K) * (eval u (derivative^[i] (bernsteinPolynomial K n j')) -
        eval u (derivative^[i] (bernsteinPolynomial K n (j' + 1))))], ?_, ?_⟩
      · simp only [Nat.add_sub_cancel]
        rw [hlast, hlast, if_pos (by omega), if_pos (by omega)]
      · show _ = _
        rw [ht, ← bernDer_succ_succ]
        exact map_range_succ_append
          (fun k => eval u (derivative^[i + 1] (bernsteinPolynomial K (n + 1) k))) (j' + 1))
  have h0 : last[0]? = some (eval u (derivative^[i] (bernsteinPolynomial K n 0))) := by
    rw [hlast, if_pos (by omega)]
  have hn : last[n + 1 - 1]? = some (eval u (derivative^[i] (bernsteinPolynomial K n n))) := by
    rw [hlast, if_pos (by omega)]; rfl
  have e : n + 1 - 1 = n := rfl
  unfold bernsteinDerRow
  rw [h0]
  simp only
  rw [e] at hn ⊢
  rw [hs', hInv]
  simp only
  rw [hn]
  have last : ((n + 1 : ℕ) : K) * eval u (derivative^[i] (bernsteinPolynomial K n n)) =
      eval u (derivative^[i + 1] (bernsteinPolynomial K (n + 1) (n + 1))) := by
    rw [bernDer_succ_succ, bernDer_eq_zero_of_lt (Nat.lt_succ_self n)]; ring
  simp only
  rw [last, Nat.add_comm 1 n]
  exact congrArg some (map_range_succ_append
    (fun k => eval u (derivative^[i + 1] (bernsteinPolynomial K (n + 1) k))) (n + 1))

open Polynomial in
/-- Under the precondition `d ≤ n` the derivative evaluator returns the table of all
derivatives `0..d` of all `n + 1` Bernstein polynomials of degree `n`. -/
theorem bernsteinDer_eq : ∀ (d n : ℕ) (u : K), d ≤ n →
    bernsteinDer n u d =
      some ((List.range (d + 1)).map (fun i => (List.range (n + 1)).map
        (fun k => eval u (derivative^[i] (bernsteinPolynomial K n k)))))
  | 0, n, u, _ => by
    simp only [bernsteinDer, bernstein_eq]
    show some [_] = some [_]
    simp only [bernDer_zero]
  | d + 1, 0, u, h => by omega
  | d + 1, n + 1, u, h => by
    have ih := bernsteinDer_eq d n u (by omega)
    obtain ⟨s', hs', hInv⟩ := forLoop_inv
      (fun i (coeffs : List (List K)) =>
            match ((List.range (d + 1)).map (fun i => (List.range (n + 1)).map
                (fun k => eval u (derivative^[i] (bernsteinPolynomial K n k)))))[i - 1]? with
            | none => none
            | some last =>
              match bernsteinDerRow (n + 1) last with
              | none => none
              | some tmp => some (coeffs ++ [tmp]))
      (fun i coeffs => coeffs = (List.range i).map
          (fun i => (List.range (n + 2)).map
            (fun k => eval u (derivative^[i] (bernsteinPolynomial K (n + 1) k)))))
      (d + 1) 1 [(List.range (n + 1 + 1)).map (fun k => bern (n + 1) k u)]
      (by show [_] = [(List.range (n + 2)).map
            (fun k => eval u (derivative^[0] (bernsteinPolynomial K (n + 1) k)))]
          simp only [bernDer_zero])
      (by
        intro i t hi hi' ht
        obtain ⟨i', rfl⟩ : ∃ i', i = i' + 1 := ⟨i - 1, by omega⟩
        refine ⟨t ++ [(List.range (n + 2)).map
          (fun k => eval u (derivative^[i' + 1] (bernsteinPolynomial K (n + 1) k)))], ?_, ?_⟩
        · simp only [Nat.add_sub_cancel]
          rw [getElem?_map_range, if_pos (by omega)]
          simp only
          rw [bernsteinDerRow_eq n i' u _ (fun j => getElem?_map_range _ _ _)]
        · show _ = _
          rw [ht]
          exact map_range_succ_append
            (fun i => (List.range (n + 2)).map
              (fun k => eval u (derivative^[i] (bernsteinPolynomial K (n + 1) k)))) (i' + 1))
    simp only [bernsteinDer, bernstein_eq, ih]
    rw [hs', hInv, Nat.add_comm 1 (d + 1)]

end BasisProofs3
theorem getElem?_eq_some_getD {α : Type} (l : List α) (i : ℕ) (h : i < l.length) (d : α) :
    l[i]? = some (l.getD i d) := by
  simp [List.getD, List.getElem?_eq_getElem h]

theorem grid_index_lt {n m k l : ℕ} (hk : k < n + 1) (hl : l < m + 1) :
    k * (m + 1) + l < (n + 1) * (m + 1) := by
  calc k * (m + 1) + l < k * (m + 1) + (m + 1) := by omega
    _ = (k + 1) * (m + 1) := by ring
    _ ≤ (n + 1) * (m + 1) := Nat.mul_le_mul_right _ (by omega)

namespace MyViewer

section SurfaceProofs

variable {K : Type} [LinearOrderedField K]

theorem evaluateTerm_loop (cp : List (Vec K)) (n m : ℕ) (cu cv : List K) (a b : ℕ → K)
    (hcp : cp.length = (n + 1) * (m + 1))
    (hcu : ∀ k, k < n + 1 → cu[k]? = some (a k))
    (hcv : ∀ l, l < m + 1 → cv[l]? = some (b l))
    (k : ℕ) (hk : k < n + 1) (acc : Vec K) :
    forLoop (evaluateTerm cp cu cv k) 0 (m + 1) (acc, k * (m + 1)) =
      some (acc + ∑ l in Finset.range (m + 1), b l • a k • cp.getD (k * (m + 1) + l) 0,
        (k + 1) * (m + 1)) := by
  obtain ⟨s', hs', hInv⟩ := forLoop_inv (evaluateTerm cp cu cv k)
    (fun l st => st = (acc + ∑ l' in Finset.range l, b l' • a k • cp.getD (k * (m + 1) + l') 0,
        k * (m + 1) + l))
    (m + 1) 0 (acc, k * (m + 1)) (by simp)
    (by
      intro l t _ hl ht
      have hl' : l < m + 1 := by omega
      refine ⟨(t.1 + b l • a k • cp.getD (k * (m + 1) + l) 0, t.2 + 1), ?_, ?_⟩
      · subst ht
        simp only [evaluateTerm]
        rw [getElem?_eq_some_getD cp _ (by rw [hcp]; exact grid_index_lt hk hl') 0,
          hcu k hk, hcv l hl']
      · subst ht
        show (_, _) = (_, _)
        rw [Finset.sum_range_succ, add_assoc, Nat.add_assoc])
  rw [hs', hInv]
  simp only [Nat.zero_add]
  congr 2
  ring

theorem evaluateEntry_eq (cp : List (Vec K)) (n m : ℕ) (cu cv : List K) (a b : ℕ → K)
    (hcp : cp.length = (n + 1) * (m + 1))
    (hcu : ∀ k, k < n + 1 → cu[k]? = some (a k))
    (hcv : ∀ l, l < m + 1 → cv[l]? = some (b l)) :
    evaluateEntry cp n m cu cv =
      some (∑ k in Finset.range (n + 1), ∑ l in Finset.range (m + 1),
        b l • a k • cp.getD (k * (m + 1) + l) 0) := by
  obtain ⟨s', hs', hInv⟩ := forLoop_inv
    (fun k st => forLoop (evaluateTerm cp cu cv k) 0 (m + 1) st)
    (fun k st => st = (∑ k' in Finset.range k, ∑ l in Finset.range (m + 1),
        b l • a k' • cp.getD (k' * (m + 1) + l) 0, k * (m + 1)))
    (n + 1) 0 ((0 : Vec K), 0) (by simp)
    (by
      intro k t _ hk ht
      have hk' : k < n + 1 := by omega
      subst ht
      refine ⟨_, evaluateTerm_loop cp n m cu cv a b hcp hcu hcv k hk' _, ?_⟩
      exact Prod.ext (Finset.sum_range_succ (fun k' => ∑ l in Finset.range (m + 1),
        b l • a k' • cp.getD (k' * (m + 1) + l) 0) k).symm rfl)
  unfold evaluateEntry
  rw [hs', hInv]
  simp only [Nat.zero_add]

end SurfaceProofs

end MyViewer
namespace MyViewer

section SurfaceProofs2

variable {K : Type} [LinearOrderedField K]

theorem evaluateTable_eq (cp : List (Vec K)) (n m d : ℕ) (coeff_u coeff_v : List (List K))
    (A B : ℕ → ℕ → K) (hcp : cp.length = (n + 1) * (m + 1))
    (hcu : ∀ i, i < d + 1 → coeff_u[i]? = some ((List.range (n + 1)).map (A i)))
    (hcv : ∀ j, j < d + 1 → coeff_v[j]? = some ((List.range (m + 1)).map (B j))) :
    evaluateTable cp n m coeff_u coeff_v d =
      some ((List.range (d + 1)).map (fun i => (List.range (d + 1)).map (fun j =>
        ∑ k in Finset.range (n + 1), ∑ l in Finset.range (m + 1),
          B j l • A i k • cp.getD (k * (m + 1) + l) 0))) := by
  have hrow : ∀ i, i < d + 1 →
      forLoop (fun j (row : List (Vec K)) =>
        match coeff_u[i]?, coeff_v[j]? with
        | some cu, some cv =>
          match evaluateEntry cp n m cu cv with
          | none => none
          | some e => some (row ++ [e])
        | _, _ => none) 0 (d + 1) [] =
      some ((List.range (d + 1)).map (fun j =>
        ∑ k in Finset.range (n + 1), ∑ l in Finset.range (m + 1),
          B j l • A i k • cp.getD (k * (m + 1) + l) 0)) := by
    intro i hi
    obtain ⟨s', hs', hInv⟩ := forLoop_inv
      (fun j (row : List (Vec K)) =>
        match coeff_u[i]?, coeff_v[j]? with
        | some cu, some cv =>
          match evaluateEntry cp n m cu cv with
          | none => none
          | some e => some (row ++ [e])
        | _, _ => none)
      (fun j row => row = (List.range j).map (fun j =>
        ∑ k in Finset.range (n + 1), ∑ l in Finset.range (m + 1),
          B j l • A i k • cp.getD (k * (m + 1) + l) 0))
      (d + 1) 0 [] (by simp)
      (by
        intro j t _ hj ht
        refine ⟨t ++ [∑ k in Finset.range (n + 1), ∑ l in Finset.range (m + 1),
          B j l • A i k • cp.getD (k * (m + 1) + l) 0], ?_, ?_⟩
        · simp only
          rw [hcu i hi, hcv j (by omega)]
          simp only
          rw [evaluateEntry_eq cp n m _ _ (A i) (B j) hcp
            (fun k hk => by rw [getElem?_map_range, if_pos hk])
            (fun l hl => by rw [getElem?_map_range, if_pos hl])]
        · show _ = _
          rw [ht]
          exact map_range_succ_append (fun j => ∑ k in Finset.range (n + 1),
            ∑ l in Finset.range (m + 1), B j l • A i k • cp.getD (k * (m + 1) + l) 0) j)
    rw [hs', hInv, Nat.zero_add]
  obtain ⟨s', hs', hInv⟩ := forLoop_inv
    (fun i (der : List (List (Vec K))) =>
      match forLoop (fun j (row : List (Vec K)) =>
          match coeff_u[i]?, coeff_v[j]? with
          | some cu, some cv =>
            match evaluateEntry cp n m cu cv with
            | none => none
            | some e => some (row ++ [e])
          | _, _ => none) 0 (d + 1) [] with
      | none => none
      | some row => some (der ++ [row]))
    (fun i der => der = (List.range i).map (fun i => (List.range (d + 1)).map (fun j =>
        ∑ k in Finset.range (n + 1), ∑ l in Finset.range (m + 1),
          B j l • A i k • cp.getD (k * (m + 1) + l) 0)))
    (d + 1) 0 [] (by simp)
    (by
      intro i t _ hi ht
      refine ⟨t ++ [(List.range (d + 1)).map (fun j =>
        ∑ k in Finset.range (n + 1), ∑ l in Finset.range (m + 1),
          B j l • A i k • cp.getD (k * (m + 1) + l) 0)], ?_, ?_⟩
      · simp only
        rw [hrow i (by omega)]
      · show _ = _
        rw [ht]
        exact map_range_succ_append (fun i => (List.range (d + 1)).map (fun j =>
          ∑ k in Finset.range (n + 1), ∑ l in Finset.range (m + 1),
            B j l • A i k • cp.getD (k * (m + 1) + l) 0)) i)
  unfold evaluateTable
  rw [hs', hInv, Nat.zero_add]

open Polynomial in
/-- Under the Bernstein basis, the count invariant and `d ≤ min n m`, `evaluate` fills the
table of tensor-product sums of the derivative basis values. -/
theorem evaluateDer_eq (s : MyViewer K) (u v : K) (d : ℕ)
    (hb : s.trigonometric_basis = false) (hinv : s.countInvariant)
    (hn : d ≤ s.degree.1) (hm : d ≤ s.degree.2) :
    evaluateDer s u v d =
      some (∑ k in Finset.range (s.degree.1 + 1), ∑ l in Finset.range (s.degree.2 + 1),
          eval v (derivative^[0] (bernsteinPolynomial K s.degree.2 l)) •
            eval u (derivative^[0] (bernsteinPolynomial K s.degree.1 k)) •
              s.control_points.getD (k * (s.degree.2 + 1) + l) 0,
        (List.range (d + 1)).map (fun i => (List.range (d + 1)).map (fun j =>
          ∑ k in Finset.range (s.degree.1 + 1), ∑ l in Finset.range (s.degree.2 + 1),
            eval v (derivative^[j] (bernsteinPolynomial K s.degree.2 l)) •
              eval u (derivative^[i] (bernsteinPolynomial K s.degree.1 k)) •
                s.control_points.getD (k * (s.degree.2 + 1) + l) 0))) := by
  unfold evaluateDer evaluateCoeffs
  rw [hb, bernsteinDer_eq d _ u hn, bernsteinDer_eq d _ v hm]
  simp only [Bool.false_and, Bool.false_eq_true, if_false]
  rw [evaluateTable_eq s.control_points s.degree.1 s.degree.2 d _ _
    (fun i k => eval u (derivative^[i] (bernsteinPolynomial K s.degree.1 k)))
    (fun j l => eval v (derivative^[j] (bernsteinPolynomial K s.degree.2 l))) hinv
    (fun i hi => by rw [getElem?_map_range, if_pos hi])
    (fun j hj => by rw [getElem?_map_range, if_pos hj])]
  simp only [getElem?_map_range, Nat.zero_lt_succ, if_true]

/-- Under the Bernstein basis and the count invariant, `evaluate(u, v)` is the
tensor-product Bernstein sum of the control points. -/
theorem evaluate_eq (s : MyViewer K) (u v : K)
    (hb : s.trigonometric_basis = false) (hinv : s.countInvariant) :
    evaluate s u v =
      some (∑ k in Finset.range (s.degree.1 + 1), ∑ l in Finset.range (s.degree.2 + 1),
          bern s.degree.2 l v • bern s.degree.1 k u •
            s.control_points.getD (k * (s.degree.2 + 1) + l) 0) := by
  unfold evaluate
  rw [evaluateDer_eq s u v 0 hb hinv (Nat.zero_le _) (Nat.zero_le _)]
  simp only [bernDer_zero]

end SurfaceProofs2

end MyViewer
theorem grid_div (i j m : ℕ) (hj : j < m + 1) : (i * (m + 1) + j) / (m + 1) = i := by
  rw [Nat.add_comm, Nat.add_mul_div_right j i (Nat.succ_pos m), Nat.div_eq_of_lt hj,
    Nat.zero_add]

theorem grid_mod (i j m : ℕ) (hj : j < m + 1) : (i * (m + 1) + j) % (m + 1) = j := by
  rw [Nat.add_comm, Nat.add_mul_mod_self_right, Nat.mod_eq_of_lt hj]

namespace MyViewer

section ElevateProofs

variable {K : Type} [LinearOrderedField K]

theorem elevatedU_first (cp : List (Vec K)) (n m j : ℕ) (hj : j < m + 1) :
    elevatedU cp n m j = cp.getD j 0 := by
  simp [elevatedU, Nat.div_eq_of_lt hj]

theorem elevatedU_mid (cp : List (Vec K)) (n m i j : ℕ) (hj : j < m + 1) :
    elevatedU cp n m (i * (m + 1) + j) =
      ((i : K) / ((n + 1 : ℕ) : K)) • cp.getD (i * (m + 1) + j - m - 1) 0 +
        (1 - (i : K) / ((n + 1 : ℕ) : K)) • cp.getD (i * (m + 1) + j) 0 := by
  simp only [elevatedU, grid_div i j m hj, Nat.sub_sub]

theorem elevatedU_last (cp : List (Vec K)) (n m j : ℕ) (hj : j < m + 1) :
    elevatedU cp n m ((n + 1) * (m + 1) + j) = cp.getD (n * (m + 1) + j) 0 := by
  have h : ((n + 1 : ℕ) : K) ≠ 0 := by positivity
  have e : (n + 1) * (m + 1) + j - (m + 1) = n * (m + 1) + j := by
    have : (n + 1) * (m + 1) = n * (m + 1) + (m + 1) := by ring
    omega
  simp only [elevatedU, grid_div (n + 1) j m hj, div_self h, e]
  simp

theorem elevateU_eq (s : MyViewer K) (hinv : s.countInvariant) :
    elevateU s = some { s with
      control_points := (List.range ((s.degree.1 + 2) * (s.degree.2 + 1))).map
        (elevatedU s.control_points s.degree.1 s.degree.2),
      degree := (s.degree.1 + 1, s.degree.2) } := by
  obtain ⟨mt, tb, ⟨n, m⟩, cp, fn⟩ := s
  simp only [countInvariant] at hinv
  simp only [elevateU]
  -- first row
  obtain ⟨t1, ht1, hI1⟩ := forLoop_inv
    (fun j (tmp : List (Vec K)) =>
      match cp[j]? with
      | some p => some (tmp ++ [p])
      | none => none)
    (fun j tmp => tmp = (List.range j).map (elevatedU cp n m))
    (m + 1) 0 [] (by simp)
    (by
      intro j t _ hj ht
      have hj' : j < m + 1 := by omega
      refine ⟨t ++ [elevatedU cp n m j], ?_, ?_⟩
      · simp only
        have hlt : j < cp.length := by
          rw [hinv]
          exact lt_of_lt_of_le hj' (Nat.le_mul_of_pos_left _ (Nat.succ_pos n))
        rw [getElem?_eq_some_getD cp j hlt 0, elevatedU_first cp n m j hj']
      · show _ = _
        rw [ht]; exact map_range_succ_append _ j)
  rw [ht1, hI1]
  simp only [Nat.zero_add]
  -- interior rows
  obtain ⟨t2, ht2, hI2⟩ := forLoop_inv
    (fun i (st : List (Vec K) × ℕ) =>
        forLoop (fun _ (st : List (Vec K) × ℕ) =>
          match cp[st.2 - m - 1]?, cp[st.2]? with
          | some p, some q =>
            some (st.1 ++ [((i : K) / ((n + 1 : ℕ) : K)) • p +
                (1 - (i : K) / ((n + 1 : ℕ) : K)) • q], st.2 + 1)
          | _, _ => none) 0 (m + 1) st)
    (fun i st => st = ((List.range (i * (m + 1))).map (elevatedU cp n m), i * (m + 1)))
    n 1 ((List.range (m + 1)).map (elevatedU cp n m), m + 1) (by simp)
    (by
      intro i t hi1 hi2 ht
      obtain ⟨t3, ht3, hI3⟩ := forLoop_inv
        (fun _ (st : List (Vec K) × ℕ) =>
          match cp[st.2 - m - 1]?, cp[st.2]? with
          | some p, some q =>
            some (st.1 ++ [((i : K) / ((n + 1 : ℕ) : K)) • p +
                (1 - (i : K) / ((n + 1 : ℕ) : K)) • q], st.2 + 1)
          | _, _ => none)
        (fun j st => st = ((List.range (i * (m + 1) + j)).map (elevatedU cp n m),
          i * (m + 1) + j))
        (m + 1) 0 t (by simpa using ht)
        (by
          intro j t' _ hj ht'
          have hj' : j < m + 1 := by omega
          subst ht'
          refine ⟨((List.range (i * (m + 1) + j)).map (elevatedU cp n m) ++
            [elevatedU cp n m (i * (m + 1) + j)], i * (m + 1) + j + 1), ?_, ?_⟩
          · simp only
            have hlt : i * (m + 1) + j < cp.length := by
              rw [hinv]; exact grid_index_lt (by omega) hj'
            rw [getElem?_eq_some_getD cp _ (by omega) 0, getElem?_eq_some_getD cp _ hlt 0,
              elevatedU_mid cp n m i j hj']
          · show (_, _) = (_, _)
            rw [map_range_succ_append]; rfl)
      refine ⟨t3, ht3, ?_⟩
      show _ = _
      rw [hI3]
      have : i * (m + 1) + (0 + (m + 1)) = (i + 1) * (m + 1) := by ring
      rw [Nat.zero_add] at this ⊢
      rw [this])
  rw [ht2, hI2]
  simp only
  -- last row
  obtain ⟨t4, ht4, hI4⟩ := forLoop_inv
    (fun j (tmp : List (Vec K)) =>
      match cp[n * (m + 1) + j]? with
      | some p => some (tmp ++ [p])
      | none => none)
    (fun j tmp => tmp = (List.range ((n + 1) * (m + 1) + j)).map (elevatedU cp n m))
    (m + 1) 0 ((List.range ((1 + n) * (m + 1))).map (elevatedU cp n m))
    (by rw [Nat.add_comm 1 n]; rfl)
    (by
      intro j t _ hj ht
      have hj' : j < m + 1 := by omega
      refine ⟨t ++ [elevatedU cp n m ((n + 1) * (m + 1) + j)], ?_, ?_⟩
      · simp only
        rw [getElem?_eq_some_getD cp _ (by rw [hinv]; exact grid_index_lt (by omega) hj') 0,
          elevatedU_last cp n m j hj']
      · show _ = _
        rw [ht]; exact map_range_succ_append _ _)
  rw [ht4, hI4]
  have : (n + 1) * (m + 1) + (0 + (m + 1)) = (n + 2) * (m + 1) := by ring
  rw [this]

end ElevateProofs

end MyViewer
namespace MyViewer

section ElevateProofsV

variable {K : Type} [LinearOrderedField K]

theorem elevatedV_at (cp : List (Vec K)) (m i j : ℕ) (hj : j < m + 2) :
    elevatedV cp m (i * (m + 2) + j) =
      ((j : K) / ((m + 1 : ℕ) : K)) • cp.getD (i * (m + 1) + j - 1) 0 +
        (1 - (j : K) / ((m + 1 : ℕ) : K)) • cp.getD (i * (m + 1) + j) 0 := by
  have h1 : (i * (m + 2) + j) / (m + 2) = i := grid_div i j (m + 1) hj
  have h2 : (i * (m + 2) + j) % (m + 2) = j := grid_mod i j (m + 1) hj
  simp only [elevatedV, h1, h2]

theorem elevatedV_first (cp : List (Vec K)) (m i : ℕ) :
    elevatedV cp m (i * (m + 2)) = cp.getD (i * (m + 1)) 0 := by
  have := elevatedV_at cp m i 0 (by omega)
  simp only [Nat.add_zero] at this
  rw [this]; simp

theorem elevatedV_last (cp : List (Vec K)) (m i : ℕ) :
    elevatedV cp m (i * (m + 2) + (m + 1)) = cp.getD (i * (m + 1) + (m + 1) - 1) 0 := by
  have h : ((m + 1 : ℕ) : K) ≠ 0 := by positivity
  rw [elevatedV_at cp m i (m + 1) (by omega), div_self h]
  simp

theorem elevateV_eq (s : MyViewer K) (hinv : s.countInvariant) :
    elevateV s = some { s with
      control_points := (List.range ((s.degree.1 + 1) * (s.degree.2 + 2))).map
        (elevatedV s.control_points s.degree.2),
      degree := (s.degree.1, s.degree.2 + 1) } := by
  obtain ⟨mt, tb, ⟨n, m⟩, cp, fn⟩ := s
  simp only [countInvariant] at hinv
  simp only [elevateV]
  obtain ⟨t1, ht1, hI1⟩ := forLoop_inv
    (fun _ (st : List (Vec K) × ℕ) =>
      match cp[st.2]? with
      | none => none
      | some p0 =>
        match forLoop (fun j (st : List (Vec K) × ℕ) =>
            match cp[st.2 - 1]?, cp[st.2]? with
            | some p, some q =>
              some (st.1 ++ [((j : K) / ((m + 1 : ℕ) : K)) • p +
                  (1 - (j : K) / ((m + 1 : ℕ) : K)) • q], st.2 + 1)
            | _, _ => none) 1 m (st.1 ++ [p0], st.2 + 1) with
        | none => none
        | some (tmp, index) =>
          match cp[index - 1]? with
          | none => none
          | some pl => some (tmp ++ [pl], index))
    (fun i st => st = ((List.range (i * (m + 2))).map (elevatedV cp m), i * (m + 1)))
    (n + 1) 0 ([], 0) (by simp)
    (by
      intro i t _ hi ht
      have hi' : i < n + 1 := by omega
      subst ht
      have hrow : ∀ j, j < m + 1 → i * (m + 1) + j < cp.length := by
        intro j hj; rw [hinv]; exact grid_index_lt hi' hj
      obtain ⟨t2, ht2, hI2⟩ := forLoop_inv
        (fun j (st : List (Vec K) × ℕ) =>
            match cp[st.2 - 1]?, cp[st.2]? with
            | some p, some q =>
              some (st.1 ++ [((j : K) / ((m + 1 : ℕ) : K)) • p +
                  (1 - (j : K) / ((m + 1 : ℕ) : K)) • q], st.2 + 1)
            | _, _ => none)
        (fun j st => st = ((List.range (i * (m + 2) + j)).map (elevatedV cp m),
          i * (m + 1) + j))
        m 1 ((List.range (i * (m + 2))).map (elevatedV cp m) ++ [cp.getD (i * (m + 1)) 0],
          i * (m + 1) + 1)
        (by rw [← elevatedV_first cp m i, map_range_succ_append])
        (by
          intro j t' hj1 hj2 ht'
          subst ht'
          refine ⟨((List.range (i * (m + 2) + j)).map (elevatedV cp m) ++
            [elevatedV cp m (i * (m + 2) + j)], i * (m + 1) + j + 1), ?_, ?_⟩
          · simp only
            have h1 := hrow (j - 1) (by omega)
            have h2 := hrow j (by omega)
            have e : i * (m + 1) + (j - 1) = i * (m + 1) + j - 1 := by omega
            rw [e] at h1
            rw [getElem?_eq_some_getD cp _ h1 0, getElem?_eq_some_getD cp _ h2 0,
              elevatedV_at cp m i j (by omega)]
          · show (_, _) = (_, _)
            rw [map_range_succ_append]; rfl)
      refine ⟨((List.range ((i + 1) * (m + 2))).map (elevatedV cp m), (i + 1) * (m + 1)), ?_, rfl⟩
      simp only
      have h0 := hrow 0 (by omega)
      rw [Nat.add_zero] at h0
      rw [getElem?_eq_some_getD cp _ h0 0]
      simp only
      rw [ht2, hI2]
      simp only
      have hl := hrow m (by omega)
      have e : i * (m + 1) + (1 + m) - 1 = i * (m + 1) + m := by omega
      rw [e, getElem?_eq_some_getD cp _ hl 0]
      simp only
      have e2 : cp.getD (i * (m + 1) + m) 0 = elevatedV cp m (i * (m + 2) + (1 + m)) := by
        rw [Nat.add_comm 1 m, elevatedV_last]
        congr 1
      rw [e2, map_range_succ_append]
      have e3 : i * (m + 2) + (1 + m) + 1 = (i + 1) * (m + 2) := by ring
      have e4 : i * (m + 1) + (1 + m) = (i + 1) * (m + 1) := by ring
      rw [e3, e4])
  rw [ht1, hI1, Nat.zero_add]

end ElevateProofsV

end MyViewer
section ElevateAlgebra

variable {K : Type} [LinearOrderedField K]

theorem bern_elevate_left (n k : ℕ) (u : K) :
    bern (n + 1) (k + 1) u * (((k + 1 : ℕ) : K) / ((n + 1 : ℕ) : K)) = u * bern n k u := by
  have h : ((n + 1 : ℕ) : K) ≠ 0 := by positivity
  have hc : ((n + 1).choose (k + 1) : K) * ((k + 1 : ℕ) : K) =
      ((n + 1 : ℕ) : K) * (n.choose k : K) := by
    have := Nat.succ_mul_choose_eq n k
    simp only [Nat.succ_eq_add_one] at this
    exact_mod_cast this.symm
  simp only [bern, Nat.add_sub_add_right]
  field_simp
  push_cast at hc
  linear_combination (u ^ (k + 1) * (1 - u) ^ (n - k)) * hc

theorem bern_elevate_right (n k : ℕ) (hk : k ≤ n) (u : K) :
    bern (n + 1) k u * (1 - (k : K) / ((n + 1 : ℕ) : K)) = (1 - u) * bern n k u := by
  have h : ((n + 1 : ℕ) : K) ≠ 0 := by positivity
  have hc : ((n + 1).choose k : K) * (((n + 1 : ℕ) : K) - (k : K)) =
      ((n + 1 : ℕ) : K) * (n.choose k : K) := by
    have := Nat.choose_mul_succ_eq n k
    have h2 : (((n + 1 - k : ℕ)) : K) = ((n + 1 : ℕ) : K) - (k : K) :=
      Nat.cast_sub (by omega)
    rw [← h2]
    exact_mod_cast (by rw [← this]; ring : (n + 1).choose k * (n + 1 - k) = (n + 1) * n.choose k)
  have e : n + 1 - k = (n - k) + 1 := by omega
  simp only [bern, e, pow_succ]
  field_simp
  push_cast at hc
  linear_combination (u ^ k * (1 - u) ^ (n - k) * (1 - u)) * hc

/-- Degree elevation of a Bézier curve: blending neighbours with ratio `i / (n + 1)`
leaves the Bernstein combination unchanged. -/
theorem elevate_sum {V : Type} [AddCommGroup V] [Module K V] (n : ℕ) (u : K) (p a : ℕ → V)
    (ha : ∀ k, a (k + 1) = p k) :
    ∑ i in Finset.range (n + 2), bern (n + 1) i u •
        (((i : K) / ((n + 1 : ℕ) : K)) • a i + (1 - (i : K) / ((n + 1 : ℕ) : K)) • p i) =
      ∑ k in Finset.range (n + 1), bern n k u • p k := by
  have h : ((n + 1 : ℕ) : K) ≠ 0 := by positivity
  simp only [smul_add, smul_smul, Finset.sum_add_distrib]
  rw [Finset.sum_range_succ' (fun i => (bern (n + 1) i u * ((i : K) / ((n + 1 : ℕ) : K))) • a i),
    Finset.sum_range_succ
      (fun i => (bern (n + 1) i u * (1 - (i : K) / ((n + 1 : ℕ) : K))) • p i) (n + 1)]
  simp only [Nat.cast_zero, zero_div, mul_zero, zero_smul, add_zero, div_self h, sub_self]
  rw [← Finset.sum_add_distrib]
  apply Finset.sum_congr rfl
  intro k hk
  have hk' : k ≤ n := by
    have := Finset.mem_range.mp hk
    omega
  rw [ha k, ← add_smul, bern_elevate_left, bern_elevate_right n k hk']
  congr 1
  ring

end ElevateAlgebra
namespace MyViewer

section Claims12

variable {K : Type} [LinearOrderedField K]

theorem getD_map_range {α : Type} (f : ℕ → α) (n i : ℕ) (h : i < n) (d : α) :
    ((List.range n).map f).getD i d = f i := by
  simp [List.getD, getElem?_map_range, h]

/-- Claim C1. For every Bézier surface satisfying the count invariant, with the Bernstein
basis selected, and every `(u, v)`: `elevateU()` succeeds, and `evaluate(u, v)` returns
the same point after it as before it. -/
theorem C1_elevateU_preserves_evaluate (s : MyViewer K) (u v : K)
    (hb : s.trigonometric_basis = false) (hinv : s.countInvariant) :
    ∃ s' p, elevateU s = some s' ∧ evaluate s u v = some p ∧ evaluate s' u v = some p := by
  refine ⟨_, _, elevateU_eq s hinv, evaluate_eq s u v hb hinv, ?_⟩
  obtain ⟨mt, tb, ⟨n, m⟩, cp, fn⟩ := s
  simp only at hb
  rw [evaluate_eq _ u v hb (by simp [countInvariant])]
  simp only
  congr 1
  rw [Finset.sum_comm, Finset.sum_comm (s := Finset.range (n + 1))]
  apply Finset.sum_congr rfl
  intro l hl
  have hl' : l < m + 1 := Finset.mem_range.mp hl
  have step : ∀ k ∈ Finset.range (n + 1 + 1),
      bern m l v • bern (n + 1) k u •
        ((List.range ((n + 2) * (m + 1))).map (elevatedU cp n m)).getD (k * (m + 1) + l) 0 =
      bern m l v • (bern (n + 1) k u •
        (((k : K) / ((n + 1 : ℕ) : K)) • cp.getD (k * (m + 1) + l - m - 1) 0 +
          (1 - (k : K) / ((n + 1 : ℕ) : K)) • cp.getD (k * (m + 1) + l) 0)) := by
    intro k hk
    have hk' : k < n + 2 := Finset.mem_range.mp hk
    rw [getD_map_range _ _ _ (grid_index_lt (n := n + 1) hk' hl'), elevatedU_mid cp n m k l hl']
  rw [Finset.sum_congr rfl step, ← Finset.smul_sum,
    elevate_sum n u (fun k => cp.getD (k * (m + 1) + l) 0)
      (fun k => cp.getD (k * (m + 1) + l - m - 1) 0)
      (fun k => by
        have : (k + 1) * (m + 1) + l - m - 1 = k * (m + 1) + l := by
          have : (k + 1) * (m + 1) = k * (m + 1) + (m + 1) := by ring
          omega
        simp only [this]),
    Finset.smul_sum]

/-- Witness of C1 on the bilinear patch. -/
theorem C1_elevateU_preserves_evaluate_witness :
    patch11.trigonometric_basis = false ∧ patch11.countInvariant ∧
      ∃ s' p, elevateU patch11 = some s' ∧ evaluate patch11 (1/3 : ℚ) (1/2) = some p ∧
        evaluate s' (1/3) (1/2) = some p :=
  ⟨rfl, by decide, C1_elevateU_preserves_evaluate patch11 (1/3) (1/2) rfl (by decide)⟩

/-- Claim C2. For every Bézier surface satisfying the count invariant, with the Bernstein
basis selected, and every `(u, v)`: `elevateV()` succeeds, and `evaluate(u, v)` returns
the same point after it as before it. -/
theorem C2_elevateV_preserves_evaluate (s : MyViewer K) (u v : K)
    (hb : s.trigonometric_basis = false) (hinv : s.countInvariant) :
    ∃ s' p, elevateV s = some s' ∧ evaluate s u v = some p ∧ evaluate s' u v = some p := by
  refine ⟨_, _, elevateV_eq s hinv, evaluate_eq s u v hb hinv, ?_⟩
  obtain ⟨mt, tb, ⟨n, m⟩, cp, fn⟩ := s
  simp only at hb
  rw [evaluate_eq _ u v hb (by simp [countInvariant])]
  simp only
  congr 1
  apply Finset.sum_congr rfl
  intro k hk
  have hk' : k < n + 1 := Finset.mem_range.mp hk
  have step : ∀ l ∈ Finset.range (m + 1 + 1),
      bern (m + 1) l v • bern n k u •
        ((List.range ((n + 1) * (m + 2))).map (elevatedV cp m)).getD (k * (m + 1 + 1) + l) 0 =
      bern n k u • (bern (m + 1) l v •
        (((l : K) / ((m + 1 : ℕ) : K)) • cp.getD (k * (m + 1) + l - 1) 0 +
          (1 - (l : K) / ((m + 1 : ℕ) : K)) • cp.getD (k * (m + 1) + l) 0)) := by
    intro l hl
    have hl' : l < m + 2 := Finset.mem_range.mp hl
    rw [getD_map_range _ _ _ (grid_index_lt (m := m + 1) hk' hl'),
      elevatedV_at cp m k l hl', smul_comm]
  rw [Finset.sum_congr rfl step, ← Finset.smul_sum,
    elevate_sum m v (fun l => cp.getD (k * (m + 1) + l) 0)
      (fun l => cp.getD (k * (m + 1) + l - 1) 0) (fun l => rfl),
    Finset.smul_sum]
  apply Finset.sum_congr rfl
  intro l _
  rw [smul_comm]

/-- Witness of C2 on the bilinear patch. -/
theorem C2_elevateV_preserves_evaluate_witness :
    patch11.trigonometric_basis = false ∧ patch11.countInvariant ∧
      ∃ s' p, elevateV patch11 = some s' ∧ evaluate patch11 (1/3 : ℚ) (1/2) = some p ∧
        evaluate s' (1/3) (1/2) = some p :=
  ⟨rfl, by decide, C2_elevateV_preserves_evaluate patch11 (1/3) (1/2) rfl (by decide)⟩

end Claims12

end MyViewer
section Claims345

variable {K : Type} [LinearOrderedField K]

theorem sum_map_range (f : ℕ → K) (n : ℕ) :
    ((List.range n).map f).sum = ∑ k in Finset.range n, f k := by
  induction n with
  | zero => simp
  | succ n ih => simp [List.range_succ, Finset.sum_range_succ, ih]

theorem bern_sum (n : ℕ) (u : K) : ∑ k in Finset.range (n + 1), bern n k u = 1 := by
  have h := (add_pow u (1 - u) n).symm
  rw [add_sub_cancel, one_pow] at h
  rw [← h]
  apply Finset.sum_congr rfl
  intro k _
  simp only [bern]
  ring

/-- Claim C3. For every degree `n` and every parameter `u`, `bernstein(n, u)` returns
`n + 1` values and they sum to `1` (partition of unity). -/
theorem C3_bernstein_partition_of_unity (n : ℕ) (u : K) :
    ∃ coeff : List K, bernstein n u = some coeff ∧ coeff.length = n + 1 ∧ coeff.sum = 1 := by
  refine ⟨_, bernstein_eq n u, by simp, ?_⟩
  rw [sum_map_range, bern_sum]

/-- Claim C4. For every degree `n` and every parameter `u`, `bernstein(n, u)` returns
exactly `n + 1` values, and for every `k` in `0..n` the `k`-th value is the Bernstein
polynomial `C(n,k) * u^k * (1-u)^(n-k)`. -/
theorem C4_bernstein_values (n : ℕ) (u : K) :
    ∃ coeff : List K, bernstein n u = some coeff ∧ coeff.length = n + 1 ∧
      ∀ k : Fin (n + 1),
        coeff[k.val]? = some ((n.choose k.val : K) * u ^ k.val * (1 - u) ^ (n - k.val)) := by
  refine ⟨_, bernstein_eq n u, by simp, ?_⟩
  intro k
  rw [getElem?_map_range, if_pos k.isLt]
  rfl

open Polynomial in
/-- Claim C5. For every degree `n`, every derivative count `d ≤ n` and every `u`,
`bernstein(n, u, d)` returns `d + 1` rows of `n + 1` values each, row `0` is
`bernstein(n, u)`, and entry `[i][k]` (for `i` in `0..d`, in particular `1..d`, and `k` in
`0..n`) is the `i`-th derivative of the degree `n` Bernstein polynomial `B_k^n` at `u`. -/
theorem C5_bernstein_derivatives (n d : ℕ) (u : K) (h : d ≤ n) :
    ∃ coeffs : List (List K), bernsteinDer n u d = some coeffs ∧
      coeffs.map List.length = List.replicate (d + 1) (n + 1) ∧
      coeffs[0]? = bernstein n u ∧
      ∀ (i : Fin (d + 1)) (k : Fin (n + 1)),
        (coeffs[i.val]?.bind fun row => row[k.val]?) =
          some (eval u (derivative^[i.val] (bernsteinPolynomial K n k.val))) := by
  refine ⟨_, bernsteinDer_eq d n u h, ?_, ?_, ?_⟩
  · apply List.ext_getElem?
    intro i
    simp only [List.map_map, getElem?_map_range, List.getElem?_replicate]
    by_cases hi : i < d + 1 <;> simp [hi]
  · rw [getElem?_map_range, if_pos (Nat.succ_pos d), bernstein_eq]
    simp only [bernDer_zero]
  · intro i k
    rw [getElem?_map_range, if_pos i.isLt]
    simp only [Option.some_bind]
    rw [getElem?_map_range, if_pos k.isLt]

/-- Witness of C5: degree `3`, two derivatives, over `ℚ`. -/
theorem C5_bernstein_derivatives_witness :
    (2 ≤ 3) ∧ ∃ coeffs : List (List ℚ), bernsteinDer 3 (1/2 : ℚ) 2 = some coeffs ∧
      coeffs.map List.length = List.replicate (2 + 1) (3 + 1) ∧
      coeffs[0]? = bernstein 3 (1/2 : ℚ) ∧
      ∀ (i : Fin (2 + 1)) (k : Fin (3 + 1)),
        (coeffs[i.val]?.bind fun row => row[k.val]?) =
          some (Polynomial.eval (1/2 : ℚ)
            (Polynomial.derivative^[i.val] (bernsteinPolynomial ℚ 3 k.val))) :=
  ⟨by decide, C5_bernstein_derivatives 3 2 (1/2) (by decide)⟩

end Claims345
/-! ## Loops that can throw -/

theorem forLoopE_const_lo {σ ε : Type} (f : σ → Except ε σ) :
    ∀ (cnt lo : ℕ) (s : σ), forLoopE (fun _ => f) lo cnt s = forLoopE (fun _ => f) 0 cnt s := by
  intro cnt
  induction cnt with
  | zero => intro lo s; rfl
  | succ cnt ih =>
    intro lo s
    simp only [forLoopE]
    cases f s with
    | error e => rfl
    | ok t => simp only; rw [ih (lo + 1), ih (0 + 1)]

theorem forLoopE_const_add {σ ε : Type} (f : σ → Except ε σ) :
    ∀ (a b : ℕ) (s : σ), forLoopE (fun _ => f) 0 (a + b) s =
      match forLoopE (fun _ => f) 0 a s with
      | Except.error e => Except.error e
      | Except.ok t => forLoopE (fun _ => f) 0 b t := by
  intro a
  induction a with
  | zero => intro b s; simp [forLoopE]
  | succ a ih =>
    intro b s
    have e : a + 1 + b = (a + b) + 1 := by omega
    rw [e]
    simp only [forLoopE]
    cases f s with
    | error e => rfl
    | ok t =>
      simp only
      rw [forLoopE_const_lo f (a + b), forLoopE_const_lo f a, ih]

theorem forLoopE_nested {σ ε : Type} (f : σ → Except ε σ) (b : ℕ) :
    ∀ (a : ℕ) (s : σ),
      forLoopE (fun _ st => forLoopE (fun _ => f) 0 b st) 0 a s =
        forLoopE (fun _ => f) 0 (a * b) s := by
  intro a
  induction a with
  | zero => intro s; simp [forLoopE]
  | succ a ih =>
    intro s
    have e : (a + 1) * b = b + a * b := by ring
    rw [e, forLoopE_const_add f b (a * b) s]
    simp only [forLoopE]
    cases forLoopE (fun _ => f) 0 b s with
    | error e => rfl
    | ok t =>
      simp only
      rw [forLoopE_const_lo (fun st => forLoopE (fun _ => f) 0 b st) a, ih]

namespace MyViewer

section FileProofs

variable {K : Type}

theorem setCoord_length (cp : List (Vec K)) (i : ℕ) (c : Fin 3) (x : K) :
    (setCoord cp i c x).length = cp.length := by
  unfold setCoord
  cases cp[i]? <;> simp

theorem setCoord_append (pre post : List (Vec K)) (q : Vec K) (c : Fin 3) (x : K) :
    setCoord (pre ++ q :: post) pre.length c x =
      pre ++ (match c with
        | 0 => (x, q.2.1, q.2.2)
        | 1 => (q.1, x, q.2.2)
        | 2 => (q.1, q.2.1, x)) :: post := by
  have h : (pre ++ q :: post)[pre.length]? = some q := by
    rw [List.getElem?_append_right (Nat.le_refl _)]; simp
  unfold setCoord
  rw [h]
  simp

variable [LinearOrderedField K]

theorem readCoord_of_value (index : ℕ) (c : Fin 3) (cp : List (Vec K)) (a : Token K)
    (rest : List (Token K)) (x : K) (h : Token.value a = some x) :
    readCoord index c (cp, a :: rest) = Except.ok (setCoord cp index c x, rest) := by
  cases a with
  | size n => simp only [Token.value, Option.some.injEq] at h; subst h; rfl
  | real y => simp only [Token.value, Option.some.injEq] at h; subst h; rfl
  | junk => simp [Token.value] at h

theorem readCoord_error_length (index : ℕ) (c : Fin 3) (st : List (Vec K) × List (Token K))
    (e : List (Vec K)) (h : readCoord index c st = Except.error e) : e.length = st.1.length := by
  obtain ⟨cp, toks⟩ := st
  cases toks with
  | nil => simp only [readCoord, Except.error.injEq] at h; subst h; rfl
  | cons a rest =>
    cases a with
    | size n => simp [readCoord] at h
    | real y => simp [readCoord] at h
    | junk =>
      simp only [readCoord, Except.error.injEq] at h
      subst h
      exact setCoord_length _ _ _ _

theorem readCoord_ok_length (index : ℕ) (c : Fin 3) (st t : List (Vec K) × List (Token K))
    (h : readCoord index c st = Except.ok t) : t.1.length = st.1.length := by
  obtain ⟨cp, toks⟩ := st
  cases toks with
  | nil => simp [readCoord] at h
  | cons a rest =>
    cases a with
    | size n =>
      simp only [readCoord, Except.ok.injEq] at h; subst h; exact setCoord_length _ _ _ _
    | real y =>
      simp only [readCoord, Except.ok.injEq] at h; subst h; exact setCoord_length _ _ _ _
    | junk => simp [readCoord] at h

theorem readCoord_ok_inv (index : ℕ) (c : Fin 3) (cp : List (Vec K)) (toks : List (Token K))
    (t : List (Vec K) × List (Token K)) (h : readCoord index c (cp, toks) = Except.ok t) :
    ∃ a rest x, toks = a :: rest ∧ Token.value a = some x ∧ t = (setCoord cp index c x, rest) := by
  cases toks with
  | nil => simp [readCoord] at h
  | cons a rest =>
    cases a with
    | size n =>
      simp only [readCoord, Except.ok.injEq] at h
      exact ⟨_, rest, (n : K), rfl, rfl, h.symm⟩
    | real y =>
      simp only [readCoord, Except.ok.injEq] at h
      exact ⟨_, rest, y, rfl, rfl, h.symm⟩
    | junk => simp [readCoord] at h

theorem readPoint_ok (pre post : List (Vec K)) (q : Vec K) (a b d : Token K)
    (rest : List (Token K)) (x y z : K) (ha : Token.value a = some x)
    (hb : Token.value b = some y) (hd : Token.value d = some z) :
    readPoint ((pre ++ q :: post, a :: b :: d :: rest), pre.length) =
      Except.ok ((pre ++ (x, y, z) :: post, rest), pre.length + 1) := by
  simp only [readPoint, readCoord_of_value _ _ _ _ _ _ ha, readCoord_of_value _ _ _ _ _ _ hb,
    readCoord_of_value _ _ _ _ _ _ hd, setCoord_append]

theorem readPoint_ok_inv (st t : (List (Vec K) × List (Token K)) × ℕ)
    (h : readPoint st = Except.ok t) :
    ∃ a b d rest x y z, st.1.2 = a :: b :: d :: rest ∧ Token.value a = some x ∧
      Token.value b = some y ∧ Token.value d = some z ∧ t.1.2 = rest ∧
      t.1.1.length = st.1.1.length := by
  obtain ⟨⟨cp, toks⟩, index⟩ := st
  simp only [readPoint] at h
  cases h0 : readCoord index 0 (cp, toks) with
  | error e => rw [h0] at h; simp at h
  | ok s0 =>
    rw [h0] at h
    simp only at h
    obtain ⟨a, r0, x, e0, vx, rfl⟩ := readCoord_ok_inv _ _ _ _ _ h0
    cases h1 : readCoord index 1 (setCoord cp index 0 x, r0) with
    | error e => rw [h1] at h; simp at h
    | ok s1 =>
      rw [h1] at h
      simp only at h
      obtain ⟨b, r1, y, e1, vy, rfl⟩ := readCoord_ok_inv _ _ _ _ _ h1
      cases h2 : readCoord index 2 (setCoord (setCoord cp index 0 x) index 1 y, r1) with
      | error e => rw [h2] at h; simp at h
      | ok s2 =>
        rw [h2] at h
        simp only [Except.ok.injEq] at h
        obtain ⟨d, r2, z, e2, vz, rfl⟩ := readCoord_ok_inv _ _ _ _ _ h2
        subst h e0 e1 e2
        exact ⟨a, b, d, r2, x, y, z, rfl, vx, vy, vz, rfl, by simp [setCoord_length]⟩

theorem readPoint_error_length (st : (List (Vec K) × List (Token K)) × ℕ) (e : List (Vec K))
    (h : readPoint st = Except.error e) : e.length = st.1.1.length := by
  obtain ⟨⟨cp, toks⟩, index⟩ := st
  simp only [readPoint] at h
  cases h0 : readCoord index 0 (cp, toks) with
  | error e0 =>
    rw [h0] at h; simp only [Except.error.injEq] at h; subst h
    exact readCoord_error_length _ _ _ _ h0
  | ok s0 =>
    rw [h0] at h
    simp only at h
    have l0 := readCoord_ok_length _ _ _ _ h0
    cases h1 : readCoord index 1 s0 with
    | error e1 =>
      rw [h1] at h; simp only [Except.error.injEq] at h; subst h
      rw [readCoord_error_length _ _ _ _ h1, l0]
    | ok s1 =>
      rw [h1] at h
      simp only at h
      have l1 := readCoord_ok_length _ _ _ _ h1
      cases h2 : readCoord index 2 s1 with
      | error e2 =>
        rw [h2] at h; simp only [Except.error.injEq] at h; subst h
        rw [readCoord_error_length _ _ _ _ h2, l1, l0]
      | ok s2 => rw [h2] at h; simp at h

/-- The point loop on a stream with `cnt` valid point lines fills the grid with them. -/
theorem readGrid_ok : ∀ (cnt : ℕ) (pre post : List (Vec K)) (toks : List (Token K))
    (pts : List (Vec K)), pointLines cnt toks = some pts → post.length = cnt →
    ∃ rest, forLoopE (fun _ => readPoint) 0 cnt ((pre ++ post, toks), pre.length) =
      Except.ok ((pre ++ pts, rest), pre.length + cnt)
  | 0, pre, post, toks, pts, h, hl => by
    simp only [pointLines, Option.some.injEq] at h
    subst h
    have : post = [] := List.length_eq_zero.mp hl
    subst this
    exact ⟨toks, rfl⟩
  | cnt + 1, pre, post, toks, pts, h, hl => by
    match toks, h with
    | a :: b :: d :: rest, h =>
      simp only [pointLines] at h
      cases ha : Token.value a with
      | none => rw [ha] at h; simp at h
      | some x =>
        cases hb : Token.value b with
        | none => rw [ha, hb] at h; simp at h
        | some y =>
          cases hd : Token.value d with
          | none => rw [ha, hb, hd] at h; simp at h
          | some z =>
            cases hp : pointLines cnt rest with
            | none => rw [ha, hb, hd, hp] at h; simp at h
            | some pts' =>
              rw [ha, hb, hd, hp] at h
              simp only [Option.some.injEq] at h
              subst h
              obtain ⟨q, post', rfl⟩ : ∃ q post', post = q :: post' := by
                cases post with
                | nil => simp at hl
                | cons q post' => exact ⟨q, post', rfl⟩
              have hl' : post'.length = cnt := by simpa using hl
              obtain ⟨r, hr⟩ := readGrid_ok cnt (pre ++ [(x, y, z)]) post' rest pts' hp hl'
              refine ⟨r, ?_⟩
              simp only [forLoopE, readPoint_ok pre post' q a b d rest x y z ha hb hd]
              rw [forLoopE_const_lo]
              simp only [List.length_append, List.length_singleton, List.append_assoc,
                List.singleton_append] at hr
              rw [hr]
              congr 2
              omega
    | [], h => simp [pointLines] at h
    | [_], h => simp [pointLines] at h
    | [_, _], h => simp [pointLines] at h

theorem readGrid_ok_inv : ∀ (cnt : ℕ) (st t : (List (Vec K) × List (Token K)) × ℕ),
    forLoopE (fun _ => readPoint) 0 cnt st = Except.ok t →
    ∃ pts, pointLines cnt st.1.2 = some pts
  | 0, st, t, _ => ⟨[], rfl⟩
  | cnt + 1, st, t, h => by
    simp only [forLoopE] at h
    cases h0 : readPoint st with
    | error e => rw [h0] at h; simp at h
    | ok t0 =>
      rw [h0] at h
      simp only at h
      rw [forLoopE_const_lo] at h
      obtain ⟨a, b, d, rest, x, y, z, e, vx, vy, vz, er, _⟩ := readPoint_ok_inv st t0 h0
      obtain ⟨pts, hp⟩ := readGrid_ok_inv cnt t0 t h
      rw [er] at hp
      refine ⟨(x, y, z) :: pts, ?_⟩
      rw [e]
      simp only [pointLines, vx, vy, vz, hp]

theorem readGrid_error_length : ∀ (cnt : ℕ) (st : (List (Vec K) × List (Token K)) × ℕ)
    (e : List (Vec K)), forLoopE (fun _ => readPoint) 0 cnt st = Except.error e →
    e.length = st.1.1.length
  | 0, st, e, h => by simp [forLoopE] at h
  | cnt + 1, st, e, h => by
    simp only [forLoopE] at h
    cases h0 : readPoint st with
    | error e0 =>
      rw [h0] at h; simp only [Except.error.injEq] at h; subst h
      exact readPoint_error_length st _ h0
    | ok t0 =>
      rw [h0] at h
      simp only at h
      rw [forLoopE_const_lo] at h
      obtain ⟨_, _, _, _, _, _, _, _, _, _, _, _, hl⟩ := readPoint_ok_inv st t0 h0
      rw [readGrid_error_length cnt t0 e h, hl]

end FileProofs

end MyViewer
namespace MyViewer

section OpenProofs

variable {K : Type} [LinearOrderedField K]

theorem resize_length (cp : List (Vec K)) (count : ℕ) : (resize cp count).length = count := by
  simp only [resize, List.length_append, List.length_take, List.length_replicate]
  omega

theorem pointLines_length : ∀ (cnt : ℕ) (toks : List (Token K)) (pts : List (Vec K)),
    pointLines cnt toks = some pts → pts.length = cnt
  | 0, _, pts, h => by
    simp only [pointLines, Option.some.injEq] at h; subst h; rfl
  | cnt + 1, toks, pts, h => by
    match toks, h with
    | a :: b :: d :: rest, h =>
      simp only [pointLines] at h
      cases ha : Token.value a <;> cases hb : Token.value b <;> cases hd : Token.value d <;>
        cases hp : pointLines cnt rest <;> rw [ha, hb, hd, hp] at h <;>
        simp only [Option.some.injEq, reduceCtorEq] at h
      subst h
      simp [pointLines_length cnt rest _ hp]
    | [], h => simp [pointLines] at h
    | [_], h => simp [pointLines] at h
    | [_, _], h => simp [pointLines] at h

/-- The point loops of `openBezier`, as one loop over all points. -/
theorem openBezier_loops (n m : ℕ) (st : (List (Vec K) × List (Token K)) × ℕ) :
    forLoopE (fun _ st => forLoopE (fun _ st => readPoint st) 0 (m + 1) st) 0 (n + 1) st =
      forLoopE (fun _ => readPoint) 0 ((n + 1) * (m + 1)) st :=
  forLoopE_nested readPoint (m + 1) (n + 1) st

/-- A file that follows the format is loaded: the flag is `true`, the degree pair is
the header pair, the grid holds the points of the file. -/
theorem openBezier_of_parse (file : Option (List (Token K))) (filename : String)
    (s : MyViewer K) (n m : ℕ) (pts : List (Vec K))
    (h : parseBezier file = some ((n, m), pts)) :
    openBezier file filename s =
      (true, { s with degree := (n, m), control_points := pts,
                      model_type := ModelType.BEZIER_SURFACE, last_filename := filename }) := by
  match file, h with
  | some (Token.size n' :: Token.size m' :: rest), h =>
    simp only [parseBezier] at h
    cases hp : pointLines ((n' + 1) * (m' + 1)) rest with
    | none => rw [hp] at h; simp at h
    | some pts' =>
      rw [hp] at h
      simp only [Option.some.injEq, Prod.mk.injEq] at h
      obtain ⟨⟨rfl, rfl⟩, rfl⟩ := h
      obtain ⟨r, hr⟩ := readGrid_ok ((n' + 1) * (m' + 1)) []
        (resize s.control_points ((n' + 1) * (m' + 1))) rest pts' hp (resize_length _ _)
      simp only [List.nil_append, List.length_nil, Nat.zero_add] at hr
      simp only [openBezier, readSize, openBezier_loops, hr]

/-- A file that does not follow the format is refused; what the members are then. -/
theorem openBezier_of_parse_none (file : Option (List (Token K))) (filename : String)
    (s : MyViewer K) (h : parseBezier file = none) :
    (openBezier file filename s).1 = false ∧
      (openBezier file filename s).2.model_type = s.model_type ∧
      (openBezier file filename s).2.last_filename = s.last_filename ∧
      (openBezier file filename s).2.trigonometric_basis = s.trigonometric_basis ∧
      ((∀ n m rest, file ≠ some (Token.size n :: Token.size m :: rest)) →
        (openBezier file filename s).2 = s) ∧
      (∀ n m rest, file = some (Token.size n :: Token.size m :: rest) →
        (openBezier file filename s).2.degree = (n, m) ∧
        (openBezier file filename s).2.control_points.length = (n + 1) * (m + 1)) := by
  match file, h with
  | some (Token.size n :: Token.size m :: rest), h =>
    simp only [parseBezier] at h
    cases hp : pointLines ((n + 1) * (m + 1)) rest with
    | some pts => rw [hp] at h; simp at h
    | none =>
      cases hl : forLoopE (fun _ => readPoint) 0 ((n + 1) * (m + 1))
          ((resize s.control_points ((n + 1) * (m + 1)), rest), 0) with
      | ok t =>
        obtain ⟨pts, hpts⟩ := readGrid_ok_inv _ _ _ hl
        simp only at hpts
        rw [hp] at hpts
        simp at hpts
      | error e =>
        have hlen := readGrid_error_length _ _ _ hl
        simp only [resize_length] at hlen
        have hob : openBezier (some (Token.size n :: Token.size m :: rest)) filename s =
            (false, { s with degree := (n, m), control_points := e }) := by
          simp only [openBezier, readSize, openBezier_loops, hl]
        rw [hob]
        refine ⟨rfl, rfl, rfl, rfl, ?_, ?_⟩
        · intro hne
          exact absurd rfl (hne n m rest)
        · intro n' m' rest' heq
          simp only [Option.some.injEq, List.cons.injEq, Token.size.injEq] at heq
          obtain ⟨rfl, rfl, _⟩ := heq
          exact ⟨rfl, hlen⟩
  | none, _ =>
    exact ⟨rfl, rfl, rfl, rfl, fun _ => rfl, fun _ _ _ heq => by simp at heq⟩
  | some [], _ =>
    exact ⟨rfl, rfl, rfl, rfl, fun _ => rfl, fun _ _ _ heq => by simp at heq⟩
  | some (Token.real _ :: _), _ =>
    exact ⟨rfl, rfl, rfl, rfl, fun _ => rfl, fun _ _ _ heq => by simp at heq⟩
  | some (Token.junk :: _), _ =>
    exact ⟨rfl, rfl, rfl, rfl, fun _ => rfl, fun _ _ _ heq => by simp at heq⟩
  | some [Token.size _], _ =>
    exact ⟨rfl, rfl, rfl, rfl, fun _ => rfl, fun _ _ _ heq => by simp at heq⟩
  | some (Token.size _ :: Token.real _ :: _), _ =>
    exact ⟨rfl, rfl, rfl, rfl, fun _ => rfl, fun _ _ _ heq => by simp at heq⟩
  | some (Token.size _ :: Token.junk :: _), _ =>
    exact ⟨rfl, rfl, rfl, rfl, fun _ => rfl, fun _ _ _ heq => by simp at heq⟩

end OpenProofs

end MyViewer
namespace MyViewer

section Claims679

variable {K : Type} [LinearOrderedField K]

/-- Counterexample to C6 as stated: the file with header `1 1` and four point lines is
read successfully, but the stored degree pair is not `(1 + 1, 1 + 1)` and the grid does
not have `9` control points. -/
theorem C6_header_plus_one_counterexample :
    (openBezier (some file11) "a.bzr" emptyViewer).1 = true ∧
      (openBezier (some file11) "a.bzr" emptyViewer).2.degree ≠ (1 + 1, 1 + 1) ∧
      (openBezier (some file11) "a.bzr" emptyViewer).2.control_points.length ≠ 9 := by
  have h : openBezier (some file11) "a.bzr" emptyViewer =
      (true, { model_type := ModelType.BEZIER_SURFACE, trigonometric_basis := false,
               degree := (1, 1),
               control_points := [(0, 0, 0), (0, 1, 1/2), (1, 0, -1/2), (1, 1, 2)],
               last_filename := "a.bzr" }) := by
    simp [openBezier, file11, emptyViewer, readSize, forLoopE, readPoint, readCoord, setCoord,
      resize]
  rw [h]
  exact ⟨rfl, by decide, by decide⟩

/-- Claim C6, amended. For every Bézier control file that follows the format with
header integers `n` and `m`, `openBezier` reads it successfully and stores the degree
pair `(n, m)`, the header values themselves, together with the `(n+1)(m+1)` points of
the file, the model type `BEZIER_SURFACE` and the file name. -/
theorem C6_openBezier_stores_header_degrees (file : Option (List (Token K)))
    (filename : String) (s : MyViewer K) (n m : ℕ) (pts : List (Vec K))
    (h : parseBezier file = some ((n, m), pts)) :
    openBezier file filename s =
        (true, { s with degree := (n, m), control_points := pts,
                        model_type := ModelType.BEZIER_SURFACE, last_filename := filename }) ∧
      pts.length = (n + 1) * (m + 1) := by
  refine ⟨openBezier_of_parse file filename s n m pts h, ?_⟩
  match file, h with
  | some (Token.size n' :: Token.size m' :: rest), h =>
    simp only [parseBezier] at h
    cases hp : pointLines ((n' + 1) * (m' + 1)) rest with
    | none => rw [hp] at h; simp at h
    | some pts' =>
      rw [hp] at h
      simp only [Option.some.injEq, Prod.mk.injEq] at h
      obtain ⟨⟨rfl, rfl⟩, rfl⟩ := h
      exact pointLines_length _ _ _ hp

theorem parseBezier_file11 :
    parseBezier (some file11) =
      some ((1, 1), [(0, 0, 0), (0, 1, 1/2), (1, 0, -1/2), (1, 1, 2)]) := by
  simp [parseBezier, pointLines, Token.value, file11]

/-- Witness of C6 (amended): header `1 1` and four point lines give degrees `(1, 1)`
and four control points. -/
theorem C6_openBezier_stores_header_degrees_witness :
    parseBezier (some file11) =
        some ((1, 1), [(0, 0, 0), (0, 1, 1/2), (1, 0, -1/2), (1, 1, 2)]) ∧
      openBezier (some file11) "a.bzr" emptyViewer =
        (true, { emptyViewer with
                   degree := (1, 1),
                   control_points := [(0, 0, 0), (0, 1, 1/2), (1, 0, -1/2), (1, 1, 2)],
                   model_type := ModelType.BEZIER_SURFACE, last_filename := "a.bzr" }) ∧
      [((0 : ℚ), (0 : ℚ), (0 : ℚ)), (0, 1, 1/2), (1, 0, -1/2), (1, 1, 2)].length =
        (1 + 1) * (1 + 1) :=
  ⟨parseBezier_file11,
    C6_openBezier_stores_header_degrees (some file11) "a.bzr" emptyViewer 1 1 _
      parseBezier_file11⟩

theorem parseBezier_fileShort : parseBezier (some fileShort) = none := by
  simp [parseBezier, pointLines, Token.value, fileShort]

/-- Counterexample to C7 as stated: the file whose header declares four points and that
ends after the first one makes `openBezier` return `false`, yet the degree pair and
the control-point grid are no longer what they were before the call. -/
theorem C7_failed_load_changes_state_counterexample :
    parseBezier (some fileShort) = none ∧
      (openBezier (some fileShort) "new.bzr" patch00).1 = false ∧
      (openBezier (some fileShort) "new.bzr" patch00).2.degree ≠ patch00.degree ∧
      (openBezier (some fileShort) "new.bzr" patch00).2.control_points ≠
        patch00.control_points := by
  have h : openBezier (some fileShort) "new.bzr" patch00 =
      (false, { model_type := ModelType.BEZIER_SURFACE, trigonometric_basis := false,
                degree := (1, 1),
                control_points := [(9, 9, 9), (0, 0, 0), (0, 0, 0), (0, 0, 0)],
                last_filename := "old.bzr" }) := by
    simp [openBezier, fileShort, patch00, readSize, forLoopE, readPoint, readCoord, setCoord,
      resize]
  refine ⟨parseBezier_fileShort, ?_⟩
  rw [h]
  simp [patch00]

/-- Claim C7, amended. For every prior state and every file that cannot be opened, is
malformed or ends early, `openBezier` returns `false` and leaves the model type, the
last file name and the basis selector as they were.  When the failure is in the header
(or the file cannot be opened) every member is as before; when the header `n m` is read
and a point line fails, the degree pair is `(n, m)` and the grid has `(n+1)(m+1)` points. -/
theorem C7_failed_load (file : Option (List (Token K))) (filename : String) (s : MyViewer K)
    (h : parseBezier file = none) :
    (openBezier file filename s).1 = false ∧
      (openBezier file filename s).2.model_type = s.model_type ∧
      (openBezier file filename s).2.last_filename = s.last_filename ∧
      (openBezier file filename s).2.trigonometric_basis = s.trigonometric_basis ∧
      ((∀ n m rest, file ≠ some (Token.size n :: Token.size m :: rest)) →
        (openBezier file filename s).2 = s) ∧
      (∀ n m rest, file = some (Token.size n :: Token.size m :: rest) →
        (openBezier file filename s).2.degree = (n, m) ∧
        (openBezier file filename s).2.control_points.length = (n + 1) * (m + 1)) :=
  openBezier_of_parse_none file filename s h

/-- Witness of C7 (amended) on the file that ends early. -/
theorem C7_failed_load_witness :
    parseBezier (some fileShort) = none ∧
      (openBezier (some fileShort) "new.bzr" patch00).1 = false ∧
      (openBezier (some fileShort) "new.bzr" patch00).2.model_type = patch00.model_type ∧
      (openBezier (some fileShort) "new.bzr" patch00).2.last_filename =
        patch00.last_filename :=
  ⟨parseBezier_fileShort,
    (C7_failed_load (some fileShort) "new.bzr" patch00 parseBezier_fileShort).1,
    (C7_failed_load (some fileShort) "new.bzr" patch00 parseBezier_fileShort).2.1,
    (C7_failed_load (some fileShort) "new.bzr" patch00 parseBezier_fileShort).2.2.1⟩

/-- Claim C9. If the control-point count is `(degree[0]+1)(degree[1]+1)` before the call,
`elevateU()` raises `degree[0]` by one, keeps `degree[1]` and yields `(n+2)(m+1)` control
points; `elevateV()` raises `degree[1]` by one, keeps `degree[0]` and yields `(n+1)(m+2)`
control points; both keep the count invariant, and every successful `openBezier`
establishes it. -/
theorem C9_count_invariant (s : MyViewer K) (hinv : s.countInvariant) :
    (∃ s', elevateU s = some s' ∧ s'.degree = (s.degree.1 + 1, s.degree.2) ∧
        s'.control_points.length = (s.degree.1 + 2) * (s.degree.2 + 1) ∧ s'.countInvariant) ∧
    (∃ s', elevateV s = some s' ∧ s'.degree = (s.degree.1, s.degree.2 + 1) ∧
        s'.control_points.length = (s.degree.1 + 1) * (s.degree.2 + 2) ∧ s'.countInvariant) ∧
    (∀ (file : Option (List (Token K))) (filename : String) (s0 : MyViewer K),
        (openBezier file filename s0).1 = true →
          (openBezier file filename s0).2.countInvariant) := by
  refine ⟨⟨_, elevateU_eq s hinv, rfl, by simp, by simp [countInvariant]⟩,
    ⟨_, elevateV_eq s hinv, rfl, by simp, by simp [countInvariant]⟩, ?_⟩
  intro file filename s0 hok
  cases hp : parseBezier file with
  | none =>
    rw [(openBezier_of_parse_none file filename s0 hp).1] at hok
    simp at hok
  | some r =>
    obtain ⟨⟨n, m⟩, pts⟩ := r
    rw [openBezier_of_parse file filename s0 n m pts hp]
    simp only [countInvariant]
    match file, hp with
    | some (Token.size n' :: Token.size m' :: rest), hp =>
      simp only [parseBezier] at hp
      cases hq : pointLines ((n' + 1) * (m' + 1)) rest with
      | none => rw [hq] at hp; simp at hp
      | some pts' =>
        rw [hq] at hp
        simp only [Option.some.injEq, Prod.mk.injEq] at hp
        obtain ⟨⟨rfl, rfl⟩, rfl⟩ := hp
        exact pointLines_length _ _ _ hq

/-- Witness of C9 on the bilinear patch. -/
theorem C9_count_invariant_witness :
    patch11.countInvariant ∧
    (∃ s', elevateU patch11 = some s' ∧ s'.degree = (1 + 1, 1) ∧
        s'.control_points.length = (1 + 2) * (1 + 1) ∧ s'.countInvariant) ∧
    (∃ s', elevateV patch11 = some s' ∧ s'.degree = (1, 1 + 1) ∧
        s'.control_points.length = (1 + 1) * (1 + 2) ∧ s'.countInvariant) :=
  ⟨by decide, (C9_count_invariant patch11 (by decide)).1,
    (C9_count_invariant patch11 (by decide)).2.1⟩

end Claims679

end MyViewer

section Claim10

variable {K : Type} [LinearOrderedField K] [FloorRing K]

/-- Claim C10. For every non-empty list of vertex mean-curvature values and every cutoff
ratio (in particular every ratio in `[0, 1]`), after `updateMeanMinMax` the cached range
satisfies `mean_min ≤ 0 ≤ mean_max`, whatever value a read past the end of the sorted
list yields. -/
theorem C10_range_brackets_zero (oob : K) (vertex_mean : List K) (cutoff_ratio : K)
    (r : MeanRange K) (hne : vertex_mean ≠ []) :
    (updateMeanMinMax oob vertex_mean cutoff_ratio r).mean_min ≤ 0 ∧
      0 ≤ (updateMeanMinMax oob vertex_mean cutoff_ratio r).mean_max := by
  have hlen : vertex_mean.length ≠ 0 := fun h => hne (List.length_eq_zero.mp h)
  simp only [updateMeanMinMax, hlen, if_false]
  exact ⟨min_le_right _ _, le_max_right _ _⟩

/-- Witness of C10: three vertices, the default cutoff ratio `0.05`. -/
theorem C10_range_brackets_zero_witness :
    ([3, -1, 2] : List ℚ) ≠ [] ∧
      (updateMeanMinMax (7 : ℚ) [3, -1, 2] (1/20) ⟨0, 0⟩).mean_min ≤ 0 ∧
      0 ≤ (updateMeanMinMax (7 : ℚ) [3, -1, 2] (1/20) ⟨0, 0⟩).mean_max :=
  ⟨by simp, C10_range_brackets_zero 7 [3, -1, 2] (1/20) ⟨0, 0⟩ (by simp)⟩

end Claim10
namespace MyViewer

section SaveProofs

variable {K : Type} [LinearOrderedField K] [FloorRing K]

theorem printReal_value (x : K) : Token.value (printReal x) = some (sixDigits x) := by
  unfold printReal
  split
  · rename_i h
    simp only [Token.value, h.2.2]
  · rfl

theorem pointLines_saved (extra : List (Token K)) : ∀ (cps : List (Vec K)),
    pointLines cps.length
        (cps.flatMap (fun p => [printReal p.1, printReal p.2.1, printReal p.2.2]) ++ extra) =
      some (cps.map (fun p => (sixDigits p.1, sixDigits p.2.1, sixDigits p.2.2)))
  | [] => rfl
  | p :: cps => by
    show pointLines (cps.length + 1) (printReal p.1 :: printReal p.2.1 :: printReal p.2.2 ::
      (cps.flatMap (fun p => [printReal p.1, printReal p.2.1, printReal p.2.2]) ++ extra)) = _
    simp only [pointLines, printReal_value]
    rw [pointLines_saved extra cps]
    rfl

/-- What the format reads from the text that `saveBezier` writes. -/
theorem parseBezier_saveBezier (s : MyViewer K)
    (hm : s.model_type = ModelType.BEZIER_SURFACE) (hinv : s.countInvariant) :
    ∃ text, saveBezier s = some text ∧
      parseBezier (some text) = some (s.degree,
        s.control_points.map (fun p => (sixDigits p.1, sixDigits p.2.1, sixDigits p.2.2))) := by
  refine ⟨Token.size s.degree.1 :: Token.size s.degree.2 ::
    s.control_points.flatMap (fun p => [printReal p.1, printReal p.2.1, printReal p.2.2]),
    by simp [saveBezier, hm], ?_⟩
  have h := pointLines_saved [] s.control_points
  rw [List.append_nil, hinv] at h
  simp only [parseBezier, h]

theorem sixDigits_seven : sixDigits (1234567 : ℚ) = 1234570 := by
  have hlog : Int.log 10 |(1234567 : ℚ)| = 6 := by
    have : |(1234567 : ℚ)| = ((1234567 : ℕ) : ℚ) := by norm_num
    rw [this, Int.log_natCast]
    norm_cast
    exact Nat.log_eq_of_pow_le_of_lt_pow (by norm_num) (by norm_num)
  have hfloor : ⌊(1234567 : ℚ) / 10⌋₊ = 123456 := by
    rw [Nat.floor_eq_iff (by norm_num)]
    constructor <;> norm_num
  have hround : roundHalfEven ((1234567 : ℚ) / 10) = 123457 := by
    unfold roundHalfEven
    rw [hfloor]
    norm_num
  unfold sixDigits
  rw [hlog]
  norm_num [hround]

theorem sixDigits_zero : sixDigits (0 : K) = 0 := by simp [sixDigits]

end SaveProofs

section Claim8

variable {K : Type} [LinearOrderedField K] [FloorRing K]

/-- Counterexample to C8 as stated: the surface with the control point
`(1234567, 0, 0)` is saved and loaded back successfully, with the same degree pair, but
the control-point grid that comes back is `(1234570, 0, 0)`, not the one saved. -/
theorem C8_roundtrip_loses_digits_counterexample :
    ∃ text, saveBezier patchSeven = some text ∧
      (openBezier (some text) "seven.bzr" patchSeven).1 = true ∧
      (openBezier (some text) "seven.bzr" patchSeven).2.degree = patchSeven.degree ∧
      (openBezier (some text) "seven.bzr" patchSeven).2.control_points =
        [(1234570, 0, 0)] ∧
      (openBezier (some text) "seven.bzr" patchSeven).2.control_points ≠
        patchSeven.control_points := by
  obtain ⟨text, hs, hp⟩ := parseBezier_saveBezier patchSeven rfl (by decide)
  refine ⟨text, hs, ?_⟩
  rw [openBezier_of_parse (some text) "seven.bzr" patchSeven _ _ _ hp]
  have hcp : patchSeven.control_points.map
      (fun p => (sixDigits p.1, sixDigits p.2.1, sixDigits p.2.2)) = [(1234570, 0, 0)] := by
    simp [patchSeven, sixDigits_seven, sixDigits_zero]
  refine ⟨rfl, rfl, hcp, ?_⟩
  show patchSeven.control_points.map
      (fun p => (sixDigits p.1, sixDigits p.2.1, sixDigits p.2.2)) ≠ _
  rw [hcp]
  simp [patchSeven]

/-- Claim C8, amended. For every Bézier surface state satisfying the count invariant,
the text written by `saveBezier`, read back by `openBezier`, loads successfully and
reproduces the identical degree pair and a grid of the same size in which every
coordinate is the saved coordinate rounded to six significant decimal digits, the
precision at which the stream writes a `double`; the grid is identical whenever no
coordinate is changed by that rounding. -/
theorem C8_save_then_open (s s0 : MyViewer K) (filename : String)
    (hm : s.model_type = ModelType.BEZIER_SURFACE) (hinv : s.countInvariant) :
    ∃ text, saveBezier s = some text ∧
      openBezier (some text) filename s0 =
        (true, { s0 with
          degree := s.degree,
          control_points :=
            s.control_points.map (fun p => (sixDigits p.1, sixDigits p.2.1, sixDigits p.2.2)),
          model_type := ModelType.BEZIER_SURFACE, last_filename := filename }) ∧
      ((∀ p ∈ s.control_points, (sixDigits p.1, sixDigits p.2.1, sixDigits p.2.2) = p) →
        (openBezier (some text) filename s0).2.control_points = s.control_points) := by
  obtain ⟨text, hs, hp⟩ := parseBezier_saveBezier s hm hinv
  have ho := openBezier_of_parse (some text) filename s0 _ _ _ hp
  refine ⟨text, hs, ho, ?_⟩
  intro hfix
  rw [ho]
  simp only
  conv_rhs => rw [← List.map_id s.control_points]
  exact List.map_congr_left (fun p hp => by rw [hfix p hp]; rfl)

/-- Witness of C8 (amended) on the bilinear patch. -/
theorem C8_save_then_open_witness :
    patch11.model_type = ModelType.BEZIER_SURFACE ∧ patch11.countInvariant ∧
    ∃ text, saveBezier patch11 = some text ∧
      openBezier (some text) "b.bzr" emptyViewer =
        (true, { emptyViewer with
          degree := patch11.degree,
          control_points :=
            patch11.control_points.map
              (fun p => (sixDigits p.1, sixDigits p.2.1, sixDigits p.2.2)),
          model_type := ModelType.BEZIER_SURFACE, last_filename := "b.bzr" }) ∧
      ((∀ p ∈ patch11.control_points, (sixDigits p.1, sixDigits p.2.1, sixDigits p.2.2) = p) →
        (openBezier (some text) "b.bzr" emptyViewer).2.control_points =
          patch11.control_points) :=
  ⟨rfl, by decide, C8_save_then_open patch11 emptyViewer "b.bzr" rfl (by decide)⟩

end Claim8

end MyViewer

section Claim11

variable {K : Type} [LinearOrderedField K] [FloorRing K]

theorem HSV2RGB_green : HSV2RGB ((120 : K), 1, 1) = (0, 1, 0) := by
  have h2 : (120 : K) / 60 = 2 := by norm_num
  simp only [HSV2RGB, fmod, h2]
  norm_num

theorem HSV2RGB_blue : HSV2RGB ((240 : K), 1, 1) = (0, 0, 1) := by
  have h2 : (240 : K) / 60 = 4 := by norm_num
  have h3 : ⌊(4 : K) / 2⌋ = 2 := by
    rw [show (4 : K) / 2 = ((2 : ℤ) : K) by norm_num, Int.floor_intCast]
  simp only [HSV2RGB, fmod, h2, h3]
  norm_num

theorem HSV2RGB_red : HSV2RGB ((0 : K), 1, 1) = (1, 0, 0) := by
  simp only [HSV2RGB, fmod]
  norm_num

/-- Claim C11. For every range with `mean_min < 0 < mean_max`, in particular for
`mean_min = -2` and `mean_max = 4`, `meanMapColor(0)` is pure green `(0, 1, 0)`,
`meanMapColor(mean_min)` is pure blue `(0, 0, 1)` and `meanMapColor(mean_max)` is pure
red `(1, 0, 0)`. -/
theorem C11_meanMapColor_endpoints (r : MeanRange K) (hmin : r.mean_min < 0)
    (hmax : 0 < r.mean_max) :
    meanMapColor r 0 = (0, 1, 0) ∧ meanMapColor r r.mean_min = (0, 0, 1) ∧
      meanMapColor r r.mean_max = (1, 0, 0) := by
  refine ⟨?_, ?_, ?_⟩
  · simp only [meanMapColor, lt_irrefl, if_false, zero_div, ne_eq, hmax.ne', not_false_eq_true,
      if_true]
    rw [min_eq_left (zero_le_one)]
    simp only [sub_zero, mul_one, mul_zero, add_zero]
    exact HSV2RGB_green
  · simp only [meanMapColor, hmin, if_true, ne_eq, hmin.ne, not_false_eq_true, div_self,
      min_self]
    simp only [sub_self, mul_zero, zero_add, mul_one]
    exact HSV2RGB_blue
  · simp only [meanMapColor, not_lt.mpr hmax.le, if_false, ne_eq, hmax.ne', not_false_eq_true,
      if_true, div_self, min_self]
    simp only [sub_self, mul_zero, zero_add, mul_one, add_zero]
    exact HSV2RGB_red

/-- Witness of C11: the range `mean_min = -2`, `mean_max = 4` of the specification. -/
theorem C11_meanMapColor_endpoints_witness :
    ((-2 : ℚ) < 0) ∧ ((0 : ℚ) < 4) ∧
      meanMapColor (⟨-2, 4⟩ : MeanRange ℚ) 0 = (0, 1, 0) ∧
      meanMapColor (⟨-2, 4⟩ : MeanRange ℚ) (-2) = (0, 0, 1) ∧
      meanMapColor (⟨-2, 4⟩ : MeanRange ℚ) 4 = (1, 0, 0) :=
  ⟨by norm_num, by norm_num,
    C11_meanMapColor_endpoints (⟨-2, 4⟩ : MeanRange ℚ) (by norm_num) (by norm_num)⟩

end Claim11
namespace MyViewer

section Claims1820

variable {K : Type} [LinearOrderedField K]

open Polynomial in
/-- Claim C18. For every Bézier surface with degrees `(n, m)` satisfying the count
invariant, every `(u, v)` and every derivative count `d ≤ min(n, m)`, `evaluate(u, v, d)`
under the Bernstein basis fills a `(d+1) x (d+1)` grid whose entry `[i][j]` is the sum over
`k` in `0..n` and `l` in `0..m` of `P[k(m+1)+l] * U_i[k] * V_j[l]`, with
`U = bernstein(n, u, d)` and `V = bernstein(m, v, d)`, and returns entry `[0][0]`. -/
theorem C18_evaluate_tensor_sum (s : MyViewer K) (u v : K) (d : ℕ)
    (hb : s.trigonometric_basis = false) (hinv : s.countInvariant)
    (hn : d ≤ s.degree.1) (hm : d ≤ s.degree.2) :
    ∃ (U V : List (List K)) (p : Vec K) (der : List (List (Vec K))),
      bernsteinDer s.degree.1 u d = some U ∧ bernsteinDer s.degree.2 v d = some V ∧
      evaluateDer s u v d = some (p, der) ∧
      der.map List.length = List.replicate (d + 1) (d + 1) ∧
      (∀ i j : Fin (d + 1), (der[i.val]?.bind fun row => row[j.val]?) =
        some (∑ k in Finset.range (s.degree.1 + 1), ∑ l in Finset.range (s.degree.2 + 1),
          (V.getD j.val []).getD l 0 • (U.getD i.val []).getD k 0 •
            s.control_points.getD (k * (s.degree.2 + 1) + l) 0)) ∧
      (der[0]?.bind fun row => row[0]?) = some p := by
  have hU : ∀ i k, i < d + 1 → k < s.degree.1 + 1 →
      (((List.range (d + 1)).map (fun i => (List.range (s.degree.1 + 1)).map
        (fun k => eval u (derivative^[i] (bernsteinPolynomial K s.degree.1 k))))).getD i
          []).getD k 0 = eval u (derivative^[i] (bernsteinPolynomial K s.degree.1 k)) := by
    intro i k hi hk
    rw [getD_map_range _ _ _ hi, getD_map_range _ _ _ hk]
  have hV : ∀ j l, j < d + 1 → l < s.degree.2 + 1 →
      (((List.range (d + 1)).map (fun j => (List.range (s.degree.2 + 1)).map
        (fun l => eval v (derivative^[j] (bernsteinPolynomial K s.degree.2 l))))).getD j
          []).getD l 0 = eval v (derivative^[j] (bernsteinPolynomial K s.degree.2 l)) := by
    intro j l hj hl
    rw [getD_map_range _ _ _ hj, getD_map_range _ _ _ hl]
  refine ⟨_, _, _, _, bernsteinDer_eq d _ u hn, bernsteinDer_eq d _ v hm,
    evaluateDer_eq s u v d hb hinv hn hm, ?_, ?_, ?_⟩
  · apply List.ext_getElem?
    intro i
    simp only [List.map_map, getElem?_map_range, List.getElem?_replicate]
    by_cases hi : i < d + 1 <;> simp [hi]
  · intro i j
    rw [getElem?_map_range, if_pos i.isLt]
    simp only [Option.some_bind]
    rw [getElem?_map_range, if_pos j.isLt]
    congr 1
    apply Finset.sum_congr rfl
    intro k hk
    apply Finset.sum_congr rfl
    intro l hl
    rw [hU i.val k i.isLt (Finset.mem_range.mp hk), hV j.val l j.isLt (Finset.mem_range.mp hl)]
  · rw [getElem?_map_range, if_pos (Nat.succ_pos d)]
    simp only [Option.some_bind]
    rw [getElem?_map_range, if_pos (Nat.succ_pos d)]

/-- Witness of C18: the bilinear patch with one derivative. -/
theorem C18_evaluate_tensor_sum_witness :
    patch11.trigonometric_basis = false ∧ patch11.countInvariant ∧
      1 ≤ patch11.degree.1 ∧ 1 ≤ patch11.degree.2 ∧
    ∃ (U V : List (List ℚ)) (p : Vec ℚ) (der : List (List (Vec ℚ))),
      bernsteinDer patch11.degree.1 (1/3 : ℚ) 1 = some U ∧
      bernsteinDer patch11.degree.2 (1/2 : ℚ) 1 = some V ∧
      evaluateDer patch11 (1/3) (1/2) 1 = some (p, der) ∧
      der.map List.length = List.replicate (1 + 1) (1 + 1) ∧
      (∀ i j : Fin (1 + 1), (der[i.val]?.bind fun row => row[j.val]?) =
        some (∑ k in Finset.range (patch11.degree.1 + 1),
          ∑ l in Finset.range (patch11.degree.2 + 1),
          (V.getD j.val []).getD l 0 • (U.getD i.val []).getD k 0 •
            patch11.control_points.getD (k * (patch11.degree.2 + 1) + l) 0)) ∧
      (der[0]?.bind fun row => row[0]?) = some p :=
  ⟨rfl, by decide, by decide, by decide,
    C18_evaluate_tensor_sum patch11 (1/3) (1/2) 1 rfl (by decide) (by decide) (by decide)⟩

/-- With the trigonometric basis selected and both degrees odd, `evaluate` takes the
empty `// TODO` branch, the basis tables stay empty and the first read `coeff_u[0]` is
out of bounds. -/
theorem evaluateDer_trig_odd (s : MyViewer K) (u v : K) (d : ℕ)
    (ht : s.trigonometric_basis = true) (hn : s.degree.1 % 2 = 1) (hm : s.degree.2 % 2 = 1) :
    evaluateDer s u v d = none := by
  simp [evaluateDer, evaluateCoeffs, ht, hn, hm, evaluateTable, forLoop]

/-- Claim C20, the code at the failing input. On the bilinear patch (degrees `(1, 1)`,
both odd) `evaluate` with the Bernstein basis returns a point, while with the
trigonometric basis selected it reads the empty basis tables out of bounds and returns
nothing: the unimplemented branch does not fall through to Bernstein. -/
theorem C20_trigonometric_branch_reads_empty_tables :
    patch11T.trigonometric_basis = true ∧ patch11T.degree = (1, 1) ∧
      patch11T.control_points = patch11.control_points ∧
      evaluateDer patch11 (1/2) (1/2) 0 = some ((1/2, 1/2, 1/2), [[(1/2, 1/2, 1/2)]]) ∧
      evaluateDer patch11T (1/2) (1/2) 0 = none := by
  refine ⟨rfl, rfl, rfl, ?_, evaluateDer_trig_odd patch11T _ _ 0 rfl rfl rfl⟩
  norm_num [evaluateDer, evaluateCoeffs, evaluateTable, evaluateEntry, evaluateTerm, patch11,
    bernsteinDer, bernstein, forLoop, bernsteinOuter, bernsteinInner]

end Claims1820

end MyViewer
/-! ## The coefficient file reader against the file format -/

theorem readTerm_loop : ∀ (cnt lo : ℕ) (poly : Poly) (toks : List IntToken),
    forLoop (fun _ => readTerm) lo cnt (poly, toks) =
      match parseTerms cnt toks with
      | none => none
      | some (ts, rest) => some (poly ++ ts, rest)
  | 0, lo, poly, toks => by simp [forLoop, parseTerms]
  | cnt + 1, lo, poly, toks => by
    simp only [forLoop, readTerm, parseTerms]
    cases h1 : readInt toks with
    | none => rfl
    | some x1 =>
      obtain ⟨a, r1⟩ := x1
      simp only
      cases h2 : readInt r1 with
      | none => rfl
      | some x2 =>
        obtain ⟨b, r2⟩ := x2
        simp only
        cases h3 : readInt r2 with
        | none => rfl
        | some x3 =>
          obtain ⟨c, r3⟩ := x3
          simp only
          cases h4 : readInt r3 with
          | none => rfl
          | some x4 =>
            obtain ⟨k, r4⟩ := x4
            simp only [Option.some_bind]
            rw [readTerm_loop cnt (lo + 1) (poly ++ [(a, b, c, k)]) r4]
            cases parseTerms cnt r4 with
            | none => rfl
            | some y => simp

theorem readPoly_eq (d : ℕ) (row : Row × Row × Row) (toks : List IntToken) :
    readPoly d (row, toks) =
      match parsePoly toks with
      | none => none
      | some (poly, rest) => some (pushPoly row d poly, rest) := by
  simp only [readPoly, parsePoly]
  cases readCount toks with
  | none => rfl
  | some x =>
    obtain ⟨terms, rest⟩ := x
    simp only
    rw [readTerm_loop terms 0 [] rest]
    cases parseTerms terms rest with
    | none => rfl
    | some y => simp

theorem readPoly_three (row : Row × Row × Row) (toks : List IntToken) :
    forLoop readPoly 0 (DERIVATIVES + 1) (row, toks) =
      match parsePoly toks with
      | none => none
      | some (p0, r0) =>
        match parsePoly r0 with
        | none => none
        | some (p1, r1) =>
          match parsePoly r1 with
          | none => none
          | some (p2, r2) =>
            some ((row.1 ++ [p0], row.2.1 ++ [p1], row.2.2 ++ [p2]), r2) := by
  simp only [DERIVATIVES, forLoop, readPoly_eq]
  cases parsePoly toks with
  | none => rfl
  | some x0 =>
    obtain ⟨p0, r0⟩ := x0
    simp only [Option.some_bind, readPoly_eq]
    cases parsePoly r0 with
    | none => rfl
    | some x1 =>
      obtain ⟨p1, r1⟩ := x1
      simp only [Option.some_bind, readPoly_eq]
      cases parsePoly r1 with
      | none => rfl
      | some x2 =>
        obtain ⟨p2, r2⟩ := x2
        simp [pushPoly]

theorem readPolys_loop : ∀ (cnt lo : ℕ) (row : Row × Row × Row) (toks : List IntToken),
    forLoop (fun _ st => forLoop readPoly 0 (DERIVATIVES + 1) st) lo cnt (row, toks) =
      match parsePolys cnt toks with
      | none => none
      | some (ps, rest) =>
        some ((row.1 ++ ps.map (fun p => p.1), row.2.1 ++ ps.map (fun p => p.2.1),
          row.2.2 ++ ps.map (fun p => p.2.2)), rest)
  | 0, lo, row, toks => by simp [forLoop, parsePolys]
  | cnt + 1, lo, row, toks => by
    have step : forLoop (fun _ st => forLoop readPoly 0 (DERIVATIVES + 1) st) lo (cnt + 1)
        (row, toks) = (forLoop readPoly 0 (DERIVATIVES + 1) (row, toks)).bind
          (forLoop (fun _ st => forLoop readPoly 0 (DERIVATIVES + 1) st) (lo + 1) cnt) := rfl
    rw [step, readPoly_three]
    simp only [parsePolys]
    cases parsePoly toks with
    | none => rfl
    | some x0 =>
      obtain ⟨p0, r0⟩ := x0
      simp only
      cases parsePoly r0 with
      | none => rfl
      | some x1 =>
        obtain ⟨p1, r1⟩ := x1
        simp only
        cases parsePoly r1 with
        | none => rfl
        | some x2 =>
          obtain ⟨p2, r2⟩ := x2
          simp only [Option.some_bind]
          rw [readPolys_loop cnt (lo + 1) _ r2]
          cases parsePolys cnt r2 with
          | none => rfl
          | some y => simp

theorem readRow_eq (tri : List Row × List Row × List Row) (toks : List IntToken) :
    readRow (tri, toks) =
      match parseRow toks with
      | none => Except.error tri
      | some (row, rest) =>
        Except.ok ((tri.1 ++ [row.map (fun p => p.1)], tri.2.1 ++ [row.map (fun p => p.2.1)],
          tri.2.2 ++ [row.map (fun p => p.2.2)]), rest) := by
  simp only [readRow, parseRow]
  cases readCount toks with
  | none => rfl
  | some x =>
    obtain ⟨polys, rest⟩ := x
    simp only
    rw [readPolys_loop polys 0 _ rest]
    cases parsePolys polys rest with
    | none => rfl
    | some y => simp

theorem readRows_loop : ∀ (cnt lo : ℕ) (tri : List Row × List Row × List Row)
    (toks : List IntToken),
    forLoopE (fun _ => readRow) lo cnt (tri, toks) =
      match (parseRows cnt toks).2 with
      | none =>
        Except.error (tri.1 ++ (tableRows (parseRows cnt toks).1).1,
          tri.2.1 ++ (tableRows (parseRows cnt toks).1).2.1,
          tri.2.2 ++ (tableRows (parseRows cnt toks).1).2.2)
      | some rest =>
        Except.ok ((tri.1 ++ (tableRows (parseRows cnt toks).1).1,
          tri.2.1 ++ (tableRows (parseRows cnt toks).1).2.1,
          tri.2.2 ++ (tableRows (parseRows cnt toks).1).2.2), rest)
  | 0, lo, tri, toks => by simp [forLoopE, parseRows, tableRows]
  | cnt + 1, lo, tri, toks => by
    simp only [forLoopE, parseRows, readRow_eq]
    cases parseRow toks with
    | none => simp [tableRows]
    | some x =>
      obtain ⟨row, rest⟩ := x
      simp only
      rw [readRows_loop cnt (lo + 1) _ rest]
      cases (parseRows cnt rest).2 with
      | none => simp [tableRows]
      | some y => simp [tableRows]

theorem parseRows_length : ∀ (cnt : ℕ) (toks : List IntToken),
    (parseRows cnt toks).1.length ≤ cnt ∧
      ((parseRows cnt toks).2 ≠ none → (parseRows cnt toks).1.length = cnt) ∧
      ((parseRows cnt toks).2 = none → (parseRows cnt toks).1.length < cnt)
  | 0, toks => by simp [parseRows]
  | cnt + 1, toks => by
    simp only [parseRows]
    cases parseRow toks with
    | none => simp
    | some x =>
      obtain ⟨row, rest⟩ := x
      have ih := parseRows_length cnt rest
      simp only [List.length_cons]
      exact ⟨by omega, fun h => by have := ih.2.1 h; omega,
        fun h => by have := ih.2.2 h; omega⟩

/-- A file that follows the format is loaded into an empty table: `trigoinit` returns,
`table_rows` is the number of rows and the lists hold the rows. -/
theorem trigoinit_of_parse (file : Option (List IntToken))
    (rs : List (List (Poly × Poly × Poly))) (h : parseTrigo file = some rs) :
    trigoinit file TrigoTable.empty =
      (true, { table_rows := rs.length, triangles := tableRows rs }) := by
  match file, h with
  | some [], h => simp [parseTrigo, readCount] at h
  | some (tok :: toks), h =>
    simp only [parseTrigo] at h
    simp only [trigoinit]
    cases hc : readCount (tok :: toks) with
    | none => rw [hc] at h; simp at h
    | some x =>
      obtain ⟨rows, rest⟩ := x
      rw [hc] at h
      simp only at h ⊢
      rw [readRows_loop rows 0 _ rest]
      have hl := parseRows_length rows rest
      cases hp : parseRows rows rest with
      | mk rs' o =>
        rw [hp] at h hl
        cases o with
        | none => simp at h
        | some r =>
          simp only [Option.some.injEq] at h
          subst h
          have := hl.2.1 (by simp)
          simp only at this
          simp [TrigoTable.empty, this]

/-- A file that does not follow the format makes `trigoinit` throw on an empty table;
what the table state is then. -/
theorem trigoinit_of_parse_none (file : Option (List IntToken)) (h : parseTrigo file = none) :
    (trigoinit file TrigoTable.empty).1 = false ∧
      ((∀ toks, file = some toks → readCount toks = none) →
        (trigoinit file TrigoTable.empty).2 = TrigoTable.empty) ∧
      (∀ toks rows rest, file = some toks → readCount toks = some (rows, rest) →
        (trigoinit file TrigoTable.empty).2 =
            { table_rows := rows, triangles := tableRows (parseRows rows rest).1 } ∧
          (parseRows rows rest).1.length < rows) := by
  match file, h with
  | none, _ => exact ⟨rfl, fun _ => rfl, fun _ _ _ hf => by simp at hf⟩
  | some [], _ =>
    refine ⟨rfl, fun _ => rfl, fun toks rows rest hf hc => ?_⟩
    simp only [Option.some.injEq] at hf
    subst hf
    simp [readCount] at hc
  | some (tok :: toks), h =>
    simp only [parseTrigo] at h
    cases hc : readCount (tok :: toks) with
    | none =>
      have e : trigoinit (some (tok :: toks)) TrigoTable.empty = (false, TrigoTable.empty) := by
        simp only [trigoinit, hc]
        rfl
      rw [e]
      refine ⟨rfl, fun _ => rfl, fun toks' rows rest hf hc' => ?_⟩
      simp only [Option.some.injEq] at hf
      subst hf
      rw [hc] at hc'
      simp at hc'
    | some x =>
      obtain ⟨rows, rest⟩ := x
      rw [hc] at h
      simp only at h
      have hl := parseRows_length rows rest
      have hnone : (parseRows rows rest).2 = none := by
        cases hp : parseRows rows rest with
        | mk rs' o =>
          rw [hp] at h
          cases o with
          | none => rfl
          | some r => simp at h
      have e : trigoinit (some (tok :: toks)) TrigoTable.empty =
          (false, { table_rows := rows, triangles := tableRows (parseRows rows rest).1 }) := by
        simp only [trigoinit, hc]
        rw [readRows_loop rows 0 _ rest, hnone]
        simp [TrigoTable.empty]
      rw [e]
      refine ⟨rfl, fun hno => ?_, fun toks' rows' rest' hf hc' => ?_⟩
      · have := hno _ rfl
        rw [hc] at this
        simp at this
      · simp only [Option.some.injEq] at hf
        subst hf
        rw [hc] at hc'
        simp only [Option.some.injEq, Prod.mk.injEq] at hc'
        obtain ⟨rfl, rfl⟩ := hc'
        exact ⟨rfl, hl.2.2 hnone⟩
section TrigoProofs

variable {K : Type} [LinearOrderedField K]

theorem foldl_add_eq_sum {α : Type} (g : α → K) : ∀ (l : List α) (init : K),
    l.foldl (fun r t => r + g t) init = init + (l.map g).sum
  | [], init => by simp
  | x :: l, init => by
    simp only [List.foldl_cons, List.map_cons, List.sum_cons]
    rw [foldl_add_eq_sum g l (init + g x), add_assoc]

/-- The function `evalPoly` is the sum of `coeff * a^expA * b^expB * c^expC` over the
terms of the polynomial. -/
theorem evalPoly_eq_sum (sin cos : K → K) (pi : K) (poly : Poly) (u : K) :
    evalPoly sin cos pi poly u =
      (poly.map (fun term => (term.2.2.2 : K) * (1 - sin (pi * u / 2)) ^ term.1 *
        (sin (pi * u / 2) + cos (pi * u / 2) - 1) ^ term.2.1 *
        (1 - cos (pi * u / 2)) ^ term.2.2.1)).sum := by
  unfold evalPoly
  rw [foldl_add_eq_sum (fun term : Term => (term.2.2.2 : K) * (1 - sin (pi * u / 2)) ^ term.1 *
        (sin (pi * u / 2) + cos (pi * u / 2) - 1) ^ term.2.1 *
        (1 - cos (pi * u / 2)) ^ term.2.2.1), zero_add]

theorem tri_length_of_le (t : TrigoTable) (d : ℕ) (hd : d ≤ 2)
    (h0 : t.table_rows ≤ t.triangles.1.length) (h1 : t.table_rows ≤ t.triangles.2.1.length)
    (h2 : t.table_rows ≤ t.triangles.2.2.length) :
    ∃ rows, t.tri d = some rows ∧ t.table_rows ≤ rows.length := by
  match d, hd with
  | 0, _ => exact ⟨_, rfl, h0⟩
  | 1, _ => exact ⟨_, rfl, h1⟩
  | 2, _ => exact ⟨_, rfl, h2⟩

/-- On a table whose lists hold at least `table_rows` rows, a call inside the checked
range returns normally, with one list per derivative order. -/
theorem trigobasis_returns (sin cos : K → K) (pi : K) (t : TrigoTable) (n : ℕ) (u : K) (d : ℕ)
    (hd : d ≤ 2) (hn2 : 2 ≤ n) (hn : n ≤ t.table_rows + 1)
    (h0 : t.table_rows ≤ t.triangles.1.length) (h1 : t.table_rows ≤ t.triangles.2.1.length)
    (h2 : t.table_rows ≤ t.triangles.2.2.length) :
    trigobasis sin cos pi t n u d =
      Except.ok (some ((List.range (d + 1)).map (fun i =>
        ((((t.tri i).getD []).getD (n - 2) []).map (fun p => evalPoly sin cos pi p u))))) := by
  obtain ⟨s', hs', hInv⟩ := forLoop_inv
    (fun d (coeffs : List (List K)) =>
      match t.tri d with
      | none => none
      | some rows =>
        match rows[n - 2]? with
        | none => none
        | some row => some (coeffs ++ [row.map (fun p => evalPoly sin cos pi p u)]))
    (fun i coeffs => coeffs = (List.range i).map (fun i =>
        ((((t.tri i).getD []).getD (n - 2) []).map (fun p => evalPoly sin cos pi p u))))
    (d + 1) 0 [] (by simp)
    (by
      intro i c _ hi hc
      obtain ⟨rows, hrows, hlen⟩ := tri_length_of_le t i (by omega) h0 h1 h2
      refine ⟨c ++ [(((t.tri i).getD []).getD (n - 2) []).map
        (fun p => evalPoly sin cos pi p u)], ?_, ?_⟩
      · simp only [hrows, Option.getD_some]
        rw [getElem?_eq_some_getD rows (n - 2) (by omega) []]
      · show _ = _
        rw [hc]
        exact map_range_succ_append (fun i =>
          ((((t.tri i).getD []).getD (n - 2) []).map (fun p => evalPoly sin cos pi p u))) i)
  unfold trigobasis
  rw [if_neg (by simp only [DERIVATIVES]; omega), if_neg (by omega), hs', hInv, Nat.zero_add]

theorem trigobasis_throws_iff (sin cos : K → K) (pi : K) (t : TrigoTable) (n : ℕ) (u : K)
    (d : ℕ) :
    (∃ msg, trigobasis sin cos pi t n u d = Except.error msg) ↔
      (d > 2 ∨ n < 2 ∨ n > t.table_rows + 1) := by
  unfold trigobasis
  simp only [DERIVATIVES]
  by_cases h1 : d > 2
  · simp [h1]
  · by_cases h2 : n < 2 ∨ n > t.table_rows + 1
    · simp only [h1, if_false, h2, if_true, false_or]
      exact ⟨fun _ => trivial, fun _ => ⟨_, rfl⟩⟩
    · simp only [h1, if_false, h2, false_or, iff_false, not_exists]
      intro msg h
      cases h

end TrigoProofs

section Claims131415

variable {K : Type} [LinearOrderedField K]

/-- Counterexample to C13 as stated: after `trigoinit` has thrown on the file that
announces one row and ends, `table_rows` is `1` and the row lists are empty; the call
`trigobasis(2, 0, 0)` is inside the checked range, does not throw, and does not return
normally either: it reads row `0` of an empty list. -/
theorem C13_unchecked_row_read_counterexample :
    trigoinit (some trigoFileShort) TrigoTable.empty =
        (false, { table_rows := 1, triangles := ([], [], []) }) ∧
      ¬ (0 > 2 ∨ 2 < 2 ∨ 2 > ({ table_rows := 1, triangles := ([], [], []) } : TrigoTable).table_rows + 1) ∧
      trigobasis Real.sin Real.cos Real.pi
        { table_rows := 1, triangles := ([], [], []) } 2 (0 : ℝ) 0 = Except.ok none := by
  refine ⟨?_, by decide, ?_⟩
  · simp [trigoinit, trigoFileShort, TrigoTable.empty, readCount, readRow, forLoopE]
  · simp [trigobasis, DERIVATIVES, forLoop, TrigoTable.tri]

/-- Claim C13, amended. For every table state, `n`, `u` and `d`, `trigobasis(n, u, d)`
throws if and only if `d > 2` or `n < 2` or `n > table_rows + 1`; otherwise, when each of
the three row lists holds at least `table_rows` rows (as after a successful `trigoinit`),
it returns normally. -/
theorem C13_trigobasis_throws_iff (sin cos : K → K) (pi : K) (t : TrigoTable) (n : ℕ) (u : K)
    (d : ℕ) :
    ((∃ msg, trigobasis sin cos pi t n u d = Except.error msg) ↔
      (d > 2 ∨ n < 2 ∨ n > t.table_rows + 1)) ∧
    (t.table_rows ≤ t.triangles.1.length → t.table_rows ≤ t.triangles.2.1.length →
      t.table_rows ≤ t.triangles.2.2.length → ¬ (d > 2 ∨ n < 2 ∨ n > t.table_rows + 1) →
      ∃ coeffs, trigobasis sin cos pi t n u d = Except.ok (some coeffs)) := by
  refine ⟨trigobasis_throws_iff sin cos pi t n u d, ?_⟩
  intro h0 h1 h2 hc
  exact ⟨_, trigobasis_returns sin cos pi t n u d (by omega) (by omega) (by omega) h0 h1 h2⟩

/-- Witness of C13 (amended): the table loaded from a one-row file, `n = 2`, `d = 1`. -/
theorem C13_trigobasis_throws_iff_witness :
    ∃ coeffs, trigobasis Real.sin Real.cos Real.pi
      { table_rows := 1, triangles := tableRows [[([(2, 0, 0, 1)], [], [])]] } 2 (0 : ℝ) 1 =
        Except.ok (some coeffs) :=
  (C13_trigobasis_throws_iff Real.sin Real.cos Real.pi
    { table_rows := 1, triangles := tableRows [[([(2, 0, 0, 1)], [], [])]] } 2 (0 : ℝ) 1).2
    (by decide) (by decide) (by decide) (by decide)

theorem parseTrigo_short : parseTrigo (some trigoFileShort) = none := rfl

theorem parseTrigo_oneOfTwo : parseTrigo (some trigoFileOneOfTwo) = none := rfl

/-- Counterexample to C14 as stated: on an empty table, `trigoinit` throws on the file
that announces one row and ends, and on the file that announces two rows and ends after
the first; afterwards `table_rows` is `1`, respectively `2`, and in the second case
every row list holds one row: the table is not as it was. -/
theorem C14_failed_init_changes_table_counterexample :
    parseTrigo (some trigoFileShort) = none ∧
      (trigoinit (some trigoFileShort) TrigoTable.empty).1 = false ∧
      (trigoinit (some trigoFileShort) TrigoTable.empty).2.table_rows = 1 ∧
      (trigoinit (some trigoFileShort) TrigoTable.empty).2.table_rows ≠
        TrigoTable.empty.table_rows ∧
      parseTrigo (some trigoFileOneOfTwo) = none ∧
      (trigoinit (some trigoFileOneOfTwo) TrigoTable.empty).1 = false ∧
      (trigoinit (some trigoFileOneOfTwo) TrigoTable.empty).2.table_rows = 2 ∧
      (trigoinit (some trigoFileOneOfTwo) TrigoTable.empty).2.triangles.1 =
        [[[(2, 0, 0, 1)], [(0, 0, 0, 1)]]] ∧
      (trigoinit (some trigoFileOneOfTwo) TrigoTable.empty).2.triangles ≠
        TrigoTable.empty.triangles := by
  have h1 : trigoinit (some trigoFileShort) TrigoTable.empty =
      (false, { table_rows := 1, triangles := ([], [], []) }) := by
    simp [trigoinit, trigoFileShort, TrigoTable.empty, readCount, readRow, forLoopE]
  have h2 : trigoinit (some trigoFileOneOfTwo) TrigoTable.empty =
      (false, { table_rows := 2, triangles :=
        ([[[(2, 0, 0, 1)], [(0, 0, 0, 1)]]],
         [[[(1, 1, 0, -2), (1, 0, 1, -2)], []]],
         [[[(1, 0, 0, 1)], []]]) }) := by
    simp [trigoinit, trigoFileOneOfTwo, trigoFile, TrigoTable.empty, readCount, readRow, forLoopE,
      forLoop, readPoly, readTerm, readInt, pushPoly, DERIVATIVES]
  rw [h1, h2]
  exact ⟨rfl, rfl, rfl, by decide, rfl, rfl, rfl, rfl, by simp [TrigoTable.empty]⟩

/-- Claim C14, amended. For every coefficient file that cannot be opened or whose
fields do not follow the format, `trigoinit` called on a not-yet-initialised table
throws.  The table state is left as it was, empty, only when the row count itself
cannot be read; once the row count `R` has been read, `table_rows` is `R` and the three
lists hold the rows that were read completely before the failure, fewer than `R`. -/
theorem C14_failed_init (file : Option (List IntToken)) (h : parseTrigo file = none) :
    (trigoinit file TrigoTable.empty).1 = false ∧
      ((∀ toks, file = some toks → readCount toks = none) →
        (trigoinit file TrigoTable.empty).2 = TrigoTable.empty) ∧
      (∀ toks rows rest, file = some toks → readCount toks = some (rows, rest) →
        (trigoinit file TrigoTable.empty).2 =
            { table_rows := rows, triangles := tableRows (parseRows rows rest).1 } ∧
          (parseRows rows rest).1.length < rows) :=
  trigoinit_of_parse_none file h

/-- Witness of C14 (amended) on the file that announces two rows and ends after the
first. -/
theorem C14_failed_init_witness :
    parseTrigo (some trigoFileOneOfTwo) = none ∧
      (trigoinit (some trigoFileOneOfTwo) TrigoTable.empty).1 = false :=
  ⟨parseTrigo_oneOfTwo, (C14_failed_init (some trigoFileOneOfTwo) parseTrigo_oneOfTwo).1⟩

end Claims131415
section Claim15

variable {K : Type} [LinearOrderedField K]

theorem getD_map_nil {α β : Type} (f : List α → List β) (hf : f [] = []) (l : List (List α))
    (k : ℕ) : (l.map f).getD k [] = f (l.getD k []) := by
  rw [List.getD_eq_getElem?_getD, List.getD_eq_getElem?_getD, List.getElem?_map]
  cases l[k]? with
  | none => simp [hf]
  | some x => simp

theorem tableRows_tri (rs : List (List (Poly × Poly × Poly))) (R i k : ℕ) (hi : i < 3) :
    ((({ table_rows := R, triangles := tableRows rs } : TrigoTable).tri i).getD []).getD k [] =
      (rs.getD k []).map (polyAt i) := by
  match i, hi with
  | 0, _ =>
    exact getD_map_nil (fun row : List (Poly × Poly × Poly) => row.map (fun p => p.1)) rfl rs k
  | 1, _ =>
    exact getD_map_nil (fun row : List (Poly × Poly × Poly) => row.map (fun p => p.2.1)) rfl rs k
  | 2, _ =>
    exact getD_map_nil (fun row : List (Poly × Poly × Poly) => row.map (fun p => p.2.2)) rfl rs k

/-- Claim C15. After a successful `trigoinit` on an empty table from a well-formed file
with `R` rows, for every `n` in `[2, R+1]`, every `d ≤ 2` and every `u`,
`trigobasis(n, u, d)` reads the table within bounds and returns `d + 1` lists; list `i`
has one entry per polynomial of file row `n - 2`, and entry `p` is the sum over the terms
`(expA, expB, expC, coeff)` stored for polynomial `p` at derivative order `i` of
`coeff * a^expA * b^expB * c^expC`, with `S = sin(pi u / 2)`, `C = cos(pi u / 2)`,
`a = 1 - S`, `b = S + C - 1`, `c = 1 - C`. -/
theorem C15_trigobasis_values (sin cos : K → K) (pi : K) (file : Option (List IntToken))
    (rs : List (List (Poly × Poly × Poly))) (n d : ℕ) (u : K)
    (hfile : parseTrigo file = some rs) (hn2 : 2 ≤ n) (hn : n ≤ rs.length + 1) (hd : d ≤ 2) :
    ∃ t, trigoinit file TrigoTable.empty = (true, t) ∧ t.table_rows = rs.length ∧
      trigobasis sin cos pi t n u d =
        Except.ok (some ((List.range (d + 1)).map (fun i =>
          (rs.getD (n - 2) []).map (fun p =>
            ((polyAt i p).map (fun term =>
              (term.2.2.2 : K) * (1 - sin (pi * u / 2)) ^ term.1 *
                (sin (pi * u / 2) + cos (pi * u / 2) - 1) ^ term.2.1 *
                (1 - cos (pi * u / 2)) ^ term.2.2.1)).sum)))) := by
  refine ⟨_, trigoinit_of_parse file rs hfile, rfl, ?_⟩
  rw [trigobasis_returns sin cos pi _ n u d hd hn2 hn (by simp [tableRows])
    (by simp [tableRows]) (by simp [tableRows])]
  congr 2
  apply List.map_congr_left
  intro i hi
  have hi' : i < 3 := by
    have := List.mem_range.mp hi
    omega
  rw [tableRows_tri rs rs.length i (n - 2) hi', List.map_map]
  apply List.map_congr_left
  intro p _
  exact evalPoly_eq_sum sin cos pi (polyAt i p) u

theorem parseTrigo_trigoFile :
    parseTrigo (some trigoFile) =
      some [[([(2, 0, 0, 1)], [(1, 1, 0, -2), (1, 0, 1, -2)], [(1, 0, 0, 1)]),
             ([(0, 0, 0, 1)], [], [])]] := rfl

/-- Witness of C15: the one-row sample file, `n = 2`, two derivatives, the real sine
and cosine. -/
theorem C15_trigobasis_values_witness :
    ∃ t, trigoinit (some trigoFile) TrigoTable.empty = (true, t) ∧ t.table_rows = 1 ∧
      trigobasis Real.sin Real.cos Real.pi t 2 (1 / 3 : ℝ) 2 =
        Except.ok (some ((List.range (2 + 1)).map (fun i =>
          (([[([(2, 0, 0, 1)], [(1, 1, 0, -2), (1, 0, 1, -2)], [(1, 0, 0, 1)]),
             ([(0, 0, 0, 1)], [], [])]] : List (List (Poly × Poly × Poly))).getD (2 - 2)
               []).map (fun p =>
            ((polyAt i p).map (fun term =>
              (term.2.2.2 : ℝ) * (1 - Real.sin (Real.pi * (1 / 3) / 2)) ^ term.1 *
                (Real.sin (Real.pi * (1 / 3) / 2) + Real.cos (Real.pi * (1 / 3) / 2) - 1) ^
                  term.2.1 *
                (1 - Real.cos (Real.pi * (1 / 3) / 2)) ^ term.2.2.1)).sum)))) :=
  C15_trigobasis_values Real.sin Real.cos Real.pi (some trigoFile) _ 2 2 (1 / 3)
    parseTrigo_trigoFile (by decide) (by decide) (by decide)

end Claim15
section MeshProofs

variable {K : Type}

theorem derAt_table (E : ℕ → ℕ → Vec K) (d i j : ℕ) (hi : i < d + 1) (hj : j < d + 1) :
    derAt ((List.range (d + 1)).map (fun i => (List.range (d + 1)).map (fun j => E i j))) i j =
      some (E i j) := by
  unfold derAt
  rw [getElem?_map_range, if_pos hi]
  simp only
  rw [getElem?_map_range, if_pos hj]

theorem forEachVertex_some (f : VertexData K → Option (VertexData K)) :
    ∀ (vs : List (VertexData K)), (∀ v ∈ vs, ∃ v', f v = some v') →
      ∃ vs', forEachVertex f vs = some vs' ∧ vs'.length = vs.length ∧
        ∀ (i : ℕ) (v : VertexData K), vs[i]? = some v →
          ∃ v', vs'[i]? = some v' ∧ f v = some v'
  | [], _ => ⟨[], rfl, rfl, fun i v h => by simp at h⟩
  | v :: vs, h => by
    obtain ⟨v', hv'⟩ := h v (List.mem_cons_self _ _)
    obtain ⟨vs', hvs', hlen, hall⟩ := forEachVertex_some f vs
      (fun w hw => h w (List.mem_cons_of_mem _ hw))
    refine ⟨v' :: vs', by simp [forEachVertex, hv', hvs'], by simp [hlen], ?_⟩
    intro i w hw
    cases i with
    | zero =>
      simp only [List.getElem?_cons_zero, Option.some.injEq] at hw
      subst hw
      exact ⟨v', by simp, hv'⟩
    | succ i =>
      simp only [List.getElem?_cons_succ] at hw
      obtain ⟨w', hw', hf⟩ := hall i w hw
      exact ⟨w', by simpa using hw', hf⟩

variable [LinearOrderedField K]

theorem cross_swap (a b : Vec K) : cross a b = -cross b a := by
  simp only [cross, Prod.neg_mk, neg_sub]
  refine Prod.ext ?_ (Prod.ext ?_ ?_) <;> simp only <;> ring

theorem squaredNorm_neg (a : Vec K) : squaredNorm (-a) = squaredNorm a := by
  simp only [squaredNorm, Prod.fst_neg, Prod.snd_neg, neg_mul_neg]

theorem divVec_neg (a : Vec K) (k : K) : divVec (-a) k = -divVec a k := by
  simp only [divVec, Prod.fst_neg, Prod.snd_neg, neg_div, Prod.neg_mk]

theorem squaredNorm_pos {a : Vec K} (h : a ≠ 0) : 0 < squaredNorm a := by
  obtain ⟨x, y, z⟩ := a
  simp only [squaredNorm]
  have hne : x ≠ 0 ∨ y ≠ 0 ∨ z ≠ 0 := by
    by_contra hc
    push_neg at hc
    obtain ⟨rfl, rfl, rfl⟩ := hc
    exact h rfl
  rcases hne with hx | hy | hz
  · have := mul_self_pos.mpr hx
    nlinarith [mul_self_nonneg y, mul_self_nonneg z]
  · have := mul_self_pos.mpr hy
    nlinarith [mul_self_nonneg x, mul_self_nonneg z]
  · have := mul_self_pos.mpr hz
    nlinarith [mul_self_nonneg x, mul_self_nonneg y]

namespace MyViewer

/-- What the normal loop body computes at one parameter pair, in terms of the table
`evaluate(u, v, 1)` returns. -/
theorem bezierNormal_eq (sqrt : K → K) (s : MyViewer K) (u v : K)
    (hb : s.trigonometric_basis = false) (hinv : s.countInvariant)
    (hn : 1 ≤ s.degree.1) (hm : 1 ≤ s.degree.2) :
    ∃ p der Su Sv, evaluateDer s u v 1 = some (p, der) ∧ derAt der 1 0 = some Su ∧
      derAt der 0 1 = some Sv ∧
      bezierNormal sqrt s u v =
        some (if sqrt (squaredNorm (cross Sv Su)) ≠ 0 then
          divVec (cross Sv Su) (sqrt (squaredNorm (cross Sv Su))) else cross Sv Su) := by
  have he := evaluateDer_eq s u v 1 hb hinv hn hm
  refine ⟨_, _, _, _, he, derAt_table _ 1 1 0 (by omega) (by omega),
    derAt_table _ 1 0 1 (by omega) (by omega), ?_⟩
  unfold bezierNormal
  rw [he]
  simp only
  rw [derAt_table _ 1 0 1 (by omega) (by omega), derAt_table _ 1 1 0 (by omega) (by omega)]

end MyViewer

end MeshProofs
namespace MyViewer

section Claim16

variable {K : Type} [LinearOrderedField K]

theorem evaluateDer_planePatch :
    evaluateDer (planePatch ℝ) (1/2) (1/2) 1 =
      some ((1/2, 1/2, 0), [[(1/2, 1/2, 0), (0, 1, 0)], [(1, 0, 0), (0, 0, 0)]]) := by
  norm_num [planePatch, evaluateDer, evaluateCoeffs, evaluateTable, evaluateEntry,
    evaluateTerm, bernsteinDer, bernsteinDerRow, bernstein, forLoop, bernsteinOuter,
    bernsteinInner]

/-- Counterexample to C16 as stated: on the plane patch `S(u, v) = (u, v, 0)`, at the
vertex with parameters `(1/2, 1/2)`, the first partial derivatives are `(1, 0, 0)` and
`(0, 1, 0)`, their cross product in the order `u`, `v` is `(0, 0, 1)`, a unit vector, but
the normal that `updateVertexNormals` stores is `(0, 0, -1)`. -/
theorem C16_normal_order_counterexample :
    ∃ p der, evaluateDer (planePatch ℝ) (1/2) (1/2) 1 = some (p, der) ∧
      derAt der 1 0 = some (1, 0, 0) ∧ derAt der 0 1 = some (0, 1, 0) ∧
      cross ((1, 0, 0) : Vec ℝ) (0, 1, 0) ≠ 0 ∧
      unit Real.sqrt (cross ((1, 0, 0) : Vec ℝ) (0, 1, 0)) = (0, 0, 1) ∧
      updateVertexNormalsBezier Real.sqrt (planePatch ℝ) (oneVertexMesh ℝ) =
        some { vertices := [{ point := (1/2, 1/2, 0), u := 1/2, v := 1/2,
                              normal := (0, 0, -1), mean := 0 }],
               faces := [] } ∧
      ((0, 0, -1) : Vec ℝ) ≠ (0, 0, 1) := by
  refine ⟨_, _, evaluateDer_planePatch, rfl, rfl, ?_, ?_, ?_, ?_⟩
  · simp [cross]
  · simp [unit, cross, squaredNorm, divVec]
  · simp only [updateVertexNormalsBezier, oneVertexMesh, forEachVertex, bezierNormal,
      evaluateDer_planePatch, derAt]
    norm_num [cross, squaredNorm, divVec]
  · norm_num

/-- Claim C16, amended. In Bézier mode (Bernstein basis, count invariant, both degrees
at least `1`), `updateVertexNormals` gives every mesh vertex a normal computed from the
first partial derivatives `Su = der[1][0]` and `Sv = der[0][1]` that `evaluate` returns at
its stored `(u, v)`: when the cross product is nonzero the normal is `unit(Sv x Su)`, the
`v`-derivative crossed with the `u`-derivative, which is the opposite of `unit(Su x Sv)`. -/
theorem C16_bezier_normal (sqrt : K → K) (s : MyViewer K) (mesh : Mesh K)
    (hsqrt : ∀ x : K, 0 < x → sqrt x ≠ 0)
    (hb : s.trigonometric_basis = false) (hinv : s.countInvariant)
    (hn : 1 ≤ s.degree.1) (hm : 1 ≤ s.degree.2) :
    ∃ mesh', updateVertexNormalsBezier sqrt s mesh = some mesh' ∧
      mesh'.vertices.length = mesh.vertices.length ∧ mesh'.faces = mesh.faces ∧
      ∀ (i : ℕ) (vd : VertexData K), mesh.vertices[i]? = some vd →
        ∃ vd' p der Su Sv, mesh'.vertices[i]? = some vd' ∧
          evaluateDer s vd.u vd.v 1 = some (p, der) ∧
          derAt der 1 0 = some Su ∧ derAt der 0 1 = some Sv ∧
          (cross Su Sv ≠ 0 →
            vd'.normal = unit sqrt (cross Sv Su) ∧ vd'.normal = -unit sqrt (cross Su Sv)) := by
  obtain ⟨vs', hvs', hlen, hall⟩ := forEachVertex_some
    (fun vd : VertexData K =>
      match bezierNormal sqrt s vd.u vd.v with
      | none => none
      | some n => some { vd with normal := n }) mesh.vertices
    (by
      intro vd _
      obtain ⟨p, der, Su, Sv, _, _, _, hN⟩ := bezierNormal_eq sqrt s vd.u vd.v hb hinv hn hm
      show ∃ v', (match bezierNormal sqrt s vd.u vd.v with
        | none => none
        | some n => some { vd with normal := n }) = some v'
      rw [hN]
      exact ⟨_, rfl⟩)
  refine ⟨{ mesh with vertices := vs' }, by simp only [updateVertexNormalsBezier, hvs'],
    hlen, rfl, ?_⟩
  intro i vd hvd
  obtain ⟨vd', hvd', hf⟩ := hall i vd hvd
  obtain ⟨p, der, Su, Sv, he, hSu, hSv, hN⟩ := bezierNormal_eq sqrt s vd.u vd.v hb hinv hn hm
  refine ⟨vd', p, der, Su, Sv, hvd', he, hSu, hSv, ?_⟩
  intro hne
  simp only [hN, Option.some.injEq] at hf
  have hne' : cross Sv Su ≠ 0 := by
    rw [cross_swap]
    exact neg_ne_zero.mpr hne
  have hlen0 : sqrt (squaredNorm (cross Sv Su)) ≠ 0 := hsqrt _ (squaredNorm_pos hne')
  have h1 : vd'.normal = unit sqrt (cross Sv Su) := by
    rw [← hf]
    simp only [hlen0, ne_eq, not_false_eq_true, if_true, unit]
  refine ⟨h1, ?_⟩
  rw [h1, unit, unit, cross_swap Sv Su, squaredNorm_neg, divVec_neg]

/-- Witness of C16 (amended): the plane patch over the reals with the real square
root. -/
theorem C16_bezier_normal_witness :
    (∀ x : ℝ, 0 < x → Real.sqrt x ≠ 0) ∧ (planePatch ℝ).trigonometric_basis = false ∧
      (planePatch ℝ).countInvariant ∧
      ∃ mesh', updateVertexNormalsBezier Real.sqrt (planePatch ℝ) (oneVertexMesh ℝ) =
          some mesh' ∧
        mesh'.vertices.length = (oneVertexMesh ℝ).vertices.length :=
  ⟨fun x hx => (Real.sqrt_pos.mpr hx).ne', rfl, by simp [countInvariant, planePatch],
    (C16_bezier_normal Real.sqrt (planePatch ℝ) (oneVertexMesh ℝ)
      (fun x hx => (Real.sqrt_pos.mpr hx).ne') rfl (by simp [countInvariant, planePatch])
      (by simp [planePatch]) (by simp [planePatch])).imp
      (fun _ h => ⟨h.1, h.2.1⟩)⟩

end Claim16

end MyViewer
namespace MyViewer

section Claim17

variable {K : Type} [LinearOrderedField K]

/-- What the curvature loop body computes at one parameter pair, in terms of the table
`evaluate(u, v, 2)` returns. -/
theorem bezierMean_eq (sqrt : K → K) (s : MyViewer K) (u v : K)
    (hb : s.trigonometric_basis = false) (hinv : s.countInvariant)
    (hn : 2 ≤ s.degree.1) (hm : 2 ≤ s.degree.2) :
    ∃ p der Su Sv Suu Suv Svv, evaluateDer s u v 2 = some (p, der) ∧
      derAt der 1 0 = some Su ∧ derAt der 0 1 = some Sv ∧ derAt der 2 0 = some Suu ∧
      derAt der 1 1 = some Suv ∧ derAt der 0 2 = some Svv ∧
      bezierMean sqrt s u v =
        some ((dot (unit sqrt (cross Su Sv)) Svv * dot Su Su -
            2 * dot (unit sqrt (cross Su Sv)) Suv * dot Su Sv +
            dot (unit sqrt (cross Su Sv)) Suu * dot Sv Sv) /
          (2 * (dot Su Su * dot Sv Sv - dot Su Sv * dot Su Sv))) := by
  have he := evaluateDer_eq s u v 2 hb hinv hn hm
  refine ⟨_, _, _, _, _, _, _, he, derAt_table _ 2 1 0 (by omega) (by omega),
    derAt_table _ 2 0 1 (by omega) (by omega), derAt_table _ 2 2 0 (by omega) (by omega),
    derAt_table _ 2 1 1 (by omega) (by omega), derAt_table _ 2 0 2 (by omega) (by omega), ?_⟩
  unfold bezierMean
  rw [he]
  simp only
  rw [derAt_table _ 2 1 0 (by omega) (by omega), derAt_table _ 2 0 1 (by omega) (by omega),
    derAt_table _ 2 2 0 (by omega) (by omega), derAt_table _ 2 1 1 (by omega) (by omega),
    derAt_table _ 2 0 2 (by omega) (by omega)]
  rfl

/-- Claim C17. In Bézier mode (Bernstein basis, count invariant, both degrees at least
`2`, so that `evaluate(u, v, 2)` returns), `updateMeanCurvature` stores for every mesh
vertex with stored parameters `(u, v)` the value
`mean = (N*E - 2*M*F + L*G) / (2*(E*G - F*F))` with `E = Su.Su`, `F = Su.Sv`, `G = Sv.Sv`,
`L = n.Suu`, `M = n.Suv`, `N = n.Svv`, `n = unit(Su x Sv)`, where `Su`, `Sv`, `Suu`, `Suv`,
`Svv` are the partial derivatives that `evaluate(u, v, 2)` returns. -/
theorem C17_bezier_mean_curvature (sqrt : K → K) (s : MyViewer K) (mesh : Mesh K)
    (hb : s.trigonometric_basis = false) (hinv : s.countInvariant)
    (hn : 2 ≤ s.degree.1) (hm : 2 ≤ s.degree.2) :
    ∃ mesh', updateMeanCurvatureBezier sqrt s mesh = some mesh' ∧
      mesh'.vertices.length = mesh.vertices.length ∧
      ∀ (i : ℕ) (vd : VertexData K), mesh.vertices[i]? = some vd →
        ∃ vd' p der Su Sv Suu Suv Svv, mesh'.vertices[i]? = some vd' ∧
          evaluateDer s vd.u vd.v 2 = some (p, der) ∧
          derAt der 1 0 = some Su ∧ derAt der 0 1 = some Sv ∧ derAt der 2 0 = some Suu ∧
          derAt der 1 1 = some Suv ∧ derAt der 0 2 = some Svv ∧
          vd'.mean =
            (dot (unit sqrt (cross Su Sv)) Svv * dot Su Su -
                2 * dot (unit sqrt (cross Su Sv)) Suv * dot Su Sv +
                dot (unit sqrt (cross Su Sv)) Suu * dot Sv Sv) /
              (2 * (dot Su Su * dot Sv Sv - dot Su Sv * dot Su Sv)) := by
  obtain ⟨vs', hvs', hlen, hall⟩ := forEachVertex_some
    (fun vd : VertexData K =>
      match bezierMean sqrt s vd.u vd.v with
      | none => none
      | some h => some { vd with mean := h }) mesh.vertices
    (by
      intro vd _
      obtain ⟨p, der, Su, Sv, Suu, Suv, Svv, _, _, _, _, _, _, hM⟩ :=
        bezierMean_eq sqrt s vd.u vd.v hb hinv hn hm
      show ∃ v', (match bezierMean sqrt s vd.u vd.v with
        | none => none
        | some h => some { vd with mean := h }) = some v'
      rw [hM]
      exact ⟨_, rfl⟩)
  refine ⟨{ mesh with vertices := vs' }, by simp only [updateMeanCurvatureBezier, hvs'],
    hlen, ?_⟩
  intro i vd hvd
  obtain ⟨vd', hvd', hf⟩ := hall i vd hvd
  obtain ⟨p, der, Su, Sv, Suu, Suv, Svv, he, h10, h01, h20, h11, h02, hM⟩ :=
    bezierMean_eq sqrt s vd.u vd.v hb hinv hn hm
  refine ⟨vd', p, der, Su, Sv, Suu, Suv, Svv, hvd', he, h10, h01, h20, h11, h02, ?_⟩
  simp only [hM, Option.some.injEq] at hf
  rw [← hf]

/-- Witness of C17: the degree `(2, 2)` surface `(u, v, u^2)` over the reals. -/
theorem C17_bezier_mean_curvature_witness :
    (parabolaPatch ℝ).trigonometric_basis = false ∧ (parabolaPatch ℝ).countInvariant ∧
      2 ≤ (parabolaPatch ℝ).degree.1 ∧ 2 ≤ (parabolaPatch ℝ).degree.2 ∧
      ∃ mesh', updateMeanCurvatureBezier Real.sqrt (parabolaPatch ℝ) (oneVertexMesh ℝ) =
          some mesh' ∧
        mesh'.vertices.length = (oneVertexMesh ℝ).vertices.length :=
  ⟨rfl, by simp [countInvariant, parabolaPatch], by simp [parabolaPatch],
    by simp [parabolaPatch],
    (C17_bezier_mean_curvature Real.sqrt (parabolaPatch ℝ) (oneVertexMesh ℝ) rfl
      (by simp [countInvariant, parabolaPatch]) (by simp [parabolaPatch])
      (by simp [parabolaPatch])).imp (fun _ h => ⟨h.1, h.2.1⟩)⟩

end Claim17

end MyViewer
namespace MyViewer

section TessProofs

variable {K : Type} [LinearOrderedField K]

theorem range_succ_append (n : ℕ) : List.range n ++ [n] = List.range (n + 1) := by
  rw [List.range_succ]

theorem evaluate_surfacePoint (s : MyViewer K) (u v : K)
    (hb : s.trigonometric_basis = false) (hinv : s.countInvariant) :
    evaluate s u v = some (surfacePoint s u v) :=
  evaluate_eq s u v hb hinv

theorem addGridVertex_row (s : MyViewer K) (q i : ℕ)
    (hb : s.trigonometric_basis = false) (hinv : s.countInvariant) :
    forLoop (addGridVertex s (q + 2) i) 0 (q + 2)
        ((List.range (i * (q + 2))).map (gridVertex s (q + 2)), List.range (i * (q + 2))) =
      some ((List.range ((i + 1) * (q + 2))).map (gridVertex s (q + 2)),
        List.range ((i + 1) * (q + 2))) := by
  obtain ⟨s', hs', hInv⟩ := forLoop_inv (addGridVertex s (q + 2) i)
    (fun j st => st = ((List.range (i * (q + 2) + j)).map (gridVertex s (q + 2)),
      List.range (i * (q + 2) + j)))
    (q + 2) 0 ((List.range (i * (q + 2))).map (gridVertex s (q + 2)), List.range (i * (q + 2)))
    rfl
    (by
      intro j t _ hj ht
      have hj' : j < q + 2 := by omega
      have hdiv : (i * (q + 2) + j) / (q + 2) = i := grid_div i j (q + 1) hj'
      have hmod : (i * (q + 2) + j) % (q + 2) = j := grid_mod i j (q + 1) hj'
      subst ht
      refine ⟨((List.range (i * (q + 2) + j + 1)).map (gridVertex s (q + 2)),
        List.range (i * (q + 2) + j + 1)), ?_, rfl⟩
      simp only [addGridVertex, evaluate_surfacePoint s _ _ hb hinv, List.length_map,
        List.length_range, range_succ_append]
      rw [← map_range_succ_append]
      simp only [gridVertex, hdiv, hmod])
  rw [hs', hInv]
  have : i * (q + 2) + (0 + (q + 2)) = (i + 1) * (q + 2) := by ring
  rw [this]

theorem generateMesh_vertices (s : MyViewer K) (q : ℕ)
    (hb : s.trigonometric_basis = false) (hinv : s.countInvariant) :
    forLoop (fun i st => forLoop (addGridVertex s (q + 2) i) 0 (q + 2) st) 0 (q + 2) ([], []) =
      some ((List.range ((q + 2) * (q + 2))).map (gridVertex s (q + 2)),
        List.range ((q + 2) * (q + 2))) := by
  obtain ⟨s', hs', hInv⟩ := forLoop_inv
    (fun i st => forLoop (addGridVertex s (q + 2) i) 0 (q + 2) st)
    (fun i st => st = ((List.range (i * (q + 2))).map (gridVertex s (q + 2)),
      List.range (i * (q + 2))))
    (q + 2) 0 ([], []) (by simp)
    (by
      intro i t _ _ ht
      subst ht
      exact ⟨_, addGridVertex_row s q i hb hinv, rfl⟩)
  rw [hs', hInv, Nat.zero_add]

end TessProofs

end MyViewer
namespace MyViewer

section TessProofs2

variable {K : Type} [LinearOrderedField K]

theorem flatMap_range_succ {α : Type} (g : ℕ → List α) (n : ℕ) :
    (List.range n).flatMap g ++ g n = (List.range (n + 1)).flatMap g := by
  simp [List.range_succ, List.flatMap_append]

theorem gridCell_at (q i j : ℕ) (hj : j < q + 1) :
    gridCell (q + 2) (i * (q + 1) + j) =
      [(i * (q + 2) + j, i * (q + 2) + j + 1, (i + 1) * (q + 2) + j),
       ((i + 1) * (q + 2) + j, i * (q + 2) + j + 1, (i + 1) * (q + 2) + j + 1)] := by
  have e : q + 2 - 1 = q + 1 := rfl
  simp only [gridCell, e, grid_div i j q hj, grid_mod i j q hj]

theorem grid_corner_lt (q i j : ℕ) (hi : i < q + 1) (hj : j < q + 1) :
    (i + 1) * (q + 2) + j + 1 < (q + 2) * (q + 2) := by
  have h1 : (i + 1) * (q + 2) ≤ (q + 1) * (q + 2) := Nat.mul_le_mul_right _ (by omega)
  have h2 : (q + 2) * (q + 2) = (q + 1) * (q + 2) + (q + 2) := by ring
  omega

theorem addGridCell_eq (q i j : ℕ) (hi : i < q + 1) (hj : j < q + 1)
    (faces : List (ℕ × ℕ × ℕ)) :
    addGridCell (List.range ((q + 2) * (q + 2))) (q + 2) i j faces =
      some (faces ++ gridCell (q + 2) (i * (q + 1) + j)) := by
  have hc := grid_corner_lt q i j hi hj
  have h3 : (i + 1) * (q + 2) = i * (q + 2) + (q + 2) := by ring
  simp only [addGridCell]
  rw [List.getElem?_range (by omega : i * (q + 2) + j < (q + 2) * (q + 2)),
    List.getElem?_range (by omega : i * (q + 2) + j + 1 < (q + 2) * (q + 2)),
    List.getElem?_range (by omega : (i + 1) * (q + 2) + j < (q + 2) * (q + 2)),
    List.getElem?_range hc, gridCell_at q i j hj]
  simp

theorem generateMesh_faces (q : ℕ) :
    forLoop (fun i faces => forLoop (addGridCell (List.range ((q + 2) * (q + 2))) (q + 2) i)
        0 (q + 2 - 1) faces) 0 (q + 2 - 1) [] =
      some ((List.range ((q + 1) * (q + 1))).flatMap (gridCell (q + 2))) := by
  have e : q + 2 - 1 = q + 1 := rfl
  rw [e]
  obtain ⟨s', hs', hInv⟩ := forLoop_inv
    (fun i faces => forLoop (addGridCell (List.range ((q + 2) * (q + 2))) (q + 2) i)
        0 (q + 1) faces)
    (fun i faces => faces = (List.range (i * (q + 1))).flatMap (gridCell (q + 2)))
    (q + 1) 0 [] (by simp)
    (by
      intro i t _ hi ht
      have hi' : i < q + 1 := by omega
      subst ht
      obtain ⟨t', ht', hInv'⟩ := forLoop_inv
        (addGridCell (List.range ((q + 2) * (q + 2))) (q + 2) i)
        (fun j faces => faces = (List.range (i * (q + 1) + j)).flatMap (gridCell (q + 2)))
        (q + 1) 0 ((List.range (i * (q + 1))).flatMap (gridCell (q + 2))) rfl
        (by
          intro j t _ hj ht
          subst ht
          refine ⟨_, addGridCell_eq q i j hi' (by omega) _, ?_⟩
          exact flatMap_range_succ (gridCell (q + 2)) (i * (q + 1) + j))
      refine ⟨t', ht', ?_⟩
      show _ = _
      rw [hInv']
      have : i * (q + 1) + (0 + (q + 1)) = (i + 1) * (q + 1) := by ring
      rw [this])
  rw [hs', hInv, Nat.zero_add]

theorem flatMap_gridCell_length (r : ℕ) : ∀ n : ℕ,
    ((List.range n).flatMap (gridCell r)).length = 2 * n
  | 0 => by simp
  | n + 1 => by
    rw [← flatMap_range_succ, List.length_append, flatMap_gridCell_length r n]
    simp only [gridCell, List.length_cons, List.length_nil]
    omega

theorem flatMap_gridCell_getElem (r : ℕ) : ∀ (n c : ℕ), c < n →
    ((List.range n).flatMap (gridCell r))[2 * c]? = (gridCell r c)[0]? ∧
      ((List.range n).flatMap (gridCell r))[2 * c + 1]? = (gridCell r c)[1]?
  | 0, c, h => by omega
  | n + 1, c, h => by
    rw [← flatMap_range_succ]
    have hlen := flatMap_gridCell_length r n
    by_cases hc : c < n
    · have ih := flatMap_gridCell_getElem r n c hc
      rw [List.getElem?_append_left (by omega), List.getElem?_append_left (by omega)]
      exact ih
    · have hcn : c = n := by omega
      subst hcn
      rw [List.getElem?_append_right (by omega), List.getElem?_append_right (by omega), hlen]
      simp

end TessProofs2

end MyViewer
namespace MyViewer

section TessProofs3

variable {K : Type} [LinearOrderedField K]

theorem generateMesh_eq (s : MyViewer K) (q : ℕ)
    (hb : s.trigonometric_basis = false) (hinv : s.countInvariant) :
    generateMesh s (q + 2) =
      some { vertices := (List.range ((q + 2) * (q + 2))).map (gridVertex s (q + 2)),
             faces := (List.range ((q + 1) * (q + 1))).flatMap (gridCell (q + 2)) } := by
  unfold generateMesh
  rw [if_neg (by omega), generateMesh_vertices s q hb hinv]
  simp only []
  rw [generateMesh_faces q]

theorem grid_param_bounds (q i : ℕ) (hi : i < q + 2) :
    (0 : K) ≤ (i : K) / ((q + 2 - 1 : ℕ) : K) ∧ (i : K) / ((q + 2 - 1 : ℕ) : K) ≤ 1 := by
  have e : q + 2 - 1 = q + 1 := rfl
  rw [e]
  have hpos : (0 : K) < ((q + 1 : ℕ) : K) := by exact_mod_cast Nat.succ_pos q
  have hle : (i : K) ≤ ((q + 1 : ℕ) : K) := by exact_mod_cast Nat.lt_succ_iff.mp hi
  exact ⟨div_nonneg (Nat.cast_nonneg i) hpos.le, (div_le_one hpos).mpr hle⟩

/-- Claim C19. Under the Bernstein basis, with the control grid matching the degrees,
`generateMesh(r)` with `r >= 2` returns a mesh of exactly `r*r` vertices and
`2*(r-1)^2` triangles; vertex `i*r+j` stores the parameters `(i/(r-1), j/(r-1))`, both
in `[0,1]`, and the point `evaluate(u, v)`; the first vertex has parameters `(0, 0)`
and the last `(1, 1)`; the cell `(i, j)` with `i, j < r-1` contributes, in this order,
the triangles `[(i,j), (i,j+1), (i+1,j)]` and `[(i+1,j), (i,j+1), (i+1,j+1)]`; and every
triangle only references vertex indices below `r*r`. -/
theorem C19_generateMesh_grid (s : MyViewer K) (r : ℕ)
    (hb : s.trigonometric_basis = false) (hinv : s.countInvariant) (hr : 2 ≤ r) :
    ∃ m : Mesh K, generateMesh s r = some m ∧
      m.vertices.length = r * r ∧ m.faces.length = 2 * (r - 1) ^ 2 ∧
      (∀ i j : ℕ, i < r → j < r → ∃ vd : VertexData K,
        m.vertices[i * r + j]? = some vd ∧
        vd.u = (i : K) / ((r - 1 : ℕ) : K) ∧ vd.v = (j : K) / ((r - 1 : ℕ) : K) ∧
        0 ≤ vd.u ∧ vd.u ≤ 1 ∧ 0 ≤ vd.v ∧ vd.v ≤ 1 ∧
        evaluate s vd.u vd.v = some vd.point) ∧
      (∃ v0 v1 : VertexData K, m.vertices[0]? = some v0 ∧ v0.u = 0 ∧ v0.v = 0 ∧
        m.vertices[r * r - 1]? = some v1 ∧ v1.u = 1 ∧ v1.v = 1) ∧
      (∀ i j : ℕ, i < r - 1 → j < r - 1 →
        m.faces[2 * (i * (r - 1) + j)]? =
          some (i * r + j, i * r + j + 1, (i + 1) * r + j) ∧
        m.faces[2 * (i * (r - 1) + j) + 1]? =
          some ((i + 1) * r + j, i * r + j + 1, (i + 1) * r + j + 1)) ∧
      (∀ f ∈ m.faces, f.1 < r * r ∧ f.2.1 < r * r ∧ f.2.2 < r * r) := by
  obtain ⟨q, rfl⟩ : ∃ q, r = q + 2 := ⟨r - 2, by omega⟩
  have e : q + 2 - 1 = q + 1 := rfl
  have hvert : ∀ i j : ℕ, i < q + 2 → j < q + 2 →
      ((List.range ((q + 2) * (q + 2))).map (gridVertex s (q + 2)))[i * (q + 2) + j]? =
        some { point := surfacePoint s ((i : K) / ((q + 2 - 1 : ℕ) : K))
                 ((j : K) / ((q + 2 - 1 : ℕ) : K)),
               u := (i : K) / ((q + 2 - 1 : ℕ) : K),
               v := (j : K) / ((q + 2 - 1 : ℕ) : K),
               normal := 0, mean := 0 } := by
    intro i j hi hj
    have hlt : i * (q + 2) + j < (q + 2) * (q + 2) := grid_index_lt hi hj
    rw [getElem?_map_range, if_pos hlt]
    simp only [gridVertex, grid_div i j (q + 1) hj, grid_mod i j (q + 1) hj]
  refine ⟨_, generateMesh_eq s q hb hinv, ?_, ?_, ?_, ?_, ?_, ?_⟩
  · simp
  · rw [flatMap_gridCell_length, e]
    ring
  · intro i j hi hj
    refine ⟨_, hvert i j hi hj, rfl, rfl, (grid_param_bounds q i hi).1,
      (grid_param_bounds q i hi).2, (grid_param_bounds q j hj).1,
      (grid_param_bounds q j hj).2, evaluate_surfacePoint s _ _ hb hinv⟩
  · have h0 := hvert 0 0 (by omega) (by omega)
    have h1 := hvert (q + 1) (q + 1) (by omega) (by omega)
    have e1 : (q + 2) * (q + 2) - 1 = (q + 1) * (q + 2) + (q + 1) := by
      have : (q + 2) * (q + 2) = (q + 1) * (q + 2) + (q + 1) + 1 := by ring
      omega
    have hpos : ((q + 1 : ℕ) : K) ≠ 0 := by exact_mod_cast Nat.succ_ne_zero q
    rw [Nat.zero_mul, Nat.add_zero] at h0
    rw [← e1] at h1
    refine ⟨_, _, h0, ?_, ?_, h1, ?_, ?_⟩
    · simp
    · simp
    · show ((q + 1 : ℕ) : K) / ((q + 2 - 1 : ℕ) : K) = 1
      rw [e]; exact div_self hpos
    · show ((q + 1 : ℕ) : K) / ((q + 2 - 1 : ℕ) : K) = 1
      rw [e]; exact div_self hpos
  · intro i j hi hj
    rw [e] at hi hj ⊢
    have hc : i * (q + 1) + j < (q + 1) * (q + 1) := grid_index_lt hi hj
    have h := flatMap_gridCell_getElem (q + 2) ((q + 1) * (q + 1)) (i * (q + 1) + j) hc
    rw [gridCell_at q i j hj] at h
    exact h
  · intro f hf
    simp only [List.mem_flatMap, List.mem_range] at hf
    obtain ⟨c, hc, hfc⟩ := hf
    have hq : 0 < q + 1 := Nat.succ_pos q
    have hi : c / (q + 1) < q + 1 := Nat.div_lt_of_lt_mul hc
    have hj : c % (q + 1) < q + 1 := Nat.mod_lt _ hq
    simp only [gridCell, e, List.mem_cons, List.mem_singleton, List.mem_nil_iff,
      or_false] at hfc
    generalize c / (q + 1) = a at hi hfc
    generalize c % (q + 1) = b at hj hfc
    have hcorner := grid_corner_lt q a b hi hj
    have h3 : (a + 1) * (q + 2) = a * (q + 2) + (q + 2) := by ring
    rcases hfc with rfl | rfl
    · refine ⟨?_, ?_, ?_⟩ <;> simp only <;> omega
    · refine ⟨?_, ?_, ?_⟩ <;> simp only <;> omega

theorem C19_generateMesh_grid_witness :
    (planePatch ℚ).trigonometric_basis = false ∧ (planePatch ℚ).countInvariant ∧ 2 ≤ 2 ∧
    ∃ m : Mesh ℚ, generateMesh (planePatch ℚ) 2 = some m ∧
      m.vertices.length = 2 * 2 ∧ m.faces.length = 2 * (2 - 1) ^ 2 ∧
      (∀ i j : ℕ, i < 2 → j < 2 → ∃ vd : VertexData ℚ,
        m.vertices[i * 2 + j]? = some vd ∧
        vd.u = (i : ℚ) / ((2 - 1 : ℕ) : ℚ) ∧ vd.v = (j : ℚ) / ((2 - 1 : ℕ) : ℚ) ∧
        0 ≤ vd.u ∧ vd.u ≤ 1 ∧ 0 ≤ vd.v ∧ vd.v ≤ 1 ∧
        evaluate (planePatch ℚ) vd.u vd.v = some vd.point) ∧
      (∃ v0 v1 : VertexData ℚ, m.vertices[0]? = some v0 ∧ v0.u = 0 ∧ v0.v = 0 ∧
        m.vertices[2 * 2 - 1]? = some v1 ∧ v1.u = 1 ∧ v1.v = 1) ∧
      (∀ i j : ℕ, i < 2 - 1 → j < 2 - 1 →
        m.faces[2 * (i * (2 - 1) + j)]? =
          some (i * 2 + j, i * 2 + j + 1, (i + 1) * 2 + j) ∧
        m.faces[2 * (i * (2 - 1) + j) + 1]? =
          some ((i + 1) * 2 + j, i * 2 + j + 1, (i + 1) * 2 + j + 1)) ∧
      (∀ f ∈ m.faces, f.1 < 2 * 2 ∧ f.2.1 < 2 * 2 ∧ f.2.2 < 2 * 2) :=
  ⟨rfl, by decide, by decide,
    C19_generateMesh_grid (planePatch ℚ) 2 rfl (by decide) (by decide)⟩

end TessProofs3

end MyViewer
section VoronoiProofs

theorem sane_aarg_of_sq_le_one {x : ℝ} (h : x ^ 2 ≤ 1) : sane_aarg x = x := by
  have h1 : -1 ≤ x := by nlinarith
  have h2 : x ≤ 1 := by nlinarith
  unfold sane_aarg
  rw [if_neg (not_lt.mpr h1), if_neg (not_lt.mpr h2)]

theorem lagrange (v w : Vec ℝ) :
    squaredNorm v * squaredNorm w = dot v w ^ 2 + squaredNorm (cross v w) := by
  obtain ⟨v1, v2, v3⟩ := v
  obtain ⟨w1, w2, w3⟩ := w
  simp only [squaredNorm, dot, cross]
  ring

theorem squaredNorm_nonneg (v : Vec ℝ) : 0 ≤ squaredNorm v := by
  unfold squaredNorm
  nlinarith [mul_self_nonneg v.1, mul_self_nonneg v.2.1, mul_self_nonneg v.2.2]

theorem sector_cos_sq (v w : Vec ℝ) (hG : 0 < squaredNorm (cross v w)) :
    0 < squaredNorm v ∧ 0 < squaredNorm w ∧
      Real.sqrt (squaredNorm v) * Real.sqrt (squaredNorm w) ≠ 0 ∧
      1 - (dot v w / (Real.sqrt (squaredNorm v) * Real.sqrt (squaredNorm w))) ^ 2 =
        squaredNorm (cross v w) / (squaredNorm v * squaredNorm w) := by
  have hL := lagrange v w
  have hv := squaredNorm_nonneg v
  have hw := squaredNorm_nonneg w
  have hprod : 0 < squaredNorm v * squaredNorm w := by nlinarith [sq_nonneg (dot v w)]
  have hv0 : 0 < squaredNorm v := by
    rcases hv.lt_or_eq with h | h
    · exact h
    · rw [← h] at hprod; simp at hprod
  have hw0 : 0 < squaredNorm w := by
    rcases hw.lt_or_eq with h | h
    · exact h
    · rw [← h] at hprod; simp at hprod
  have hne : Real.sqrt (squaredNorm v) * Real.sqrt (squaredNorm w) ≠ 0 :=
    mul_ne_zero (Real.sqrt_ne_zero'.mpr hv0) (Real.sqrt_ne_zero'.mpr hw0)
  refine ⟨hv0, hw0, hne, ?_⟩
  rw [div_pow, mul_pow, Real.sq_sqrt hv, Real.sq_sqrt hw]
  field_simp
  linarith

theorem sector_angle_eq (v w : Vec ℝ) (hG : 0 < squaredNorm (cross v w)) :
    sector_angle Real.sqrt Real.arccos v w =
      Real.arccos (dot v w / (Real.sqrt (squaredNorm v) * Real.sqrt (squaredNorm w))) := by
  obtain ⟨hv, hw, hne, hcos⟩ := sector_cos_sq v w hG
  unfold sector_angle
  rw [if_neg hne, sane_aarg_of_sq_le_one]
  have : 0 ≤ squaredNorm (cross v w) / (squaredNorm v * squaredNorm w) :=
    div_nonneg hG.le (mul_pos hv hw).le
  linarith

theorem sector_sin (v w : Vec ℝ) (hG : 0 < squaredNorm (cross v w)) :
    Real.sqrt (squaredNorm v) * Real.sqrt (squaredNorm w) *
        Real.sin (sector_angle Real.sqrt Real.arccos v w) =
      Real.sqrt (squaredNorm (cross v w)) := by
  obtain ⟨hv, hw, hne, hcos⟩ := sector_cos_sq v w hG
  rw [sector_angle_eq v w hG, Real.sin_arccos, hcos, Real.sqrt_div hG.le,
    Real.sqrt_mul hv.le]
  field_simp

theorem sector_tan (v w : Vec ℝ) (hG : 0 < squaredNorm (cross v w)) (hD : 0 < dot v w) :
    Real.tan (sector_angle Real.sqrt Real.arccos v w) =
      Real.sqrt (squaredNorm (cross v w)) / dot v w := by
  obtain ⟨hv, hw, hne, hcos⟩ := sector_cos_sq v w hG
  rw [sector_angle_eq v w hG, Real.tan_arccos, hcos, Real.sqrt_div hG.le,
    Real.sqrt_mul hv.le]
  field_simp

end VoronoiProofs
section VoronoiClaim

theorem cross_corner_to (P A Q : Vec ℝ) : cross (Q - A) (P - A) = cross (A - P) (Q - A) := by
  obtain ⟨p1, p2, p3⟩ := P
  obtain ⟨a1, a2, a3⟩ := A
  obtain ⟨q1, q2, q3⟩ := Q
  simp only [cross, Prod.mk_sub_mk]
  refine Prod.ext ?_ (Prod.ext ?_ ?_) <;> simp only <;> ring

theorem cross_corner_from (P A Q : Vec ℝ) : cross (A - P) (Q - P) = cross (A - P) (Q - A) := by
  obtain ⟨p1, p2, p3⟩ := P
  obtain ⟨a1, a2, a3⟩ := A
  obtain ⟨q1, q2, q3⟩ := Q
  simp only [cross, Prod.mk_sub_mk]
  refine Prod.ext ?_ (Prod.ext ?_ ?_) <;> simp only <;> ring

theorem cross_corner_next (P A Q : Vec ℝ) : cross (P - Q) (A - Q) = cross (A - P) (Q - A) := by
  obtain ⟨p1, p2, p3⟩ := P
  obtain ⟨a1, a2, a3⟩ := A
  obtain ⟨q1, q2, q3⟩ := Q
  simp only [cross, Prod.mk_sub_mk]
  refine Prod.ext ?_ (Prod.ext ?_ ?_) <;> simp only <;> ring

theorem squaredNorm_sub_comm (P A : Vec ℝ) : squaredNorm (P - A) = squaredNorm (A - P) := by
  obtain ⟨p1, p2, p3⟩ := P
  obtain ⟨a1, a2, a3⟩ := A
  simp only [squaredNorm, Prod.mk_sub_mk]
  ring

theorem law_of_cosines (v w : Vec ℝ) :
    squaredNorm (v - w) = squaredNorm v + squaredNorm w - 2 * dot v w := by
  obtain ⟨v1, v2, v3⟩ := v
  obtain ⟨w1, w2, w3⟩ := w
  simp only [squaredNorm, dot, Prod.mk_sub_mk]
  ring

theorem sub_sub_sub_right (P A Q : Vec ℝ) : (P - A) - (Q - A) = P - Q := by
  abel

namespace MyViewer

theorem voronoiWeight_interior_nonneg (P A Q : Vec ℝ)
    (hnd : cross (A - P) (Q - A) ≠ 0) :
    0 ≤ voronoiWeight Real.sqrt Real.arccos Real.tan Real.sin
      { is_boundary := false, from_point := P, to_point := A, next_point := Q } := by
  have hG : 0 < squaredNorm (cross (A - P) (Q - A)) := squaredNorm_pos hnd
  set G := squaredNorm (cross (A - P) (Q - A)) with hGdef
  have hGa : 0 < squaredNorm (cross (Q - A) (P - A)) := by rw [cross_corner_to P A Q]; exact hG
  have hGb : 0 < squaredNorm (cross (A - P) (Q - P)) := by rw [cross_corner_from P A Q]; exact hG
  have hGc : 0 < squaredNorm (cross (P - Q) (A - Q)) := by rw [cross_corner_next P A Q]; exact hG
  have hs : 0 ≤ Real.sqrt G := Real.sqrt_nonneg G
  -- the three squared edge lengths and the three dot products
  have ha2 : squaredNorm (P - Q) =
      squaredNorm (Q - A) + squaredNorm (A - P) - 2 * dot (Q - A) (P - A) := by
    have := law_of_cosines (P - A) (Q - A)
    rw [sub_sub_sub_right, squaredNorm_sub_comm P A] at this
    have hc : dot (P - A) (Q - A) = dot (Q - A) (P - A) := by
      simp only [dot]; ring
    rw [hc] at this
    linarith
  have hb2 : squaredNorm (Q - A) =
      squaredNorm (A - P) + squaredNorm (P - Q) - 2 * dot (A - P) (Q - P) := by
    have := law_of_cosines (Q - P) (A - P)
    rw [sub_sub_sub_right, squaredNorm_sub_comm Q P] at this
    have hc : dot (Q - P) (A - P) = dot (A - P) (Q - P) := by
      simp only [dot]; ring
    rw [hc] at this
    linarith
  have hc2 : squaredNorm (A - P) =
      squaredNorm (P - Q) + squaredNorm (Q - A) - 2 * dot (P - Q) (A - Q) := by
    have := law_of_cosines (A - Q) (P - Q)
    rw [sub_sub_sub_right, squaredNorm_sub_comm A Q] at this
    have hc : dot (A - Q) (P - Q) = dot (P - Q) (A - Q) := by
      simp only [dot]; ring
    rw [hc] at this
    linarith
  have hb0 := squaredNorm_nonneg (Q - A)
  have hc0 := squaredNorm_nonneg (A - P)
  simp only [voronoiWeight, Halfedge.next, Halfedge.prev, calc_edge_vector, calc_sector_angle,
    Bool.false_eq_true, if_false]
  split_ifs with h1 h2 h3
  · -- obtuse gamma
    have hD : 0 < dot (Q - A) (P - A) := by linarith
    rw [sector_tan _ _ hGa hD, cross_corner_to P A Q]
    have : 0 ≤ Real.sqrt G / dot (Q - A) (P - A) := div_nonneg hs hD.le
    have h8 : (0 : ℝ) ≤ 0.125 := by norm_num
    exact mul_nonneg (mul_nonneg h8 hb0) this
  · -- obtuse beta
    have hD : 0 < dot (Q - A) (P - A) := by linarith
    rw [sector_tan _ _ hGa hD, cross_corner_to P A Q]
    have : 0 ≤ Real.sqrt G / dot (Q - A) (P - A) := div_nonneg hs hD.le
    have h8 : (0 : ℝ) ≤ 0.125 := by norm_num
    exact mul_nonneg (mul_nonneg h8 hc0) this
  · -- obtuse alpha
    have hDb : squaredNorm (A - P) < dot (A - P) (Q - P) := by linarith
    have hDc : squaredNorm (Q - A) < dot (P - Q) (A - Q) := by linarith
    have hDb0 : 0 < dot (A - P) (Q - P) := by linarith
    have hDc0 : 0 < dot (P - Q) (A - Q) := by linarith
    rw [sector_tan _ _ hGb hDb0, sector_tan _ _ hGc hDc0, cross_corner_from P A Q, cross_corner_next P A Q]
    have hsin := sector_sin (Q - A) (P - A) hGa
    rw [cross_corner_to P A Q, squaredNorm_sub_comm P A] at hsin
    have e1 : squaredNorm (Q - A) * (Real.sqrt G / dot (P - Q) (A - Q)) ≤ Real.sqrt G := by
      rw [mul_div_assoc', div_le_iff₀ hDc0]
      nlinarith
    have e2 : squaredNorm (A - P) * (Real.sqrt G / dot (A - P) (Q - P)) ≤ Real.sqrt G := by
      rw [mul_div_assoc', div_le_iff₀ hDb0]
      nlinarith
    have e3 : (0.5 : ℝ) * Real.sqrt (squaredNorm (Q - A)) * Real.sqrt (squaredNorm (A - P)) *
        Real.sin (sector_angle Real.sqrt Real.arccos (Q - A) (P - A)) = 0.5 * Real.sqrt G := by
      rw [← hsin]; ring
    rw [e3]
    norm_num at e1 e2 ⊢
    linarith
  · -- no obtuse angle
    have h8 : (0 : ℝ) ≤ 0.125 := by norm_num
    exact add_nonneg
      (mul_nonneg (mul_nonneg h8 (Real.sqrt_nonneg _)) (Real.sqrt_nonneg _))
      (mul_nonneg (mul_nonneg h8 (Real.sqrt_nonneg _)) (Real.sqrt_nonneg _))

end MyViewer

end VoronoiClaim
namespace MyViewer

section Claim12

/-- Claim C12. Over the reals, with the library functions `sqrt`, `acos`, `tan`, `sin`:
for every half-edge of a triangle mesh whose triangle, if it has one, is non-degenerate
(its three points are not collinear), `voronoiWeight` returns a value `>= 0`, and it
returns exactly `0` when the half-edge is a boundary half-edge. -/
theorem C12_voronoiWeight_nonneg (h : Halfedge ℝ)
    (hnd : h.is_boundary = false →
      cross (calc_edge_vector h) (calc_edge_vector h.next) ≠ 0) :
    0 ≤ voronoiWeight Real.sqrt Real.arccos Real.tan Real.sin h ∧
      (h.is_boundary = true →
        voronoiWeight Real.sqrt Real.arccos Real.tan Real.sin h = 0) := by
  obtain ⟨b, P, A, Q⟩ := h
  cases b
  · exact ⟨voronoiWeight_interior_nonneg P A Q (hnd rfl), fun hb => by cases hb⟩
  · have h0 : voronoiWeight Real.sqrt Real.arccos Real.tan Real.sin
        { is_boundary := true, from_point := P, to_point := A, next_point := Q } = 0 := by
      simp only [voronoiWeight, if_true]
    exact ⟨h0.ge, fun _ => h0⟩

theorem C12_voronoiWeight_nonneg_witness :
    ((rightTriangle ℝ).is_boundary = false →
      cross (calc_edge_vector (rightTriangle ℝ)) (calc_edge_vector (rightTriangle ℝ).next) ≠ 0) ∧
    0 ≤ voronoiWeight Real.sqrt Real.arccos Real.tan Real.sin (rightTriangle ℝ) ∧
      ((rightTriangle ℝ).is_boundary = true →
        voronoiWeight Real.sqrt Real.arccos Real.tan Real.sin (rightTriangle ℝ) = 0) :=
  have hnd : (rightTriangle ℝ).is_boundary = false →
      cross (calc_edge_vector (rightTriangle ℝ))
        (calc_edge_vector (rightTriangle ℝ).next) ≠ 0 := by
    intro _ h
    have h3 := congrArg (fun v : Vec ℝ => v.2.2) h
    simp [cross, calc_edge_vector, rightTriangle, Halfedge.next] at h3
  ⟨hnd, C12_voronoiWeight_nonneg (rightTriangle ℝ) hnd⟩

end Claim12

end MyViewer

namespace MyViewer

section Claim21

variable {K : Type} [LinearOrderedField K]

theorem blend_weight_bounds (n i : ℕ) (hi : i ≤ n) :
    (0 : K) ≤ (i : K) / ((n + 1 : ℕ) : K) ∧ (i : K) / ((n + 1 : ℕ) : K) ≤ 1 ∧
      (0 : K) ≤ 1 - (i : K) / ((n + 1 : ℕ) : K) ∧ 1 - (i : K) / ((n + 1 : ℕ) : K) ≤ 1 ∧
      (i : K) / ((n + 1 : ℕ) : K) + (1 - (i : K) / ((n + 1 : ℕ) : K)) = 1 := by
  have hpos : (0 : K) < ((n + 1 : ℕ) : K) := by exact_mod_cast Nat.succ_pos n
  have hle : (i : K) ≤ ((n + 1 : ℕ) : K) := by exact_mod_cast Nat.le_succ_of_le hi
  have h0 : (0 : K) ≤ (i : K) / ((n + 1 : ℕ) : K) := div_nonneg (Nat.cast_nonneg i) hpos.le
  have h1 : (i : K) / ((n + 1 : ℕ) : K) ≤ 1 := (div_le_one hpos).mpr hle
  exact ⟨h0, h1, by linarith, by linarith, by ring⟩

/-- Claim C21. For every surface with degrees `(n, m)` satisfying the count invariant,
`elevateU()` returns a surface of degrees `(n + 1, m)` with `(n + 2)(m + 1)` control
points: row `0` is the old row `0`, row `n + 1` is the old row `n`, and for
`1 <= i <= n` the point in row `i`, column `j` is
`(i/(n+1)) * P[i-1][j] + (1 - i/(n+1)) * P[i][j]`; both weights lie in `[0, 1]` and sum
to `1`. -/
theorem C21_elevateU_convex_rows (s : MyViewer K) (hinv : s.countInvariant) :
    ∃ s', elevateU s = some s' ∧ s'.degree = (s.degree.1 + 1, s.degree.2) ∧
      s'.control_points.length = (s.degree.1 + 2) * (s.degree.2 + 1) ∧
      (∀ j, j < s.degree.2 + 1 → ∃ p, s.control_points[j]? = some p ∧
        s'.control_points[j]? = some p) ∧
      (∀ j, j < s.degree.2 + 1 → ∃ p,
        s.control_points[s.degree.1 * (s.degree.2 + 1) + j]? = some p ∧
        s'.control_points[(s.degree.1 + 1) * (s.degree.2 + 1) + j]? = some p) ∧
      (∀ i j, 1 ≤ i → i ≤ s.degree.1 → j < s.degree.2 + 1 → ∃ p q,
        s.control_points[(i - 1) * (s.degree.2 + 1) + j]? = some p ∧
        s.control_points[i * (s.degree.2 + 1) + j]? = some q ∧
        s'.control_points[i * (s.degree.2 + 1) + j]? =
          some (((i : K) / ((s.degree.1 + 1 : ℕ) : K)) • p +
            (1 - (i : K) / ((s.degree.1 + 1 : ℕ) : K)) • q) ∧
        0 ≤ (i : K) / ((s.degree.1 + 1 : ℕ) : K) ∧ (i : K) / ((s.degree.1 + 1 : ℕ) : K) ≤ 1 ∧
        0 ≤ 1 - (i : K) / ((s.degree.1 + 1 : ℕ) : K) ∧
        1 - (i : K) / ((s.degree.1 + 1 : ℕ) : K) ≤ 1 ∧
        (i : K) / ((s.degree.1 + 1 : ℕ) : K) + (1 - (i : K) / ((s.degree.1 + 1 : ℕ) : K)) = 1) := by
  obtain ⟨mt, tb, ⟨n, m⟩, cp, fn⟩ := s
  have hlen : cp.length = (n + 1) * (m + 1) := hinv
  have hget : ∀ k, k < (n + 1) * (m + 1) → cp[k]? = some (cp.getD k 0) := by
    intro k hk
    exact getElem?_eq_some_getD cp k (by rw [hlen]; exact hk) 0
  have hnew : ∀ k, k < (n + 2) * (m + 1) →
      ((List.range ((n + 2) * (m + 1))).map (elevatedU cp n m))[k]? =
        some (elevatedU cp n m k) := by
    intro k hk
    rw [getElem?_map_range, if_pos hk]
  refine ⟨_, elevateU_eq _ hinv, rfl, by simp, ?_, ?_, ?_⟩
  · intro j hj
    have hj1 : j < (n + 1) * (m + 1) := by
      have := grid_index_lt (Nat.succ_pos n) hj
      simpa using this
    have hj2 : j < (n + 2) * (m + 1) := by
      have := grid_index_lt (Nat.succ_pos (n + 1)) hj
      simpa using this
    refine ⟨cp.getD j 0, hget j hj1, ?_⟩
    show ((List.range ((n + 2) * (m + 1))).map (elevatedU cp n m))[j]? = _
    rw [hnew j hj2, elevatedU_first cp n m j hj]
  · intro j hj
    have hj1 : n * (m + 1) + j < (n + 1) * (m + 1) := grid_index_lt (Nat.lt_succ_self n) hj
    have hj2 : (n + 1) * (m + 1) + j < (n + 2) * (m + 1) :=
      grid_index_lt (Nat.lt_succ_self (n + 1)) hj
    refine ⟨cp.getD (n * (m + 1) + j) 0, hget _ hj1, ?_⟩
    show ((List.range ((n + 2) * (m + 1))).map (elevatedU cp n m))[(n + 1) * (m + 1) + j]? = _
    rw [hnew _ hj2, elevatedU_last cp n m j hj]
  · intro i j hi1 hin hj
    have hin' : i ≤ n := hin
    have hj0 : (i - 1) * (m + 1) + j < (n + 1) * (m + 1) :=
      grid_index_lt (by omega : i - 1 < n + 1) hj
    have hj1 : i * (m + 1) + j < (n + 1) * (m + 1) :=
      grid_index_lt (by omega : i < n + 1) hj
    have hj2 : i * (m + 1) + j < (n + 2) * (m + 1) :=
      grid_index_lt (by omega : i < n + 1 + 1) hj
    have e : i * (m + 1) + j - m - 1 = (i - 1) * (m + 1) + j := by
      obtain ⟨i', rfl⟩ : ∃ i', i = i' + 1 := ⟨i - 1, by omega⟩
      have : (i' + 1) * (m + 1) = i' * (m + 1) + (m + 1) := by ring
      simp only [Nat.add_sub_cancel]
      omega
    refine ⟨cp.getD ((i - 1) * (m + 1) + j) 0, cp.getD (i * (m + 1) + j) 0, hget _ hj0,
      hget _ hj1, ?_, blend_weight_bounds n i hin'⟩
    show ((List.range ((n + 2) * (m + 1))).map (elevatedU cp n m))[i * (m + 1) + j]? = _
    rw [hnew _ hj2, elevatedU_mid cp n m i j hj, e]

/-- Witness of C21: the bilinear patch. -/
theorem C21_elevateU_convex_rows_witness :
    patch11.countInvariant ∧ ∃ s', elevateU patch11 = some s' ∧ s'.degree = (2, 1) ∧
      s'.control_points.length = 6 :=
  ⟨by decide, (C21_elevateU_convex_rows patch11 (by decide)).imp
    (fun _ h => ⟨h.1, h.2.1, h.2.2.1⟩)⟩

end Claim21

end MyViewer
section Claim22Shape

variable {K : Type} [LinearOrderedField K]

theorem saturated_of_shape (c : Vec K) (x : K) (hx0 : 0 ≤ x) (hx1 : x ≤ 1)
    (h : c = (1, x, 0) ∨ c = (x, 1, 0) ∨ c = (0, 1, x) ∨ c = (0, x, 1)) :
    (0 ≤ c.1 ∧ c.1 ≤ 1 ∧ 0 ≤ c.2.1 ∧ c.2.1 ≤ 1 ∧ 0 ≤ c.2.2 ∧ c.2.2 ≤ 1) ∧
      max c.1 (max c.2.1 c.2.2) = 1 ∧ min c.1 (min c.2.1 c.2.2) = 0 := by
  rcases h with rfl | rfl | rfl | rfl
  · refine ⟨⟨zero_le_one, le_refl _, hx0, hx1, le_refl _, zero_le_one⟩, ?_, ?_⟩
    · show max 1 (max x 0) = 1
      rw [max_eq_left hx0, max_eq_left hx1]
    · show min 1 (min x 0) = 0
      rw [min_eq_right hx0, min_eq_right zero_le_one]
  · refine ⟨⟨hx0, hx1, zero_le_one, le_refl _, le_refl _, zero_le_one⟩, ?_, ?_⟩
    · show max x (max 1 0) = 1
      rw [max_eq_left zero_le_one, max_eq_right hx1]
    · show min x (min 1 0) = 0
      rw [min_eq_right zero_le_one, min_eq_right hx0]
  · refine ⟨⟨le_refl _, zero_le_one, zero_le_one, le_refl _, hx0, hx1⟩, ?_, ?_⟩
    · show max 0 (max 1 x) = 1
      rw [max_eq_left hx1, max_eq_right zero_le_one]
    · show min 0 (min 1 x) = 0
      rw [min_eq_right hx1, min_eq_left hx0]
  · refine ⟨⟨le_refl _, zero_le_one, hx0, hx1, zero_le_one, le_refl _⟩, ?_, ?_⟩
    · show max 0 (max x 1) = 1
      rw [max_eq_right hx1, max_eq_right zero_le_one]
    · show min 0 (min x 1) = 0
      rw [min_eq_left hx1, min_eq_left hx0]


end Claim22Shape

section Claim22

variable {K : Type} [LinearOrderedField K] [FloorRing K]

theorem fmod_two_bounds (h : K) (h0 : 0 ≤ h) : 0 ≤ fmod h 2 ∧ fmod h 2 < 2 := by
  have hh : 0 ≤ h / 2 := div_nonneg h0 (by norm_num)
  have h1 := Int.floor_le (h / 2)
  have h2 := Int.lt_floor_add_one (h / 2)
  simp only [fmod, hh, if_true]
  constructor <;> linarith

theorem hsv_x_bounds (h : K) (h0 : 0 ≤ h) :
    0 ≤ 1 * (1 - |fmod h 2 - 1|) ∧ 1 * (1 - |fmod h 2 - 1|) ≤ (1 : K) := by
  obtain ⟨h1, h2⟩ := fmod_two_bounds h h0
  have : |fmod h 2 - 1| ≤ 1 := abs_le.mpr ⟨by linarith, by linarith⟩
  have := abs_nonneg (fmod h 2 - 1)
  constructor <;> linarith

theorem HSV2RGB_full (hue : K) (h0 : 0 ≤ hue) (h4 : hue ≤ 240) :
    ∃ x : K, 0 ≤ x ∧ x ≤ 1 ∧
      ((hue ≤ 120 ∧ (HSV2RGB (hue, 1, 1) = (1, x, 0) ∨ HSV2RGB (hue, 1, 1) = (x, 1, 0))) ∨
        (120 < hue ∧ (HSV2RGB (hue, 1, 1) = (0, 1, x) ∨ HSV2RGB (hue, 1, 1) = (0, x, 1)))) := by
  have hh : 0 ≤ hue / 60 := div_nonneg h0 (by norm_num)
  obtain ⟨hx0, hx1⟩ := hsv_x_bounds (hue / 60) hh
  refine ⟨1 * (1 - |fmod (hue / 60) 2 - 1|), hx0, hx1, ?_⟩
  have e60 : ∀ c : K, hue / 60 ≤ c ↔ hue ≤ c * 60 := fun c => div_le_iff₀ (by norm_num)
  by_cases c1 : hue ≤ 60
  · left
    refine ⟨by linarith, Or.inl ?_⟩
    have : hue / 60 ≤ 1 := (e60 1).mpr (by linarith)
    simp only [HSV2RGB, this, if_true, mul_one, sub_self, Prod.mk_add_mk, zero_add]
  · by_cases c2 : hue ≤ 120
    · left
      refine ⟨c2, Or.inr ?_⟩
      have n1 : ¬ hue / 60 ≤ 1 := fun h => c1 (by have := (e60 1).mp h; linarith)
      have : hue / 60 ≤ 2 := (e60 2).mpr (by linarith)
      simp only [HSV2RGB, n1, this, if_true, if_false, mul_one, sub_self, Prod.mk_add_mk,
        zero_add]
    · right
      refine ⟨lt_of_not_le c2, ?_⟩
      have n1 : ¬ hue / 60 ≤ 1 := fun h => c1 (by have := (e60 1).mp h; linarith)
      have n2 : ¬ hue / 60 ≤ 2 := fun h => c2 (by have := (e60 2).mp h; linarith)
      by_cases c3 : hue ≤ 180
      · left
        have : hue / 60 ≤ 3 := (e60 3).mpr (by linarith)
        simp only [HSV2RGB, n1, n2, this, if_true, if_false, mul_one, sub_self, Prod.mk_add_mk,
          zero_add]
      · right
        have n3 : ¬ hue / 60 ≤ 3 := fun h => c3 (by have := (e60 3).mp h; linarith)
        have : hue / 60 ≤ 4 := (e60 4).mpr (by linarith)
        simp only [HSV2RGB, n1, n2, n3, this, if_true, if_false, mul_one, sub_self,
          Prod.mk_add_mk, zero_add]


/-- Claim C22. For every range with `mean_min <= 0 <= mean_max` and every curvature `d`,
`meanMapColor(d)` is a fully saturated colour: its components lie in `[0, 1]`, the largest
is `1` and the smallest is `0`; its red component is `0` when `d < 0` and its blue
component is `0` when `d >= 0`; every `d <= mean_min < 0` maps to pure blue `(0, 0, 1)`
and every `d >= mean_max > 0` to pure red `(1, 0, 0)`. -/
theorem C22_meanMapColor_saturated (r : MeanRange K) (d : K)
    (hmin : r.mean_min ≤ 0) (hmax : 0 ≤ r.mean_max) :
    ((0 ≤ (meanMapColor r d).1 ∧ (meanMapColor r d).1 ≤ 1 ∧
        0 ≤ (meanMapColor r d).2.1 ∧ (meanMapColor r d).2.1 ≤ 1 ∧
        0 ≤ (meanMapColor r d).2.2 ∧ (meanMapColor r d).2.2 ≤ 1) ∧
      max (meanMapColor r d).1 (max (meanMapColor r d).2.1 (meanMapColor r d).2.2) = 1 ∧
      min (meanMapColor r d).1 (min (meanMapColor r d).2.1 (meanMapColor r d).2.2) = 0) ∧
    (d < 0 → (meanMapColor r d).1 = 0) ∧ (0 ≤ d → (meanMapColor r d).2.2 = 0) ∧
    (d ≤ r.mean_min → r.mean_min < 0 → meanMapColor r d = (0, 0, 1)) ∧
    (r.mean_max ≤ d → 0 < r.mean_max → meanMapColor r d = (1, 0, 0)) := by
  -- the blend weight of the negative branch lies in (0, 1], of the other in [0, 1]
  have hneg : d < 0 → 0 < (if r.mean_min ≠ 0 then min (d / r.mean_min) 1 else 1) ∧
      (if r.mean_min ≠ 0 then min (d / r.mean_min) 1 else 1) ≤ 1 := by
    intro hd
    by_cases h0 : r.mean_min = 0
    · simp [h0]
    · have hlt : r.mean_min < 0 := lt_of_le_of_ne hmin h0
      simp only [ne_eq, h0, not_false_eq_true, if_true]
      exact ⟨lt_min (div_pos_of_neg_of_neg hd hlt) one_pos, min_le_right _ _⟩
  have hpos : 0 ≤ d → 0 ≤ (if r.mean_max ≠ 0 then min (d / r.mean_max) 1 else 1) ∧
      (if r.mean_max ≠ 0 then min (d / r.mean_max) 1 else 1) ≤ 1 := by
    intro hd
    by_cases h0 : r.mean_max = 0
    · simp [h0]
    · simp only [ne_eq, h0, not_false_eq_true, if_true]
      exact ⟨le_min (div_nonneg hd hmax) zero_le_one, min_le_right _ _⟩
  have hshape : ∃ x : K, 0 ≤ x ∧ x ≤ 1 ∧
      ((0 ≤ d ∧ (meanMapColor r d = (1, x, 0) ∨ meanMapColor r d = (x, 1, 0))) ∨
        (d < 0 ∧ (meanMapColor r d = (0, 1, x) ∨ meanMapColor r d = (0, x, 1)))) := by
    by_cases hd : d < 0
    · obtain ⟨ha0, ha1⟩ := hneg hd
      obtain ⟨x, hx0, hx1, h⟩ := HSV2RGB_full
        (120 * (1 - (if r.mean_min ≠ 0 then min (d / r.mean_min) 1 else 1)) +
          240 * (if r.mean_min ≠ 0 then min (d / r.mean_min) 1 else 1))
        (by nlinarith) (by nlinarith)
      refine ⟨x, hx0, hx1, Or.inr ⟨hd, ?_⟩⟩
      simp only [meanMapColor, hd, if_true]
      rcases h with ⟨hle, _⟩ | ⟨_, h⟩
      · exfalso
        nlinarith
      · exact h
    · have hd0 : 0 ≤ d := not_lt.mp hd
      obtain ⟨ha0, ha1⟩ := hpos hd0
      obtain ⟨x, hx0, hx1, h⟩ := HSV2RGB_full
        (120 * (1 - (if r.mean_max ≠ 0 then min (d / r.mean_max) 1 else 1)) +
          0 * (if r.mean_max ≠ 0 then min (d / r.mean_max) 1 else 1))
        (by nlinarith) (by nlinarith)
      refine ⟨x, hx0, hx1, Or.inl ⟨hd0, ?_⟩⟩
      simp only [meanMapColor, hd, if_false]
      rcases h with ⟨_, h⟩ | ⟨hlt, _⟩
      · exact h
      · exfalso
        nlinarith
  obtain ⟨x, hx0, hx1, hsh⟩ := hshape
  refine ⟨?_, ?_, ?_, ?_, ?_⟩
  · apply saturated_of_shape _ x hx0 hx1
    rcases hsh with ⟨_, h | h⟩ | ⟨_, h | h⟩
    · exact Or.inl h
    · exact Or.inr (Or.inl h)
    · exact Or.inr (Or.inr (Or.inl h))
    · exact Or.inr (Or.inr (Or.inr h))
  · intro hd
    rcases hsh with ⟨h0, _⟩ | ⟨_, h | h⟩
    · exact absurd hd (not_lt.mpr h0)
    · rw [h]
    · rw [h]
  · intro hd
    rcases hsh with ⟨_, h | h⟩ | ⟨h0, _⟩
    · rw [h]
    · rw [h]
    · exact absurd h0 (not_lt.mpr hd)
  · intro hd hlt
    have hd0 : d < 0 := lt_of_le_of_lt hd hlt
    have h1 : 1 ≤ d / r.mean_min := (one_le_div_of_neg hlt).mpr hd
    simp only [meanMapColor, hd0, if_true, ne_eq, hlt.ne, not_false_eq_true, min_eq_right h1]
    simp only [sub_self, mul_zero, zero_add, mul_one]
    exact HSV2RGB_blue
  · intro hd hlt
    have hd0 : ¬ d < 0 := not_lt.mpr (le_trans hlt.le hd)
    have h1 : 1 ≤ d / r.mean_max := (one_le_div hlt).mpr hd
    simp only [meanMapColor, hd0, if_false, ne_eq, hlt.ne', not_false_eq_true, if_true,
      min_eq_right h1]
    simp only [sub_self, mul_zero, zero_add, mul_one, add_zero]
    exact HSV2RGB_red

/-- Witness of C22: the range `-2, 4` and the curvature `-1`. -/
theorem C22_meanMapColor_saturated_witness :
    ((-2 : ℚ) ≤ 0) ∧ ((0 : ℚ) ≤ 4) ∧
      ((-1 : ℚ) < 0 → (meanMapColor (⟨-2, 4⟩ : MeanRange ℚ) (-1)).1 = 0) :=
  ⟨by norm_num, by norm_num,
    (C22_meanMapColor_saturated (⟨-2, 4⟩ : MeanRange ℚ) (-1) (by norm_num) (by norm_num)).2.1⟩

end Claim22
section Claim23

variable {K : Type} [LinearOrderedField K]

theorem bernsteinDer_none_of_lt (u : K) : ∀ (d n : ℕ), n < d → bernsteinDer n u d = none
  | 0, n, h => absurd h (Nat.not_lt_zero n)
  | d + 1, 0, _ => by
    unfold bernsteinDer
    cases bernstein 0 u <;> rfl
  | d + 1, n + 1, h => by
    unfold bernsteinDer
    cases bernstein (n + 1) u with
    | none => rfl
    | some coeff =>
      simp only [bernsteinDer_none_of_lt u d n (by omega)]

namespace MyViewer

theorem evaluateDer_none_of_lt (s : MyViewer K) (u v : K) (d : ℕ)
    (hb : s.trigonometric_basis = false) (h : s.degree.1 < d ∨ s.degree.2 < d) :
    evaluateDer s u v d = none := by
  have hc : evaluateCoeffs s u v d = none := by
    simp only [evaluateCoeffs, hb, Bool.false_and, Bool.false_eq_true, if_false]
    rcases h with h | h
    · rw [bernsteinDer_none_of_lt u d _ h]
    · rw [bernsteinDer_none_of_lt v d _ h]
      cases bernsteinDer s.degree.1 u d <;> rfl
  simp only [evaluateDer, hc]

/-- Claim C23, the code on the surfaces the claim covers. Under the Bernstein basis, on a
mesh with at least one vertex: when a degree is below `2`, the call
`evaluate(u, v, 2, der)` of `updateMeanCurvature` asks the derivative Bernstein evaluator
for more derivatives than the degree (`d <= n` is false), the evaluator does not complete
and neither does `updateMeanCurvature`; when a degree is `0`, the same holds for
`evaluate(u, v, 1, der)` and `updateVertexNormals`. -/
theorem C23_low_degree_breaks_precondition (sqrt : K → K) (s : MyViewer K) (mesh : Mesh K)
    (hb : s.trigonometric_basis = false) (hne : mesh.vertices ≠ []) :
    ((s.degree.1 < 2 ∨ s.degree.2 < 2) →
      (s.degree.1 < 2 → ∀ u : K, bernsteinDer s.degree.1 u 2 = none) ∧
      (s.degree.2 < 2 → ∀ v : K, bernsteinDer s.degree.2 v 2 = none) ∧
      (∀ u v : K, evaluateDer s u v 2 = none) ∧
      updateMeanCurvatureBezier sqrt s mesh = none) ∧
    ((s.degree.1 < 1 ∨ s.degree.2 < 1) →
      (s.degree.1 < 1 → ∀ u : K, bernsteinDer s.degree.1 u 1 = none) ∧
      (s.degree.2 < 1 → ∀ v : K, bernsteinDer s.degree.2 v 1 = none) ∧
      (∀ u v : K, evaluateDer s u v 1 = none) ∧
      updateVertexNormalsBezier sqrt s mesh = none) := by
  obtain ⟨vs, fs⟩ := mesh
  cases vs with
  | nil => exact absurd rfl hne
  | cons vd vs =>
    refine ⟨fun h => ⟨fun h1 u => bernsteinDer_none_of_lt u 2 _ h1,
      fun h2 v => bernsteinDer_none_of_lt v 2 _ h2,
      fun u v => evaluateDer_none_of_lt s u v 2 hb h, ?_⟩,
      fun h => ⟨fun h1 u => bernsteinDer_none_of_lt u 1 _ h1,
      fun h2 v => bernsteinDer_none_of_lt v 1 _ h2,
      fun u v => evaluateDer_none_of_lt s u v 1 hb h, ?_⟩⟩
    · simp only [updateMeanCurvatureBezier, forEachVertex, bezierMean,
        evaluateDer_none_of_lt s vd.u vd.v 2 hb h]
    · simp only [updateVertexNormalsBezier, forEachVertex, bezierNormal,
        evaluateDer_none_of_lt s vd.u vd.v 1 hb h]

/-- The failing input of C23: the file with header `1 1` and four point lines is loaded by
`openBezier` with degrees `(1, 1)`; `2 <= 1` is false and `updateMeanCurvature` on a mesh
with one vertex does not complete. -/
theorem C23_low_degree_breaks_precondition_witness :
    (openBezier (some file11) "a.bzr" emptyViewer).1 = true ∧
      (openBezier (some file11) "a.bzr" emptyViewer).2.degree = (1, 1) ∧
      (openBezier (some file11) "a.bzr" emptyViewer).2.trigonometric_basis = false ∧
      (oneVertexMesh ℚ).vertices ≠ [] ∧ ¬ (2 ≤ 1) ∧
      (∀ u v : ℚ, evaluateDer (openBezier (some file11) "a.bzr" emptyViewer).2 u v 2 = none) ∧
      updateMeanCurvatureBezier (fun x => x) (openBezier (some file11) "a.bzr" emptyViewer).2
        (oneVertexMesh ℚ) = none := by
  have h := openBezier_of_parse (some file11) "a.bzr" emptyViewer 1 1 _ parseBezier_file11
  have hc := (C23_low_degree_breaks_precondition (fun x : ℚ => x)
    (openBezier (some file11) "a.bzr" emptyViewer).2 (oneVertexMesh ℚ)
    (by rw [h]; rfl) (by simp [oneVertexMesh])).1 (by rw [h]; left; decide)
  refine ⟨by rw [h], by rw [h], by rw [h]; rfl, by simp [oneVertexMesh], by decide,
    hc.2.2.1, hc.2.2.2⟩

end MyViewer

end Claim23

namespace MyViewer

section Claim24

variable {K : Type} [LinearOrderedField K]

/-- Claim C24, the code at the failing input. At a vertex with no incident face, whatever
its incoming half-edges, the square root and the dihedral angles, the vertex area of the
mesh branch of `updateMeanCurvature` is `0` and the multiplication by
`0.25 / vertex_area[v]` is made with that zero divisor: no value is substituted and none
is produced. -/
theorem C24_zero_vertex_area_is_divided_by (sqrt : K → K) (dihedral : Halfedge K → K)
    (incoming : List (Halfedge K)) :
    vertexArea sqrt { incoming := incoming, faces := [] } = 0 ∧
      meshMean sqrt dihedral { incoming := incoming, faces := [] } = none ∧
      meshMean sqrt dihedral (isolatedVertex K) = none := by
  have h0 : ∀ inc : List (Halfedge K), vertexArea sqrt { incoming := inc, faces := [] } = 0 := by
    intro inc
    simp [vertexArea]
  refine ⟨h0 incoming, ?_, ?_⟩
  · simp only [meshMean, h0 incoming, if_true]
  · simp only [meshMean, isolatedVertex, h0 [], if_true]

end Claim24

end MyViewer

section Claim26

variable {K : Type} [LinearOrderedField K] [FloorRing K]

/-- Claim C26, the code on the inputs the claim covers. For every non-empty list of `n`
values and every cutoff ratio in `[0, 1]`, with `k = floor(n * cutoff_ratio)`
(`k <= n * cutoff_ratio < k + 1`): `k <= n`,
the position `k ? k-1 : 0` read for `mean_min` is below `n`, and the position read for
`mean_max` is `n - k`, which is below `n` exactly when `n * cutoff_ratio >= 1`; when
`n * cutoff_ratio < 1` it is `n`, one past the end of the sorted list. -/
theorem C26_read_positions (vertex_mean : List K) (cutoff_ratio : K)
    (hne : vertex_mean ≠ []) (h0 : 0 ≤ cutoff_ratio) (h1 : cutoff_ratio ≤ 1) :
    (cutoffCount vertex_mean.length cutoff_ratio : K) ≤ (vertex_mean.length : K) * cutoff_ratio ∧
      (vertex_mean.length : K) * cutoff_ratio <
        (cutoffCount vertex_mean.length cutoff_ratio : K) + 1 ∧
      cutoffCount vertex_mean.length cutoff_ratio ≤ vertex_mean.length ∧
      meanMinIndex (cutoffCount vertex_mean.length cutoff_ratio) < vertex_mean.length ∧
      meanMaxIndex vertex_mean.length (cutoffCount vertex_mean.length cutoff_ratio) =
        some (vertex_mean.length - cutoffCount vertex_mean.length cutoff_ratio) ∧
      (vertex_mean.length - cutoffCount vertex_mean.length cutoff_ratio < vertex_mean.length ↔
        1 ≤ (vertex_mean.length : K) * cutoff_ratio) ∧
      ((vertex_mean.length : K) * cutoff_ratio < 1 →
        meanMaxIndex vertex_mean.length (cutoffCount vertex_mean.length cutoff_ratio) =
          some vertex_mean.length ∧
        (vertex_mean.insertionSort (· ≤ ·))[vertex_mean.length]? = none) := by
  have hn : 0 < vertex_mean.length := List.length_pos.mpr hne
  have hk : cutoffCount vertex_mean.length cutoff_ratio ≤ vertex_mean.length := by
    unfold cutoffCount
    apply Nat.floor_le_of_le
    have : (0 : K) ≤ (vertex_mean.length : K) := Nat.cast_nonneg _
    nlinarith
  have hpos : 0 < cutoffCount vertex_mean.length cutoff_ratio ↔
      1 ≤ (vertex_mean.length : K) * cutoff_ratio := by
    unfold cutoffCount
    exact Nat.floor_pos
  refine ⟨Nat.floor_le (mul_nonneg (Nat.cast_nonneg _) h0), Nat.lt_floor_add_one _, hk,
    ?_, ?_, ?_, ?_⟩
  · unfold meanMinIndex
    split_ifs with hz
    · omega
    · exact hn
  · simp only [meanMaxIndex, hk, if_true]
  · rw [← hpos]
    omega
  · intro hlt
    have hz : cutoffCount vertex_mean.length cutoff_ratio = 0 := by
      by_contra hne0
      exact absurd (hpos.mp (Nat.pos_of_ne_zero hne0)) (not_le.mpr hlt)
    refine ⟨by simp [meanMaxIndex, hz], ?_⟩
    apply List.getElem?_eq_none
    rw [List.length_insertionSort]

/-- The failing input of C26: four values and the default cutoff ratio `0.05`; `k` is `0`
and the position read for `mean_max` is `4`, past the end of the four sorted values. -/
theorem C26_read_positions_witness :
    ([3, -1, 2, 5] : List ℚ) ≠ [] ∧ (0 : ℚ) ≤ 1/20 ∧ (1/20 : ℚ) ≤ 1 ∧
      ((4 : ℕ) : ℚ) * (1/20) < 1 ∧
      meanMaxIndex 4 (cutoffCount 4 (1/20 : ℚ)) = some 4 ∧
      (([3, -1, 2, 5] : List ℚ).insertionSort (· ≤ ·))[4]? = none :=
  ⟨by simp, by norm_num, by norm_num, by norm_num,
    (C26_read_positions ([3, -1, 2, 5] : List ℚ) (1/20) (by simp) (by norm_num)
      (by norm_num)).2.2.2.2.2.2 (by norm_num)⟩

end Claim26
namespace MyViewer

section Claim25

variable {K : Type} [LinearOrderedField K]

theorem meshNormalStep_foldl (l : List (Halfedge K)) : ∀ acc : Vec K,
    l.foldl meshNormalStep acc = acc +
      ((l.filter (fun h => !h.is_boundary)).map (fun h =>
        divVec (cross (calc_edge_vector h) (calc_edge_vector h.next))
          (if squaredNorm (calc_edge_vector h) * squaredNorm (calc_edge_vector h.next) = 0
           then 1
           else squaredNorm (calc_edge_vector h) * squaredNorm (calc_edge_vector h.next)))).sum := by
  induction l with
  | nil => intro acc; simp
  | cons h t ih =>
    intro acc
    rw [List.foldl_cons, ih]
    cases hb : h.is_boundary
    · simp only [meshNormalStep, hb, Bool.false_eq_true, if_false, List.filter_cons, Bool.not_false,
        if_true, List.map_cons, List.sum_cons, add_assoc]
    · simp only [meshNormalStep, hb, if_true, List.filter_cons, Bool.not_true, Bool.false_eq_true,
        if_false]

theorem squaredNorm_zero : squaredNorm (0 : Vec K) = 0 := by
  simp [squaredNorm]

theorem squaredNorm_divVec (a : Vec K) (k : K) :
    squaredNorm (divVec a k) = squaredNorm a / (k * k) := by
  simp only [squaredNorm, divVec]
  by_cases hk : k = 0
  · simp [hk]
  · field_simp

/-- Claim C25. For every vertex, with a square root that returns the non-negative root of
every non-negative number: the mesh branch of `updateVertexNormals` accumulates
`(in x out) / w` over the non-boundary incoming half-edges, with
`w = |in|^2 * |out|^2` replaced by `1` when it is `0`; the vector it stores is the zero
vector exactly when the accumulated sum is zero, and otherwise has length exactly `1`. -/
theorem C25_mesh_normal_unit_or_zero (sqrt : K → K) (ring : VertexRing K)
    (hsqrt : ∀ x : K, 0 ≤ x → 0 ≤ sqrt x ∧ sqrt x * sqrt x = x) :
    meshNormalSum ring =
        ((ring.incoming.filter (fun h => !h.is_boundary)).map (fun h =>
          divVec (cross (calc_edge_vector h) (calc_edge_vector h.next))
            (if squaredNorm (calc_edge_vector h) * squaredNorm (calc_edge_vector h.next) = 0
             then 1
             else squaredNorm (calc_edge_vector h) *
               squaredNorm (calc_edge_vector h.next)))).sum ∧
      (meshNormal sqrt ring = 0 ↔ meshNormalSum ring = 0) ∧
      (meshNormalSum ring ≠ 0 → sqrt (squaredNorm (meshNormal sqrt ring)) = 1) := by
  have hs0 : sqrt 0 = 0 := by
    have := (hsqrt 0 (le_refl 0)).2
    exact mul_self_eq_zero.mp this
  have hs1 : sqrt 1 = 1 := by
    obtain ⟨h0, h1⟩ := hsqrt 1 zero_le_one
    nlinarith
  have hunit : meshNormalSum ring ≠ 0 →
      squaredNorm (meshNormal sqrt ring) = 1 := by
    intro hne
    have hS : 0 < squaredNorm (meshNormalSum ring) := squaredNorm_pos hne
    obtain ⟨h0, h1⟩ := hsqrt _ hS.le
    have hlen : sqrt (squaredNorm (meshNormalSum ring)) ≠ 0 := by
      intro hz
      rw [hz, mul_zero] at h1
      exact hS.ne h1
    simp only [meshNormal, hlen, ne_eq, not_false_eq_true, if_true]
    rw [squaredNorm_divVec, h1]
    exact div_self hS.ne'
  refine ⟨?_, ⟨?_, ?_⟩, ?_⟩
  · rw [meshNormalSum, meshNormalStep_foldl, zero_add]
  · intro hz
    by_contra hne
    have := hunit hne
    rw [hz, squaredNorm_zero] at this
    exact zero_ne_one this
  · intro hz
    simp only [meshNormal, hz, squaredNorm_zero, hs0, ne_eq, not_true_eq_false, if_false]
  · intro hne
    rw [hunit hne, hs1]

/-- Witness of C25: the real square root and the vertex with one incoming half-edge of a
right triangle. -/
theorem C25_mesh_normal_unit_or_zero_witness :
    (∀ x : ℝ, 0 ≤ x → 0 ≤ Real.sqrt x ∧ Real.sqrt x * Real.sqrt x = x) ∧
      (meshNormal Real.sqrt (cornerVertex ℝ) = 0 ↔ meshNormalSum (cornerVertex ℝ) = 0) :=
  ⟨fun x hx => ⟨Real.sqrt_nonneg x, Real.mul_self_sqrt hx⟩,
    (C25_mesh_normal_unit_or_zero Real.sqrt (cornerVertex ℝ)
      (fun x hx => ⟨Real.sqrt_nonneg x, Real.mul_self_sqrt hx⟩)).2.1⟩

end Claim25

end MyViewer
section Claim27a

theorem voronoiClosed_sum (s x y z : ℝ) (hs : 0 < s) (hG : s ^ 2 = x * y + y * z + z * x)
    (hb : 0 ≤ x + z) (hc : 0 ≤ x + y) (ha : 0 ≤ y + z) :
    voronoiClosed s x y z + voronoiClosed s z x y + voronoiClosed s y z x = s / 2 := by
  have hGpos : 0 < x * y + y * z + z * x := by rw [← hG]; positivity
  by_cases hz : z < 0
  · have hx : 0 < x := by linarith
    have hy : 0 < y := by linarith
    simp only [voronoiClosed, hz, if_true, not_lt.mpr hx.le, not_lt.mpr hy.le, if_false]
    norm_num
    field_simp
    ring
  · by_cases hy : y < 0
    · have hx : 0 < x := by linarith
      have hz' : 0 < z := by linarith
      simp only [voronoiClosed, hy, if_true, not_lt.mpr hx.le, not_lt.mpr hz'.le, if_false]
      norm_num
      field_simp
      ring
    · by_cases hx : x < 0
      · have hy' : 0 < y := by linarith
        have hz' : 0 < z := by linarith
        simp only [voronoiClosed, hx, if_true, not_lt.mpr hy'.le, not_lt.mpr hz'.le, if_false]
        norm_num
        field_simp
        ring
      · simp only [voronoiClosed, hx, hy, hz, if_false]
        field_simp
        nlinarith [hG]

end Claim27a
section Claim27b

theorem area_term (B Y s X : ℝ) (hB : 0 ≤ B) (hY : 0 ≤ Y) (hs : 0 < s)
    (hX : X = B * Y ^ 2 / s ^ 2) :
    Real.sqrt B * Real.sqrt (max X 0) = B * Y / s := by
  have hX0 : 0 ≤ X := by rw [hX]; positivity
  rw [max_eq_left hX0, hX, Real.sqrt_div (by positivity), Real.sqrt_sq hs.le,
    Real.sqrt_mul hB, Real.sqrt_sq hY, ← mul_div_assoc, ← mul_assoc, Real.mul_self_sqrt hB]

theorem acute_weight (s x y z sinα : ℝ) (hs : 0 < s) (hG : s ^ 2 = x * y + y * z + z * x)
    (hy : 0 ≤ y) (hz : 0 ≤ z) (hb : 0 < x + z) (hc : 0 < x + y)
    (hsin : sinα ^ 2 = s ^ 2 / ((x + z) * (x + y))) :
    0.125 * Real.sqrt (x + z) *
        Real.sqrt (max (4.0 * (0.25 * (y + z) / sinα ^ 2) - (x + z)) 0.0) +
      0.125 * Real.sqrt (x + y) *
        Real.sqrt (max (4.0 * (0.25 * (y + z) / sinα ^ 2) - (x + y)) 0.0) =
      ((x + z) * y + (x + y) * z) / (8 * s) := by
  have hs2 : (s ^ 2 : ℝ) ≠ 0 := by positivity
  have e1 : (4.0 : ℝ) * (0.25 * (y + z) / sinα ^ 2) - (x + z) = (x + z) * y ^ 2 / s ^ 2 := by
    rw [hsin]
    norm_num
    field_simp
    rw [hG]
    ring
  have e2 : (4.0 : ℝ) * (0.25 * (y + z) / sinα ^ 2) - (x + y) = (x + y) * z ^ 2 / s ^ 2 := by
    rw [hsin]
    norm_num
    field_simp
    rw [hG]
    ring
  have z0 : (0.0 : ℝ) = 0 := by norm_num
  rw [z0, mul_assoc, mul_assoc, area_term (x + z) y s _ hb.le hy hs e1,
    area_term (x + y) z s _ hc.le hz hs e2]
  norm_num
  field_simp

theorem corner_dots (P A Q : Vec ℝ) :
    squaredNorm (Q - A) = dot (Q - A) (P - A) + dot (P - Q) (A - Q) ∧
    squaredNorm (A - P) = dot (Q - A) (P - A) + dot (A - P) (Q - P) ∧
    squaredNorm (P - Q) = dot (A - P) (Q - P) + dot (P - Q) (A - Q) ∧
    squaredNorm (cross (A - P) (Q - A)) =
      dot (Q - A) (P - A) * dot (A - P) (Q - P) + dot (A - P) (Q - P) * dot (P - Q) (A - Q) +
        dot (P - Q) (A - Q) * dot (Q - A) (P - A) := by
  obtain ⟨p1, p2, p3⟩ := P
  obtain ⟨a1, a2, a3⟩ := A
  obtain ⟨q1, q2, q3⟩ := Q
  simp only [squaredNorm, dot, cross, Prod.mk_sub_mk]
  refine ⟨by ring, by ring, by ring, by ring⟩

end Claim27b
namespace MyViewer

section Claim27c

theorem voronoiWeight_eq_closed (P A Q : Vec ℝ) (hnd : cross (A - P) (Q - A) ≠ 0) :
    voronoiWeight Real.sqrt Real.arccos Real.tan Real.sin
        { is_boundary := false, from_point := P, to_point := A, next_point := Q } =
      voronoiClosed (Real.sqrt (squaredNorm (cross (A - P) (Q - A))))
        (dot (Q - A) (P - A)) (dot (A - P) (Q - P)) (dot (P - Q) (A - Q)) := by
  have hG : 0 < squaredNorm (cross (A - P) (Q - A)) := squaredNorm_pos hnd
  have hGa : 0 < squaredNorm (cross (Q - A) (P - A)) := by
    rw [cross_corner_to P A Q]; exact hG
  have hGb : 0 < squaredNorm (cross (A - P) (Q - P)) := by
    rw [cross_corner_from P A Q]; exact hG
  have hGc : 0 < squaredNorm (cross (P - Q) (A - Q)) := by
    rw [cross_corner_next P A Q]; exact hG
  obtain ⟨hb2, hc2, ha2, hGxyz⟩ := corner_dots P A Q
  have hb0 := squaredNorm_nonneg (Q - A)
  have hc0 := squaredNorm_nonneg (A - P)
  have ha0 := squaredNorm_nonneg (P - Q)
  have hs : 0 < Real.sqrt (squaredNorm (cross (A - P) (Q - A))) := Real.sqrt_pos.mpr hG
  have hs2 : Real.sqrt (squaredNorm (cross (A - P) (Q - A))) ^ 2 =
      squaredNorm (cross (A - P) (Q - A)) := Real.sq_sqrt hG.le
  have hsin := sector_sin (Q - A) (P - A) hGa
  rw [cross_corner_to P A Q, squaredNorm_sub_comm P A] at hsin
  simp only [voronoiWeight, Halfedge.next, Halfedge.prev, calc_edge_vector, calc_sector_angle,
    Bool.false_eq_true, if_false]
  generalize hsdef : Real.sqrt (squaredNorm (cross (A - P) (Q - A))) = s at hs hs2 hsin ⊢
  rw [hGxyz] at hs2 hG
  rw [hb2] at hb0
  rw [hc2] at hc0
  rw [hb2, hc2] at hsin
  rw [hb2, hc2, ha2]
  clear ha0
  split_ifs with h1 h2 h3
  · -- obtuse gamma
    have hz : dot (P - Q) (A - Q) < 0 := by linarith
    have hx : 0 < dot (Q - A) (P - A) := by linarith
    rw [sector_tan _ _ hGa hx, cross_corner_to P A Q, hsdef]
    simp only [voronoiClosed, hz, if_true]
  · -- obtuse beta
    have hz : ¬ dot (P - Q) (A - Q) < 0 := by intro h; exact h1 (by linarith)
    have hy : dot (A - P) (Q - P) < 0 := by linarith
    have hx : 0 < dot (Q - A) (P - A) := by linarith
    rw [sector_tan _ _ hGa hx, cross_corner_to P A Q, hsdef]
    simp only [voronoiClosed, hz, hy, if_true, if_false]
  · -- obtuse alpha
    have hz : ¬ dot (P - Q) (A - Q) < 0 := by intro h; exact h1 (by linarith)
    have hy : ¬ dot (A - P) (Q - P) < 0 := by intro h; exact h2 (by linarith)
    have hx : dot (Q - A) (P - A) < 0 := by linarith
    have hy0 : 0 < dot (A - P) (Q - P) := by linarith
    have hz0 : 0 < dot (P - Q) (A - Q) := by linarith
    rw [sector_tan _ _ hGb hy0, sector_tan _ _ hGc hz0, cross_corner_from P A Q,
      cross_corner_next P A Q, hsdef]
    have e3 : (0.5 : ℝ) * Real.sqrt (dot (Q - A) (P - A) + dot (P - Q) (A - Q)) *
        Real.sqrt (dot (Q - A) (P - A) + dot (A - P) (Q - P)) *
        Real.sin (sector_angle Real.sqrt Real.arccos (Q - A) (P - A)) = 0.5 * s := by
      rw [← hsin]; ring
    rw [e3]
    simp only [voronoiClosed, hz, hy, hx, if_true, if_false]
  · -- no obtuse angle
    have hz : ¬ dot (P - Q) (A - Q) < 0 := by intro h; exact h1 (by linarith)
    have hy : ¬ dot (A - P) (Q - P) < 0 := by intro h; exact h2 (by linarith)
    have hx : ¬ dot (Q - A) (P - A) < 0 := by intro h; exact h3 (by linarith)
    have hbpos : 0 < dot (Q - A) (P - A) + dot (P - Q) (A - Q) := by
      rcases hb0.lt_or_eq with h | h
      · exact h
      · exfalso
        have hx0 : dot (Q - A) (P - A) = 0 := by linarith [not_lt.mp hx, not_lt.mp hz]
        have hz0 : dot (P - Q) (A - Q) = 0 := by linarith [not_lt.mp hx, not_lt.mp hz]
        rw [hx0, hz0] at hG
        simp at hG
    have hcpos : 0 < dot (Q - A) (P - A) + dot (A - P) (Q - P) := by
      rcases hc0.lt_or_eq with h | h
      · exact h
      · exfalso
        have hx0 : dot (Q - A) (P - A) = 0 := by linarith [not_lt.mp hx, not_lt.mp hy]
        have hy0 : dot (A - P) (Q - P) = 0 := by linarith [not_lt.mp hx, not_lt.mp hy]
        rw [hx0, hy0] at hG
        simp at hG
    have hsq : Real.sin (sector_angle Real.sqrt Real.arccos (Q - A) (P - A)) ^ 2 =
        s ^ 2 / ((dot (Q - A) (P - A) + dot (P - Q) (A - Q)) *
          (dot (Q - A) (P - A) + dot (A - P) (Q - P))) := by
      have hne : Real.sqrt (dot (Q - A) (P - A) + dot (P - Q) (A - Q)) *
          Real.sqrt (dot (Q - A) (P - A) + dot (A - P) (Q - P)) ≠ 0 :=
        mul_ne_zero (Real.sqrt_ne_zero'.mpr hbpos) (Real.sqrt_ne_zero'.mpr hcpos)
      have hsin' : Real.sin (sector_angle Real.sqrt Real.arccos (Q - A) (P - A)) =
          s / (Real.sqrt (dot (Q - A) (P - A) + dot (P - Q) (A - Q)) *
            Real.sqrt (dot (Q - A) (P - A) + dot (A - P) (Q - P))) := by
        rw [eq_div_iff hne, mul_comm]
        exact hsin
      rw [hsin', div_pow, mul_pow, Real.sq_sqrt hbpos.le, Real.sq_sqrt hcpos.le]
    simp only [voronoiClosed, hz, hy, hx, if_false]
    exact acute_weight s _ _ _ _ hs hs2 (not_lt.mp hy) (not_lt.mp hz) hbpos hcpos hsq

end Claim27c

end MyViewer
namespace MyViewer

section Claim27

/-- Claim C27. Over the reals, for every non-boundary half-edge of a triangle of positive
area, the values `voronoiWeight` returns for the three half-edges of the triangle (the
half-edge, its next and its previous one, one per corner) sum to the area of the
triangle, whichever branch each of the three calls takes. -/
theorem C27_voronoi_weights_sum_to_area (h : Halfedge ℝ) (hb : h.is_boundary = false)
    (harea : 0 < calc_sector_area Real.sqrt h) :
    voronoiWeight Real.sqrt Real.arccos Real.tan Real.sin h +
        voronoiWeight Real.sqrt Real.arccos Real.tan Real.sin h.next +
        voronoiWeight Real.sqrt Real.arccos Real.tan Real.sin h.prev =
      calc_sector_area Real.sqrt h := by
  obtain ⟨b, P, A, Q⟩ := h
  simp only at hb
  subst hb
  simp only [calc_sector_area, Halfedge.next, calc_edge_vector] at harea ⊢
  have hGa : 0 < squaredNorm (cross (Q - A) (P - A)) := by
    by_contra hle
    rw [Real.sqrt_eq_zero_of_nonpos (not_lt.mp hle)] at harea
    simp at harea
  rw [cross_corner_to P A Q] at hGa ⊢
  have hnd : cross (A - P) (Q - A) ≠ 0 := by
    intro hz
    rw [hz, squaredNorm_zero] at hGa
    exact lt_irrefl _ hGa
  have e1 : cross (Q - A) (P - Q) = cross (A - P) (Q - A) :=
    (cross_corner_to A Q P).symm.trans (cross_corner_next P A Q)
  have e2 : cross (P - Q) (A - P) = cross (A - P) (Q - A) :=
    (cross_corner_to Q P A).symm.trans (cross_corner_from P A Q)
  have w0 := voronoiWeight_eq_closed P A Q hnd
  have w1 := voronoiWeight_eq_closed A Q P (by rw [e1]; exact hnd)
  have w2 := voronoiWeight_eq_closed Q P A (by rw [e2]; exact hnd)
  rw [e1] at w1
  rw [e2] at w2
  obtain ⟨hb2, hc2, ha2, hGxyz⟩ := corner_dots P A Q
  simp only [Halfedge.prev]
  rw [w0, w1, w2]
  apply voronoiClosed_sum _ _ _ _ (Real.sqrt_pos.mpr hGa)
  · rw [Real.sq_sqrt hGa.le, hGxyz]
  · rw [← hb2]; exact squaredNorm_nonneg _
  · rw [← hc2]; exact squaredNorm_nonneg _
  · rw [← ha2]; exact squaredNorm_nonneg _

/-- Witness of C27: the half-edge of the right triangle with corners `(0, 0, 0)`,
`(1, 0, 0)`, `(0, 1, 0)`, of area `1/2`. -/
theorem C27_voronoi_weights_sum_to_area_witness :
    (rightTriangle ℝ).is_boundary = false ∧ calc_sector_area Real.sqrt (rightTriangle ℝ) = 1 / 2 ∧
      voronoiWeight Real.sqrt Real.arccos Real.tan Real.sin (rightTriangle ℝ) +
          voronoiWeight Real.sqrt Real.arccos Real.tan Real.sin (rightTriangle ℝ).next +
          voronoiWeight Real.sqrt Real.arccos Real.tan Real.sin (rightTriangle ℝ).prev =
        calc_sector_area Real.sqrt (rightTriangle ℝ) :=
  have ha : calc_sector_area Real.sqrt (rightTriangle ℝ) = 1 / 2 := by
    simp [calc_sector_area, rightTriangle, Halfedge.next, calc_edge_vector, cross, squaredNorm]
  ⟨rfl, ha, C27_voronoi_weights_sum_to_area (rightTriangle ℝ) rfl (by rw [ha]; norm_num)⟩

end Claim27

end MyViewer
end TrigoBasis
